import Mathlib

/-!
EPT point cloud index.

A shallow embedding of `src/core/pointcloud/qgseptpointcloudindex.cpp`
(class `QgsEptPointCloudIndex`): the hierarchy store (`mHierarchy`,
`mHierarchyNodes`), the hierarchy loader, the schema loader, the bootstrap
`load` and the node queries, followed by the theorems about them.

Conventions of the embedding.

* A member function that mutates the index becomes a function from the index
  state to a result paired with the new index state.
* C++ `int` values are `Int`.  A `double` that is read from a document and copied is the
  exact rational it stands for; the `double` arithmetic on the root bounds is that of
  IEEE 754 binary64, with values in `Double`; the subtraction of `metadataStatistic` is
  kept exact.
* Everything outside the index (files, network, the JSON parser, the tile
  cache, the decoders) is an oracle in `Env`, fixed for the duration of one
  call.  Each call may be run against a different `Env`.
* The field `trace` of the index state is not a member of the C++ class: it
  records, in order, the I/O the calls have issued.
* Calls are run one after another, so `mHierarchyMutex` has no bearing on their results;
  what a call does with the mutex is recorded apart, under `The hierarchy mutex`.
-/

/-! ## Qt containers -/

/-- Association list standing for a `QMap` or `QHash`: the first binding of a key is its value. -/
abbrev QMap (κ : Type) (α : Type) := List (κ × α)

/-- List without duplicates standing for a `QSet`. -/
abbrev QSet (κ : Type) := List κ

namespace QMap

variable {κ α : Type} [DecidableEq κ]

/-- Lookup of a key, `none` when the key has no binding. -/
def find : QMap κ α → κ → Option α
  | [], _ => none
  | (k1, v) :: m, k => if k1 = k then some v else find m k

/-- `QMap::contains` and `QHash::contains`. -/
def contains (m : QMap κ α) (k : κ) : Bool := (find m k).isSome

/-- `QMap::value( key, defaultValue )`. -/
def value (m : QMap κ α) (k : κ) (defaultValue : α) : α := (find m k).getD defaultValue

/-- The map without the bindings of `k`. -/
def erase : QMap κ α → κ → QMap κ α
  | [], _ => []
  | (k1, v) :: m, k => if k1 = k then erase m k else (k1, v) :: erase m k

/-- `QMap::insert` and `operator[]` assignment: the binding of `k` becomes `v`, replacing an old one. -/
def insert (m : QMap κ α) (k : κ) (v : α) : QMap κ α :=
  (k, v) :: erase m k

end QMap

namespace QSet

variable {κ : Type} [DecidableEq κ]

/-- `QSet::contains`. -/
def contains (s : QSet κ) (k : κ) : Bool := decide (k ∈ s)

/-- `QSet::insert`. -/
def insert (s : QSet κ) (k : κ) : QSet κ := if k ∈ s then s else k :: s

end QSet

/-! ## JSON values (QJsonValue, QJsonObject, QJsonArray, QJsonDocument) -/

/-- A `QJsonValue`.  A number is a finite double, kept as the exact rational it stands for;
the negative zero is not among the numbers. -/
inductive QJsonValue where
  | undefined
  | null
  | bool (b : Bool)
  | double (q : ℚ)
  | string (s : String)
  | array (items : List QJsonValue)
  | object (members : List (String × QJsonValue))

/-- A `QJsonObject`: its members in iteration order. -/
abbrev QJsonObject := List (String × QJsonValue)

/-- A `QJsonArray`. -/
abbrev QJsonArray := List QJsonValue

namespace QJsonValue

/-- `QJsonValue::toInt()`: the number when it is integral and fits a 32-bit `int`, else the default 0. -/
def toInt : QJsonValue → Int
  | double q => if q.den = 1 ∧ -2147483648 ≤ q.num ∧ q.num ≤ 2147483647 then q.num else 0
  | _ => 0

/-- `QJsonValue::toDouble()`: the number, else the default 0. -/
def toDouble : QJsonValue → ℚ
  | double q => q
  | _ => 0

/-- `QJsonValue::toString()`: the string, else the empty string. -/
def toString : QJsonValue → String
  | string s => s
  | _ => ""

/-- `QJsonValue::toObject()`: the object, else the empty object. -/
def toObject : QJsonValue → QJsonObject
  | object members => members
  | _ => []

/-- `QJsonValue::toArray()`: the array, else the empty array. -/
def toArray : QJsonValue → QJsonArray
  | array items => items
  | _ => []

end QJsonValue

namespace QJsonObject

/-- `QJsonObject::value( key )`: the member, `undefined` when the key is absent. -/
def value (o : QJsonObject) (key : String) : QJsonValue := (QMap.find o key).getD QJsonValue.undefined

/-- `QJsonObject::contains( key )`. -/
def contains (o : QJsonObject) (key : String) : Bool := (QMap.find o key).isSome

end QJsonObject

/-- A `QJsonDocument` that was parsed without error: it holds an object or an array. -/
inductive QJsonDocument where
  | ofObject (o : QJsonObject)
  | ofArray (a : QJsonArray)

namespace QJsonDocument

/-- `QJsonDocument::object()`: the object, the empty object when the document holds an array. -/
def object : QJsonDocument → QJsonObject
  | ofObject o => o
  | ofArray _ => []

/-- `QJsonDocument::array()`: the array, the empty array when the document holds an object. -/
def array : QJsonDocument → QJsonArray
  | ofObject _ => []
  | ofArray a => a

end QJsonDocument

/-- A `QByteArray` as the index uses it: whether it is empty, and what
`QJsonDocument::fromJson` makes of it (`none` stands for a parse error). -/
structure QByteArray where
  isEmpty : Bool
  fromJson : Option QJsonDocument

/-! ## Octree node address -/

/-- The octree address `IndexedPointCloudNode( d, x, y, z )`. -/
structure IndexedPointCloudNode where
  d : Int
  x : Int
  y : Int
  z : Int
deriving DecidableEq, Repr

namespace IndexedPointCloudNode

/-- Modelled from the spec: `IndexedPointCloudNode::parentNode` is declared outside this file.
The spec gives the parent of a node as `(d-1, x/2, y/2, z/2)`, depth `-1` being the
no-parent sentinel.  The divisions are C++ `int` divisions. -/
def parentNode (n : IndexedPointCloudNode) : IndexedPointCloudNode :=
  ⟨n.d - 1, Int.tdiv n.x 2, Int.tdiv n.y 2, Int.tdiv n.z 2⟩

/-- Modelled from the spec: `IndexedPointCloudNode::toString` is declared outside this file.
The spec gives the string form as `d-x-y-z`. -/
def toString (n : IndexedPointCloudNode) : String :=
  ToString.toString n.d ++ "-" ++ ToString.toString n.x ++ "-" ++ ToString.toString n.y ++ "-" ++
    ToString.toString n.z

end IndexedPointCloudNode

/-- The root node `IndexedPointCloudNode( 0, 0, 0, 0 )`. -/
def rootNode : IndexedPointCloudNode := ⟨0, 0, 0, 0⟩

/-! ## Strings -/

/-- The pieces of a list of characters between the occurrences of `sep`; `cur` is the piece
being read, in reverse. -/
def splitChars (sep : Char) : List Char → List Char → List (List Char)
  | [], cur => [cur.reverse]
  | c :: cs, cur =>
    if c = sep then cur.reverse :: splitChars sep cs [] else splitChars sep cs (c :: cur)

/-- `QString::split( sep )`. -/
def qSplit (str : String) (sep : Char) : List String :=
  (splitChars sep str.toList []).map String.mk

/-- `QStringList::join( sep )`. -/
def qJoin (parts : List String) (sep : String) : String := sep.intercalate parts

/-! ## Attributes, statistics, requests -/

/-- The values of `QgsPointCloudAttribute::DataType` that this file constructs. -/
inductive DataType where
  | Char
  | UChar
  | Short
  | UShort
  | Int32
  | Float
  | Double
deriving DecidableEq, Repr

/-- A `QgsPointCloudAttribute( name, type )`. -/
structure QgsPointCloudAttribute where
  name : String
  type : DataType
deriving DecidableEq, Repr

/-- Modelled from the spec: `QgsPointCloudAttribute::size` is declared outside this file.
The spec names the primitive types by their width: signed 8-bit, unsigned 16-bit, signed
16-bit, signed 32-bit, 32-bit float, 64-bit float, and 1-byte flags. -/
def QgsPointCloudAttribute.size (a : QgsPointCloudAttribute) : Nat :=
  match a.type with
  | DataType.Char => 1
  | DataType.UChar => 1
  | DataType.Short => 2
  | DataType.UShort => 2
  | DataType.Int32 => 4
  | DataType.Float => 4
  | DataType.Double => 8

/-- A `QgsPointCloudAttributeCollection`: the attributes in order; `push_back` appends. -/
abbrev QgsPointCloudAttributeCollection := List QgsPointCloudAttribute

/-- Modelled from the spec: `QgsPointCloudAttributeCollection::extend` is declared outside this
file.  The spec has the requested attributes widened to a superset that also holds the
attributes the filter refers to: each referenced name that the collection lacks and the full
schema `other` has is appended. -/
def QgsPointCloudAttributeCollection.extend (c other : QgsPointCloudAttributeCollection) :
    List String → QgsPointCloudAttributeCollection
  | [] => c
  | attributeName :: rest =>
    if c.any (fun a => decide (a.name = attributeName)) then extend c other rest
    else
      match other.find? (fun a => decide (a.name = attributeName)) with
      | some attr => extend (c ++ [attr]) other rest
      | none => extend c other rest

/-- The struct `AttributeStatistics` of the index: an unset `count` is `-1`, an unset
`minimum` or `maximum` is an invalid `QVariant` (`none`), an unset `mean`, `stDev` or
`variance` is NaN (`none`). -/
structure AttributeStatistics where
  count : Int := -1
  minimum : Option ℚ := none
  maximum : Option ℚ := none
  mean : Option ℚ := none
  stDev : Option ℚ := none
  variance : Option ℚ := none
deriving DecidableEq

/-- A `QgsVector3D`. -/
structure QgsVector3D where
  x : ℚ
  y : ℚ
  z : ℚ
deriving DecidableEq

/-- A `QgsRectangle`, holding the four numbers it was set from. -/
structure QgsRectangle where
  xMin : ℚ
  yMin : ℚ
  xMax : ℚ
  yMax : ℚ
deriving DecidableEq

/-- A C++ `double` (IEEE 754 binary64): a finite number other than the negative zero, the
negative zero, an infinity, or a NaN. -/
inductive Double where
  | finite (q : ℚ)
  | negZero
  | inf (negative : Bool)
  | nan
deriving DecidableEq

namespace Double

/-- The nearest integer to a non-negative rational, the even one of two that are equally
near. -/
def roundHalfEven (q : ℚ) : ℤ :=
  if q - ⌊q⌋ < 1 / 2 then ⌊q⌋
  else if 1 / 2 < q - ⌊q⌋ then ⌊q⌋ + 1
  else if ⌊q⌋ % 2 = 0 then ⌊q⌋ else ⌊q⌋ + 1

/-- The exponent of the unit in the last place of a double of magnitude `a > 0`: 52 below the
binary exponent of `a`, which is taken as -1022 when it is less (the subnormal numbers). -/
def ulpExponent (a : ℚ) : ℤ := max (Int.log 2 a) (-1022) - 52

/-- The double that an arithmetic operation delivers for the exact result `q`: `q` rounded to
the nearest double, ties to the even significand; an infinity when the rounded magnitude
reaches `2 ^ 1024`; a zero that a non-zero `q` rounds to keeps the sign of `q`. -/
def round (q : ℚ) : Double :=
  if q = 0 then finite 0
  else if (2 : ℚ) ^ 1024 ≤ roundHalfEven (|q| / 2 ^ ulpExponent |q|) * 2 ^ ulpExponent |q| then
    inf (decide (q < 0))
  else if roundHalfEven (|q| / 2 ^ ulpExponent |q|) = 0 then
    (if q < 0 then negZero else finite 0)
  else if q < 0 then finite (-(roundHalfEven (|q| / 2 ^ ulpExponent |q|) * 2 ^ ulpExponent |q|))
  else finite (roundHalfEven (|q| / 2 ^ ulpExponent |q|) * 2 ^ ulpExponent |q|)

/-- The operator `-` on two doubles. -/
def sub : Double → Double → Double
  | nan, _ => nan
  | _, nan => nan
  | inf a, inf b => if a = b then nan else inf a
  | inf a, _ => inf a
  | _, inf b => inf (!b)
  | negZero, negZero => finite 0
  | negZero, finite q => if q = 0 then negZero else round (-q)
  | finite q, negZero => round q
  | finite a, finite b => round (a - b)

/-- The operator `/` on two doubles. -/
def div : Double → Double → Double
  | nan, _ => nan
  | _, nan => nan
  | inf _, inf _ => nan
  | inf a, finite q => inf (a != decide (q < 0))
  | inf a, negZero => inf (!a)
  | finite q, inf b => if decide (q < 0) != b then negZero else finite 0
  | negZero, inf b => if b then finite 0 else negZero
  | negZero, negZero => nan
  | negZero, finite q => if q = 0 then nan else if q < 0 then finite 0 else negZero
  | finite q, negZero => if q = 0 then nan else inf (decide (0 < q))
  | finite a, finite b =>
    if b = 0 then (if a = 0 then nan else inf (decide (a < 0)))
    else if a = 0 then (if b < 0 then negZero else finite 0)
    else round (a / b)

/-- The number that a double is, `none` for an infinity and for a NaN. -/
def value : Double → Option ℚ
  | finite q => some q
  | negZero => some 0
  | _ => none

/-- The rational `q` is a finite double: an integer significand below `2 ^ 53` in magnitude
times a power of two with an exponent from -1074 to 971. -/
def Representable (q : ℚ) : Prop :=
  ∃ m e : ℤ, |m| < 2 ^ 53 ∧ -1074 ≤ e ∧ e ≤ 971 ∧ q = m * 2 ^ e

end Double

/-- The six `double` values handed to the constructor of `QgsPointCloudDataBounds`. -/
structure QgsPointCloudDataBounds where
  xMin : Double
  yMin : Double
  zMin : Double
  xMax : Double
  yMax : Double
  zMax : Double
deriving DecidableEq

/-- A `QgsPointCloudExpression`: its text and the result of `referencedAttributes()`. -/
structure QgsPointCloudExpression where
  text : String
  referencedAttributes : List String
deriving DecidableEq

/-- A `QgsPointCloudRequest`: the requested attributes and the filter rectangle. -/
structure QgsPointCloudRequest where
  attributes : QgsPointCloudAttributeCollection
  filterRect : QgsRectangle
deriving DecidableEq

/-- A decoded `QgsPointCloudBlock`; its content is not inspected by the index. -/
structure QgsPointCloudBlock where
  data : List Int
deriving DecidableEq

/-- The access type of the index. -/
inductive AccessType where
  | Local
  | Remote
deriving DecidableEq, Repr

/-- The arguments of `QgsEptDecoder::decompressBinary` and `QgsEptDecoder::decompressZStandard`. -/
structure EptDecoderCall where
  filename : String
  attributes : QgsPointCloudAttributeCollection
  requestAttributes : QgsPointCloudAttributeCollection
  scale : QgsVector3D
  offset : QgsVector3D
  filterExpression : QgsPointCloudExpression
  filterRect : QgsRectangle
deriving DecidableEq

/-- The arguments of `QgsLazDecoder::decompressLaz`. -/
structure LazDecoderCall where
  filename : String
  requestAttributes : QgsPointCloudAttributeCollection
  filterExpression : QgsPointCloudExpression
  filterRect : QgsRectangle
deriving DecidableEq

/-- The arguments of the constructor of `QgsEptPointCloudBlockRequest`, which issues the
network request for the tile. -/
structure EptBlockRequestArgs where
  node : IndexedPointCloudNode
  fileUrl : String
  dataType : String
  attributes : QgsPointCloudAttributeCollection
  requestAttributes : QgsPointCloudAttributeCollection
  scale : QgsVector3D
  offset : QgsVector3D
  filterExpression : QgsPointCloudExpression
  filterRect : QgsRectangle
deriving DecidableEq

/-- The arguments of the constructor of `QgsCachedPointCloudBlockRequest`. -/
structure CachedBlockRequestArgs where
  cached : QgsPointCloudBlock
  node : IndexedPointCloudNode
  uri : String
  attributes : QgsPointCloudAttributeCollection
  requestAttributes : QgsPointCloudAttributeCollection
  scale : QgsVector3D
  offset : QgsVector3D
  filterExpression : QgsPointCloudExpression
  filterRect : QgsRectangle
deriving DecidableEq

/-- The `QgsPointCloudBlockRequest` objects that `asyncNodeData` returns. -/
inductive QgsPointCloudBlockRequest where
  | cached (args : CachedBlockRequestArgs)
  | ept (args : EptBlockRequestArgs)
deriving DecidableEq

/-- One step of I/O issued by the index, as recorded in `trace`. -/
inductive Effect where
  | blockingGet (url : String)
  | fileOpen (path : String)
  | tileDownloadGet (url : String)
  | eptBlockRequest (args : EptBlockRequestArgs)
  | decompressBinary (call : EptDecoderCall)
  | decompressZStandard (call : EptDecoderCall)
  | decompressLaz (call : LazDecoderCall)
  | storeNodeDataToCache (block : Option QgsPointCloudBlock) (n : IndexedPointCloudNode)
      (request : QgsPointCloudRequest)
deriving DecidableEq

/-- The world outside the index during one call.

* `urlIsHttp u`: `QUrl( u )` is valid and its scheme is `http` or `https`.
* `fromString`: `IndexedPointCloudNode::fromString`, declared outside this file.
* `blockingGet u`: `QgsBlockingNetworkRequest::get`; an error carries `errorMessage()`.
* `fileRead p`: `QFile( p )` opened read-only and `readAll()`; `none` when it cannot be opened.
* `tileDownloadGet u`: the reply of `QgsApplication::tileDownloadManager()->get`; `none` on
  a reply error.
* `getNodeDataFromCache`: the tile cache of the base class.
* `takeBlock`: the block an EPT block request holds once it has finished.
* `decompressBinary`, `decompressZStandard`, `decompressLaz`: the decoders. -/
structure Env where
  urlIsHttp : String → Bool
  fromString : String → IndexedPointCloudNode
  blockingGet : String → Except String QByteArray
  fileRead : String → Option QByteArray
  tileDownloadGet : String → Option QByteArray
  getNodeDataFromCache : IndexedPointCloudNode → QgsPointCloudRequest → Option QgsPointCloudBlock
  takeBlock : EptBlockRequestArgs → Option QgsPointCloudBlock
  decompressBinary : EptDecoderCall → Option QgsPointCloudBlock
  decompressZStandard : EptDecoderCall → Option QgsPointCloudBlock
  decompressLaz : LazDecoderCall → Option QgsPointCloudBlock

/-! ## The index state -/

/-- The members of `QgsEptPointCloudIndex` (its own and those of its base class that this
file reads or writes), and the I/O trace. -/
structure QgsEptPointCloudIndex where
  mIsValid : Bool
  mError : String
  mAccessType : AccessType
  mUri : String
  mUrlDirectoryPart : String
  mDataType : String
  mWkt : String
  mSpan : Int
  mPointCount : Int
  mExtent : QgsRectangle
  mZMin : ℚ
  mZMax : ℚ
  mScale : QgsVector3D
  mOffset : QgsVector3D
  mRootBounds : QgsPointCloudDataBounds
  mAttributes : QgsPointCloudAttributeCollection
  mFilterExpression : QgsPointCloudExpression
  mMetadataStats : QMap String AttributeStatistics
  mAttributeClasses : QMap String (QMap Int Int)
  mOriginalMetadata : QJsonObject
  mHierarchy : QMap IndexedPointCloudNode Int
  mHierarchyNodes : QSet IndexedPointCloudNode
  trace : List Effect

namespace QgsEptPointCloudIndex

/-- The constructor: on top of the member initialisers of the class declaration (`base`),
whose containers start empty, the root node is inserted into `mHierarchyNodes`. -/
def construct (base : QgsEptPointCloudIndex) : QgsEptPointCloudIndex :=
  { base with mHierarchy := [], mHierarchyNodes := QSet.insert [] rootNode, trace := [] }

/-- `isValid()`. -/
def isValid (s : QgsEptPointCloudIndex) : Bool := s.mIsValid

/-! ### loadSchema -/

/-- The chain of `push_back` calls of one schema entry in `loadSchema`: the attribute
collection after the entry, or `none` where the code returns false for an unknown
attribute type. -/
def pushSchemaAttribute (name type : String) (size : Int)
    (attributes : QgsPointCloudAttributeCollection) : Option QgsPointCloudAttributeCollection :=
  if name = "ClassFlags" ∧ size = 1 then
    some ((((attributes ++ [⟨"Synthetic", DataType.UChar⟩]) ++ [⟨"KeyPoint", DataType.UChar⟩])
      ++ [⟨"Withheld", DataType.UChar⟩]) ++ [⟨"Overlap", DataType.UChar⟩])
  else if type = "float" ∧ size = 4 then some (attributes ++ [⟨name, DataType.Float⟩])
  else if type = "float" ∧ size = 8 then some (attributes ++ [⟨name, DataType.Double⟩])
  else if size = 1 then some (attributes ++ [⟨name, DataType.Char⟩])
  else if type = "unsigned" ∧ size = 2 then some (attributes ++ [⟨name, DataType.UShort⟩])
  else if size = 2 then some (attributes ++ [⟨name, DataType.Short⟩])
  else if size = 4 then some (attributes ++ [⟨name, DataType.Int32⟩])
  else none

/-- The statistics read from one schema entry in `loadSchema`, with `foundStats`. -/
def schemaStats (schemaObj : QJsonObject) : AttributeStatistics × Bool :=
  let stats : AttributeStatistics := {}
  let foundStats := false
  let (stats, foundStats) :=
    if schemaObj.contains "count" then
      ({ stats with count := (schemaObj.value "count").toInt }, true)
    else (stats, foundStats)
  let (stats, foundStats) :=
    if schemaObj.contains "minimum" then
      ({ stats with minimum := some (schemaObj.value "minimum").toDouble }, true)
    else (stats, foundStats)
  let (stats, foundStats) :=
    if schemaObj.contains "maximum" then
      ({ stats with maximum := some (schemaObj.value "maximum").toDouble }, true)
    else (stats, foundStats)
  let (stats, foundStats) :=
    if schemaObj.contains "count" then
      ({ stats with mean := some (schemaObj.value "mean").toDouble }, true)
    else (stats, foundStats)
  let (stats, foundStats) :=
    if schemaObj.contains "stddev" then
      ({ stats with stDev := some (schemaObj.value "stddev").toDouble }, true)
    else (stats, foundStats)
  let (stats, foundStats) :=
    if schemaObj.contains "variance" then
      ({ stats with variance := some (schemaObj.value "variance").toDouble }, true)
    else (stats, foundStats)
  (stats, foundStats)

/-- The inner loop of `loadSchema` over the `counts` array of a schema entry. -/
def schemaClassCounts : QJsonArray → QMap Int Int → QMap Int Int
  | [], classCounts => classCounts
  | count :: rest, classCounts =>
    let countObj := count.toObject
    schemaClassCounts rest
      (QMap.insert classCounts (countObj.value "value").toInt (countObj.value "count").toInt)

/-- One iteration of the loop of `loadSchema` over `schemaArray`: `none` where the code
returns false, else the attribute collection after the entry; and the index state after it. -/
def loadSchemaItem (schemaItem : QJsonValue) (attributes : QgsPointCloudAttributeCollection)
    (s : QgsEptPointCloudIndex) : Option QgsPointCloudAttributeCollection × QgsEptPointCloudIndex :=
  let schemaObj := schemaItem.toObject
  let name := (schemaObj.value "name").toString
  let type := (schemaObj.value "type").toString
  let size := (schemaObj.value "size").toInt
  match pushSchemaAttribute name type size attributes with
  | none => (none, s)
  | some attributes =>
    let scale : ℚ := if schemaObj.contains "scale" then (schemaObj.value "scale").toDouble else 1
    let offset : ℚ := if schemaObj.contains "offset" then (schemaObj.value "offset").toDouble else 0
    let s :=
      if name = "X" then
        { s with mOffset := ⟨offset, s.mOffset.y, s.mOffset.z⟩,
                 mScale := ⟨scale, s.mScale.y, s.mScale.z⟩ }
      else if name = "Y" then
        { s with mOffset := ⟨s.mOffset.x, offset, s.mOffset.z⟩,
                 mScale := ⟨s.mScale.x, scale, s.mScale.z⟩ }
      else if name = "Z" then
        { s with mOffset := ⟨s.mOffset.x, s.mOffset.y, offset⟩,
                 mScale := ⟨s.mScale.x, s.mScale.y, scale⟩ }
      else s
    let (stats, foundStats) := schemaStats schemaObj
    let s := if foundStats then { s with mMetadataStats := QMap.insert s.mMetadataStats name stats } else s
    let s :=
      if schemaObj.contains "counts" then
        { s with mAttributeClasses := QMap.insert s.mAttributeClasses name
                   (schemaClassCounts (schemaObj.value "counts").toArray []) }
      else s
    (some attributes, s)

/-- The loop of `loadSchema` over `schemaArray`. -/
def loadSchemaLoop : QJsonArray → QgsPointCloudAttributeCollection → QgsEptPointCloudIndex →
    Option QgsPointCloudAttributeCollection × QgsEptPointCloudIndex
  | [], attributes, s => (some attributes, s)
  | schemaItem :: rest, attributes, s =>
    match loadSchemaItem schemaItem attributes s with
    | (none, s) => (none, s)
    | (some attributes, s) => loadSchemaLoop rest attributes s

/-- Element `i` of a `QJsonArray` as a double. -/
def arrayDouble (a : QJsonArray) (i : Nat) : ℚ := (a.getD i QJsonValue.undefined).toDouble

/-- The part of `loadSchema` between the parse and the loop over the schema: `false` where
the code returns false, and the index state at that point. -/
def loadSchemaHeader (result : QJsonObject) (s : QgsEptPointCloudIndex) :
    Bool × QgsEptPointCloudIndex :=
  let s := { s with mDataType := (result.value "dataType").toString }
  if s.mDataType ≠ "laszip" ∧ s.mDataType ≠ "binary" ∧ s.mDataType ≠ "zstandard" then (false, s)
  else
    let hierarchyType := (result.value "hierarchyType").toString
    if hierarchyType ≠ "json" then (false, s)
    else
      let s := { s with mSpan := (result.value "span").toInt }
      let points := (result.value "points").toDouble
      let s := { s with mPointCount := Int.tdiv points.num points.den }
      let srs := (result.value "srs").toObject
      let s := { s with mWkt := (srs.value "wkt").toString }
      let bounds := (result.value "bounds").toArray
      if bounds.length ≠ 6 then (false, s)
      else
        let boundsConforming := (result.value "boundsConforming").toArray
        if boundsConforming.length ≠ 6 then (false, s)
        else
          (true, { s with
            mExtent := ⟨arrayDouble boundsConforming 0, arrayDouble boundsConforming 1,
                        arrayDouble boundsConforming 3, arrayDouble boundsConforming 4⟩,
            mZMin := arrayDouble boundsConforming 2,
            mZMax := arrayDouble boundsConforming 5 })

/-- The end of `loadSchema`: `setAttributes` and the root bounds. -/
def loadSchemaFinish (bounds : QJsonArray) (attributes : QgsPointCloudAttributeCollection)
    (s : QgsEptPointCloudIndex) : QgsEptPointCloudIndex :=
  let s := { s with mAttributes := attributes }
  let xmin := arrayDouble bounds 0
  let ymin := arrayDouble bounds 1
  let zmin := arrayDouble bounds 2
  let xmax := arrayDouble bounds 3
  let ymax := arrayDouble bounds 4
  let zmax := arrayDouble bounds 5
  { s with mRootBounds :=
    ⟨Double.div (Double.sub (Double.finite xmin) (Double.finite s.mOffset.x))
       (Double.finite s.mScale.x),
     Double.div (Double.sub (Double.finite ymin) (Double.finite s.mOffset.y))
       (Double.finite s.mScale.y),
     Double.div (Double.sub (Double.finite zmin) (Double.finite s.mOffset.z))
       (Double.finite s.mScale.z),
     Double.div (Double.sub (Double.finite xmax) (Double.finite s.mOffset.x))
       (Double.finite s.mScale.x),
     Double.div (Double.sub (Double.finite ymax) (Double.finite s.mOffset.y))
       (Double.finite s.mScale.y),
     Double.div (Double.sub (Double.finite zmax) (Double.finite s.mOffset.z))
       (Double.finite s.mScale.z)⟩ }

/-- `loadSchema( dataJson )`: the returned flag and the index state it leaves. -/
def loadSchema (dataJson : QByteArray) (s : QgsEptPointCloudIndex) : Bool × QgsEptPointCloudIndex :=
  match dataJson.fromJson with
  | none => (false, s)
  | some doc =>
    let result := doc.object
    match loadSchemaHeader result s with
    | (false, s) => (false, s)
    | (true, s) =>
      let bounds := (result.value "bounds").toArray
      let schemaArray := (result.value "schema").toArray
      match loadSchemaLoop schemaArray [] s with
      | (none, s) => (false, s)
      | (some attributes, s) => (true, loadSchemaFinish bounds attributes s)

end QgsEptPointCloudIndex

namespace QgsEptPointCloudIndex

/-! ### Transport -/

/-- Appends one step of I/O to the trace. -/
def record (e : Effect) (s : QgsEptPointCloudIndex) : QgsEptPointCloudIndex :=
  { s with trace := s.trace ++ [e] }

/-- A `QgsBlockingNetworkRequest` for `url`: the error message or the reply content. -/
def blockingNetworkGet (env : Env) (url : String) (s : QgsEptPointCloudIndex) :
    Except String QByteArray × QgsEptPointCloudIndex :=
  (env.blockingGet url, record (Effect.blockingGet url) s)

/-- A `QFile` opened read-only and read whole: `none` when it cannot be opened. -/
def readFile (env : Env) (path : String) (s : QgsEptPointCloudIndex) :
    Option QByteArray × QgsEptPointCloudIndex :=
  (env.fileRead path, record (Effect.fileOpen path) s)

/-- A request through the tile download manager, waited for: `none` on a reply error. -/
def tileDownloadManagerGet (env : Env) (url : String) (s : QgsEptPointCloudIndex) :
    Option QByteArray × QgsEptPointCloudIndex :=
  (env.tileDownloadGet url, record (Effect.tileDownloadGet url) s)

/-- The default-constructed, empty `QByteArray`; parsing it is an error. -/
def emptyByteArray : QByteArray := ⟨true, none⟩

/-! ### Hierarchy -/

/-- The path of the hierarchy file of a node. -/
def hierarchyFilePath (s : QgsEptPointCloudIndex) (nodeId : IndexedPointCloudNode) : String :=
  s.mUrlDirectoryPart ++ "/ept-hierarchy/" ++ nodeId.toString ++ ".json"

/-- The loop of `loadSingleNodeHierarchy` over the members of the hierarchy object. -/
def applyHierarchyEntries (fromString : String → IndexedPointCloudNode) :
    QJsonObject → QgsEptPointCloudIndex → QgsEptPointCloudIndex
  | [], s => s
  | (nodeIdStr, value) :: rest, s =>
    let nodePointCount := value.toInt
    let nodeId := fromString nodeIdStr
    if nodePointCount ≥ 0 then
      applyHierarchyEntries fromString rest
        { s with mHierarchy := QMap.insert s.mHierarchy nodeId nodePointCount }
    else if nodePointCount = -1 then
      applyHierarchyEntries fromString rest
        { s with mHierarchyNodes := QSet.insert s.mHierarchyNodes nodeId }
    else applyHierarchyEntries fromString rest s

/-- The fetch of the hierarchy file in `loadSingleNodeHierarchy`, by access type. -/
def fetchHierarchyFile (env : Env) (filePath : String) (s : QgsEptPointCloudIndex) :
    Option QByteArray × QgsEptPointCloudIndex :=
  match s.mAccessType with
  | AccessType.Remote => tileDownloadManagerGet env filePath s
  | AccessType.Local => readFile env filePath s

/-- `loadSingleNodeHierarchy( nodeId )`: the returned flag and the index state it leaves. -/
def loadSingleNodeHierarchy (env : Env) (nodeId : IndexedPointCloudNode)
    (s : QgsEptPointCloudIndex) : Bool × QgsEptPointCloudIndex :=
  let foundInHierarchy := QMap.contains s.mHierarchy nodeId
  let foundInHierarchyNodes := QSet.contains s.mHierarchyNodes nodeId
  if foundInHierarchy then (true, s)
  else if !foundInHierarchyNodes then (true, s)
  else
    let filePath := hierarchyFilePath s nodeId
    match fetchHierarchyFile env filePath s with
    | (none, s) => (false, s)
    | (some dataJsonH, s) =>
      match dataJsonH.fromJson with
      | none => (false, s)
      | some docH => (true, applyHierarchyEntries env.fromString docH.object s)

/-- The do-while loop of `nodePathToRoot`, with a bound on the number of iterations. -/
def nodePathToRootLoop : Nat → IndexedPointCloudNode → List IndexedPointCloudNode
  | 0, currentNode => [currentNode]
  | fuel + 1, currentNode =>
    currentNode ::
      (if currentNode.parentNode.d ≥ 0 then nodePathToRootLoop fuel currentNode.parentNode else [])

/-- `nodePathToRoot( nodeId )`.  The loop ends after `d + 1` iterations at the latest, as the
depth falls by one in each (`nodePathToRootLoop_fuel`). -/
def nodePathToRoot (nodeId : IndexedPointCloudNode) : List IndexedPointCloudNode :=
  nodePathToRootLoop nodeId.d.toNat nodeId

/-- The loop of `loadNodeHierarchy` over the path, root first: `false` where the code
returns false from inside the loop. -/
def loadNodeHierarchyLoop (env : Env) (nodeId : IndexedPointCloudNode) :
    List IndexedPointCloudNode → QgsEptPointCloudIndex → Bool × QgsEptPointCloudIndex
  | [], s => (true, s)
  | node :: rest, s =>
    if QMap.contains s.mHierarchy nodeId then (true, s)
    else
      match loadSingleNodeHierarchy env node s with
      | (false, s) => (false, s)
      | (true, s) => loadNodeHierarchyLoop env nodeId rest s

/-- `loadNodeHierarchy( nodeId )`: the returned flag and the index state it leaves. -/
def loadNodeHierarchy (env : Env) (nodeId : IndexedPointCloudNode)
    (s : QgsEptPointCloudIndex) : Bool × QgsEptPointCloudIndex :=
  let found := QMap.contains s.mHierarchy nodeId
  if found then (true, s)
  else
    let pathToRoot := nodePathToRoot nodeId
    match loadNodeHierarchyLoop env nodeId pathToRoot.reverse s with
    | (false, s) => (false, s)
    | (true, s) => (QMap.contains s.mHierarchy nodeId, s)

/-- `hasNode( n )`. -/
def hasNode (env : Env) (n : IndexedPointCloudNode) (s : QgsEptPointCloudIndex) :
    Bool × QgsEptPointCloudIndex :=
  loadNodeHierarchy env n s

/-- The loop of `nodePointCount` over the path, root first. -/
def nodePointCountLoop (env : Env) (nodeId : IndexedPointCloudNode) :
    List IndexedPointCloudNode → QgsEptPointCloudIndex → Int × QgsEptPointCloudIndex
  | [], s => (-1, s)
  | node :: rest, s =>
    let s := (loadSingleNodeHierarchy env node s).2
    let pointCount := QMap.value s.mHierarchy nodeId (-1)
    if pointCount ≠ -1 then (pointCount, s)
    else nodePointCountLoop env nodeId rest s

/-- `nodePointCount( nodeId )`: the returned count and the index state it leaves. -/
def nodePointCount (env : Env) (nodeId : IndexedPointCloudNode) (s : QgsEptPointCloudIndex) :
    Int × QgsEptPointCloudIndex :=
  let pointCount := QMap.value s.mHierarchy nodeId (-1)
  if pointCount ≠ -1 then (pointCount, s)
  else
    let pathToRoot := nodePathToRoot nodeId
    nodePointCountLoop env nodeId pathToRoot.reverse s

/-! ### Bootstrap -/

/-- `loadManifest( manifestJson )`. -/
def loadManifest (env : Env) (manifestJson : QByteArray) (s : QgsEptPointCloudIndex) :
    QgsEptPointCloudIndex :=
  match manifestJson.fromJson with
  | none => s
  | some manifestDoc =>
    let manifestArray := manifestDoc.array
    if manifestArray.isEmpty then s
    else
      let sourceObject := (manifestArray.getD 0 QJsonValue.undefined).toObject
      let metadataPath := (sourceObject.value "metadataPath").toString
      let fullMetadataPath := s.mUrlDirectoryPart ++ "/ept-sources/" ++ metadataPath
      let fetched : Option QByteArray × QgsEptPointCloudIndex :=
        match s.mAccessType with
        | AccessType.Remote =>
          match blockingNetworkGet env fullMetadataPath s with
          | (Except.error _, s) => (none, s)
          | (Except.ok content, s) => (some content, s)
        | AccessType.Local => readFile env fullMetadataPath s
      match fetched with
      | (none, s) => s
      | (some metadataJson, s) =>
        match metadataJson.fromJson with
        | none => s
        | some metadataDoc =>
          let metadataObject := (metadataDoc.object.value "metadata").toObject
          match metadataObject with
          | [] => s
          | (_, first) :: _ => { s with mOriginalMetadata := first.toObject }

/-- The block of `load` that runs when `loadSchema` succeeded: the import of the manifest. -/
def importManifest (env : Env) (s : QgsEptPointCloudIndex) : QgsEptPointCloudIndex :=
  let manifestPath := s.mUrlDirectoryPart ++ "/ept-sources/manifest.json"
  let fetched : QByteArray × QgsEptPointCloudIndex :=
    match s.mAccessType with
    | AccessType.Remote =>
      match blockingNetworkGet env manifestPath s with
      | (Except.ok content, s) => (content, s)
      | (Except.error _, s) => (emptyByteArray, s)
    | AccessType.Local =>
      match readFile env manifestPath s with
      | (some content, s) => (content, s)
      | (none, s) => (emptyByteArray, s)
  match fetched with
  | (manifestJson, s) => if !manifestJson.isEmpty then loadManifest env manifestJson s else s

/-- The first part of `load`: access type, locator and directory part. -/
def loadLocator (env : Env) (urlString : String) (s : QgsEptPointCloudIndex) :
    QgsEptPointCloudIndex :=
  let s := { s with mAccessType := if env.urlIsHttp urlString then AccessType.Remote else AccessType.Local }
  let s := { s with mUri := urlString }
  let splitUrl := qSplit s.mUri '/'
  let splitUrl := splitUrl.dropLast
  { s with mUrlDirectoryPart := qJoin splitUrl "/" }

/-- The fetch of the primary metadata document in `load`: `none` where the code marks the
index invalid, sets the error and returns. -/
def fetchMetadata (env : Env) (s : QgsEptPointCloudIndex) :
    Option QByteArray × QgsEptPointCloudIndex :=
  match s.mAccessType with
  | AccessType.Remote =>
    match blockingNetworkGet env s.mUri s with
    | (Except.error errorMessage, s) => (none, { s with mIsValid := false, mError := errorMessage })
    | (Except.ok content, s) => (some content, s)
  | AccessType.Local =>
    match readFile env s.mUri s with
    | (none, s) =>
      (none, { s with mError := "Unable to open " ++ s.mUri ++ " for reading", mIsValid := false })
    | (some content, s) => (some content, s)

/-- `load( urlString )`. -/
def load (env : Env) (urlString : String) (s : QgsEptPointCloudIndex) : QgsEptPointCloudIndex :=
  match fetchMetadata env (loadLocator env urlString s) with
  | (none, s) => s
  | (some content, s) =>
    match loadSchema content s with
    | (success, s) =>
      let s := if success then importManifest env s else s
      match loadNodeHierarchy env rootNode s with
      | (loaded, s) =>
        let success := if !loaded then false else success
        { s with mIsValid := success }

end QgsEptPointCloudIndex

namespace QgsEptPointCloudIndex

/-! ### Tile queries -/

/-- The tile URL chosen from `mDataType` in `asyncNodeData`: `none` where the code returns
a null pointer for an unknown data type. -/
def tileFileUrl (s : QgsEptPointCloudIndex) (n : IndexedPointCloudNode) : Option String :=
  if s.mDataType = "binary" then some (s.mUrlDirectoryPart ++ "/ept-data/" ++ n.toString ++ ".bin")
  else if s.mDataType = "zstandard" then
    some (s.mUrlDirectoryPart ++ "/ept-data/" ++ n.toString ++ ".zst")
  else if s.mDataType = "laszip" then
    some (s.mUrlDirectoryPart ++ "/ept-data/" ++ n.toString ++ ".laz")
  else none

/-- `asyncNodeData( n, request )`: the block request, `none` for a null pointer. -/
def asyncNodeData (env : Env) (n : IndexedPointCloudNode) (request : QgsPointCloudRequest)
    (s : QgsEptPointCloudIndex) : Option QgsPointCloudBlockRequest × QgsEptPointCloudIndex :=
  match env.getNodeDataFromCache n request with
  | some cached =>
    (some (QgsPointCloudBlockRequest.cached
      ⟨cached, n, s.mUri, s.mAttributes, request.attributes, s.mScale, s.mOffset,
       s.mFilterExpression, request.filterRect⟩), s)
  | none =>
    if s.mAccessType ≠ AccessType.Remote then (none, s)
    else
      match loadNodeHierarchy env n s with
      | (false, s) => (none, s)
      | (true, s) =>
        match tileFileUrl s n with
        | none => (none, s)
        | some fileUrl =>
          let filterExpression := s.mFilterExpression
          let requestAttributes :=
            request.attributes.extend s.mAttributes filterExpression.referencedAttributes
          let args : EptBlockRequestArgs :=
            ⟨n, fileUrl, s.mDataType, s.mAttributes, requestAttributes, s.mScale, s.mOffset,
             filterExpression, request.filterRect⟩
          (some (QgsPointCloudBlockRequest.ept args), record (Effect.eptBlockRequest args) s)

/-- The block a finished block request gives up in `takeBlock()`. -/
def takeBlock (env : Env) : QgsPointCloudBlockRequest → Option QgsPointCloudBlock
  | QgsPointCloudBlockRequest.cached args => some args.cached
  | QgsPointCloudBlockRequest.ept args => env.takeBlock args

/-- The local branch of `nodeData`: the decoder chosen from `mDataType`. -/
def decodeLocal (env : Env) (n : IndexedPointCloudNode) (request : QgsPointCloudRequest)
    (s : QgsEptPointCloudIndex) : Option QgsPointCloudBlock × QgsEptPointCloudIndex :=
  let filterExpression := s.mFilterExpression
  let requestAttributes :=
    request.attributes.extend s.mAttributes filterExpression.referencedAttributes
  let filterRect := request.filterRect
  if s.mDataType = "binary" then
    let filename := s.mUrlDirectoryPart ++ "/ept-data/" ++ n.toString ++ ".bin"
    let call : EptDecoderCall :=
      ⟨filename, s.mAttributes, requestAttributes, s.mScale, s.mOffset, filterExpression, filterRect⟩
    (env.decompressBinary call, record (Effect.decompressBinary call) s)
  else if s.mDataType = "zstandard" then
    let filename := s.mUrlDirectoryPart ++ "/ept-data/" ++ n.toString ++ ".zst"
    let call : EptDecoderCall :=
      ⟨filename, s.mAttributes, request.attributes, s.mScale, s.mOffset, filterExpression, filterRect⟩
    (env.decompressZStandard call, record (Effect.decompressZStandard call) s)
  else if s.mDataType = "laszip" then
    let filename := s.mUrlDirectoryPart ++ "/ept-data/" ++ n.toString ++ ".laz"
    let call : LazDecoderCall := ⟨filename, requestAttributes, filterExpression, filterRect⟩
    (env.decompressLaz call, record (Effect.decompressLaz call) s)
  else (none, s)

/-- `nodeData( n, request )`: the block, `none` for a null pointer. -/
def nodeData (env : Env) (n : IndexedPointCloudNode) (request : QgsPointCloudRequest)
    (s : QgsEptPointCloudIndex) : Option QgsPointCloudBlock × QgsEptPointCloudIndex :=
  match env.getNodeDataFromCache n request with
  | some cached => (some cached, s)
  | none =>
    match s.mAccessType with
    | AccessType.Remote =>
      match asyncNodeData env n request s with
      | (none, s) => (none, s)
      | (some blockRequest, s) =>
        let block := takeBlock env blockRequest
        (block, record (Effect.storeNodeDataToCache block n request) s)
    | AccessType.Local =>
      match decodeLocal env n request s with
      | (block, s) => (block, record (Effect.storeNodeDataToCache block n request) s)

end QgsEptPointCloudIndex

/-! ## Reachable states -/

/-- The index states reachable from a freshly constructed index through `load` and the
hierarchy operations, each run against any environment. -/
inductive Reachable : QgsEptPointCloudIndex → Prop where
  | construct (base : QgsEptPointCloudIndex) : Reachable (QgsEptPointCloudIndex.construct base)
  | load (env : Env) (urlString : String) (s : QgsEptPointCloudIndex) :
      Reachable s → Reachable (QgsEptPointCloudIndex.load env urlString s)
  | loadSingleNodeHierarchy (env : Env) (n : IndexedPointCloudNode) (s : QgsEptPointCloudIndex) :
      Reachable s → Reachable (QgsEptPointCloudIndex.loadSingleNodeHierarchy env n s).2
  | loadNodeHierarchy (env : Env) (n : IndexedPointCloudNode) (s : QgsEptPointCloudIndex) :
      Reachable s → Reachable (QgsEptPointCloudIndex.loadNodeHierarchy env n s).2
  | hasNode (env : Env) (n : IndexedPointCloudNode) (s : QgsEptPointCloudIndex) :
      Reachable s → Reachable (QgsEptPointCloudIndex.hasNode env n s).2
  | nodePointCount (env : Env) (n : IndexedPointCloudNode) (s : QgsEptPointCloudIndex) :
      Reachable s → Reachable (QgsEptPointCloudIndex.nodePointCount env n s).2

/-! ## Node address strings -/

/-- The value of a string of decimal digits read after the digits `acc`; `none` when a
character is not a digit. -/
def parseDigits : List Char → Nat → Option Nat
  | [], acc => some acc
  | c :: cs, acc => if c.isDigit then parseDigits cs (10 * acc + (c.toNat - 48)) else none

/-- The value of a non-empty string of decimal digits. -/
def parseNumber : List Char → Option Int
  | [] => none
  | c :: cs => (parseDigits (c :: cs) 0).map Int.ofNat

/-- Modelled from the spec: `IndexedPointCloudNode::fromString` is declared outside this file.
The spec gives the string form of a node as `d-x-y-z` and has `parse` undo `format`; a string
of another form is a malformed address, for which this model gives the node of the sentinel
depth `-1`. -/
def IndexedPointCloudNode.fromString (str : String) : IndexedPointCloudNode :=
  match (splitChars '-' str.toList []).map parseNumber with
  | [some d, some x, some y, some z] => ⟨d, x, y, z⟩
  | _ => ⟨-1, 0, 0, 0⟩

/-! ## Sample data -/

/-- Member initialisers for a sample index: invalid, local, everything empty or zero. -/
def sampleBase : QgsEptPointCloudIndex where
  mIsValid := false
  mError := ""
  mAccessType := AccessType.Local
  mUri := ""
  mUrlDirectoryPart := ""
  mDataType := ""
  mWkt := ""
  mSpan := 0
  mPointCount := 0
  mExtent := ⟨0, 0, 0, 0⟩
  mZMin := 0
  mZMax := 0
  mScale := ⟨0, 0, 0⟩
  mOffset := ⟨0, 0, 0⟩
  mRootBounds := ⟨Double.finite 0, Double.finite 0, Double.finite 0, Double.finite 0,
    Double.finite 0, Double.finite 0⟩
  mAttributes := []
  mFilterExpression := ⟨"", []⟩
  mMetadataStats := []
  mAttributeClasses := []
  mOriginalMetadata := []
  mHierarchy := []
  mHierarchyNodes := []
  trace := []

/-- A freshly constructed sample index: the root is in `mHierarchyNodes`, no count is known. -/
def sampleIndex : QgsEptPointCloudIndex := QgsEptPointCloudIndex.construct sampleBase

/-- A byte array that is not empty and parses to the given JSON object. -/
def jsonBytes (o : QJsonObject) : QByteArray := ⟨false, some (QJsonDocument.ofObject o)⟩

/-- A byte array that is not empty and is not valid JSON. -/
def garbageBytes : QByteArray := ⟨false, none⟩

/-- An environment in which every file and every URL holds `reply` (`none`: nothing can be
fetched), the tile cache is empty and the decoders give no block. -/
def sampleEnv (reply : Option QByteArray) : Env where
  urlIsHttp := fun _ => false
  fromString := IndexedPointCloudNode.fromString
  blockingGet := fun _ => match reply with
    | some content => Except.ok content
    | none => Except.error "Not found"
  fileRead := fun _ => reply
  tileDownloadGet := fun _ => reply
  getNodeDataFromCache := fun _ _ => none
  takeBlock := fun _ => none
  decompressBinary := fun _ => none
  decompressZStandard := fun _ => none
  decompressLaz := fun _ => none

/-- The hierarchy object `{"0-0-0-1": 42, "0-0-0-2": -1}` of the spec. -/
def sampleHierarchy : QJsonObject :=
  [("0-0-0-1", QJsonValue.double 42), ("0-0-0-2", QJsonValue.double (-1))]

/-- The hierarchy object `{"0-0-0-1": 2147483648}`: a value beyond the range of `int`. -/
def largeCountHierarchy : QJsonObject :=
  [("0-0-0-1", QJsonValue.double 2147483648)]

/-! ## Predicates used by the theorems -/

/-- Some hierarchy file that the environment serves lists node `n` with the non-negative
value `c`. -/
def ListedWithCount (env : Env) (n : IndexedPointCloudNode) (c : Int) : Prop :=
  ∃ (p : String) (bytes : QByteArray) (doc : QJsonDocument),
    (env.fileRead p = some bytes ∨ env.tileDownloadGet p = some bytes) ∧
    bytes.fromJson = some doc ∧
    ∃ e ∈ doc.object, env.fromString e.1 = n ∧ 0 ≤ e.2.toInt ∧ e.2.toInt = c

/-- Node `n` has a count in the index state, and the count is `c` or a value with which a
hierarchy file of the environment lists `n`. -/
def CountFrom (env : Env) (n : IndexedPointCloudNode) (c : Int)
    (s : QgsEptPointCloudIndex) : Prop :=
  ∃ c1, QMap.find s.mHierarchy n = some c1 ∧ (c1 = c ∨ ListedWithCount env n c1)

/-- Two hierarchy files of one dataset, each node listed with one count: the file of the root
lists the root with 10 points and node `1-0-0-0` as having a hierarchy file of its own; that
file lists node `1-0-0-0` with 5 points and node `2-0-0-0` with 3 points. -/
def datasetEnv : Env :=
  { sampleEnv none with
    fileRead := fun p =>
      if p = "/ept-hierarchy/0-0-0-0.json" then
        some (jsonBytes [("0-0-0-0", QJsonValue.double 10), ("1-0-0-0", QJsonValue.double (-1))])
      else if p = "/ept-hierarchy/1-0-0-0.json" then
        some (jsonBytes [("1-0-0-0", QJsonValue.double 5), ("2-0-0-0", QJsonValue.double 3)])
      else none }

/-- Two hierarchy files of one dataset: the file of the root lists the root with 10 points
and node `1-0-0-0` as having a hierarchy file of its own; that file lists the root again,
with 11 points. -/
def relistingEnv : Env :=
  { sampleEnv none with
    fileRead := fun p =>
      if p = "/ept-hierarchy/0-0-0-0.json" then
        some (jsonBytes [("0-0-0-0", QJsonValue.double 10), ("1-0-0-0", QJsonValue.double (-1))])
      else if p = "/ept-hierarchy/1-0-0-0.json" then
        some (jsonBytes [("0-0-0-0", QJsonValue.double 11), ("1-0-0-0", QJsonValue.double 5)])
      else none }

/-- The index states `s` and `t` agree on all that the hierarchy loader reads: the two
hierarchy containers, the access type and the directory part of the locator. -/
def SameHierarchyView (s t : QgsEptPointCloudIndex) : Prop :=
  t.mHierarchy = s.mHierarchy ∧ t.mHierarchyNodes = s.mHierarchyNodes ∧
  t.mAccessType = s.mAccessType ∧ t.mUrlDirectoryPart = s.mUrlDirectoryPart

/-- The attributes that one schema entry adds to the collection in `loadSchema`: its chain
of `push_back` calls run on an empty collection; empty where the code returns false. -/
def schemaEntryAttributes (schemaItem : QJsonValue) : QgsPointCloudAttributeCollection :=
  let schemaObj := schemaItem.toObject
  (QgsEptPointCloudIndex.pushSchemaAttribute (schemaObj.value "name").toString
    (schemaObj.value "type").toString (schemaObj.value "size").toInt []).getD []

/-- The table of the specification: the primitive type `t` for a declared type and a byte
size.  No pair of a type and a size has two rows. -/
def MapsToPrimitive (type : String) (size : Int) (t : DataType) : Prop :=
  (type = "float" ∧ size = 4 ∧ t = DataType.Float) ∨
  (type = "float" ∧ size = 8 ∧ t = DataType.Double) ∨
  (size = 1 ∧ t = DataType.Char) ∨
  (type = "unsigned" ∧ size = 2 ∧ t = DataType.UShort) ∨
  (type ≠ "unsigned" ∧ size = 2 ∧ t = DataType.Short) ∨
  (type ≠ "float" ∧ size = 4 ∧ t = DataType.Int32)

/-- A schema entry with a name, a declared type and a byte size. -/
def schemaEntry (name type : String) (size : ℚ) : QJsonValue :=
  QJsonValue.object
    [("name", QJsonValue.string name), ("type", QJsonValue.string type), ("size", QJsonValue.double size)]

/-- A primary metadata document with the given schema: laszip data, JSON hierarchy, six
bounds. -/
def sampleMetadata (schema : QJsonArray) : QJsonObject :=
  [("dataType", QJsonValue.string "laszip"),
   ("hierarchyType", QJsonValue.string "json"),
   ("span", QJsonValue.double 128),
   ("points", QJsonValue.double 1000),
   ("bounds", QJsonValue.array [QJsonValue.double 100, QJsonValue.double 100, QJsonValue.double 100,
      QJsonValue.double 200, QJsonValue.double 200, QJsonValue.double 200]),
   ("boundsConforming", QJsonValue.array [QJsonValue.double 110, QJsonValue.double 110,
      QJsonValue.double 110, QJsonValue.double 190, QJsonValue.double 190, QJsonValue.double 190]),
   ("schema", QJsonValue.array schema)]

/-- The schema `X` (signed, 4 bytes), `Intensity` (unsigned, 2 bytes), `ClassFlags`
(unsigned, 1 byte), `GpsTime` (float, 8 bytes). -/
def sampleSchema : QJsonArray :=
  [schemaEntry "X" "signed" 4, schemaEntry "Intensity" "unsigned" 2,
   schemaEntry "ClassFlags" "unsigned" 1, schemaEntry "GpsTime" "float" 8]

/-- The schema `X` (signed, 4 bytes), `Odd` (signed, 3 bytes). -/
def unsupportedSchema : QJsonArray :=
  [schemaEntry "X" "signed" 4, schemaEntry "Odd" "signed" 3]

/-- The environments `env` and `other` hold the same hierarchy files under the directory
`dir` and read node addresses alike. -/
def SameHierarchyFiles (env other : Env) (dir : String) : Prop :=
  other.fromString = env.fromString ∧
  ∀ n : IndexedPointCloudNode,
    other.fileRead (dir ++ "/ept-hierarchy/" ++ n.toString ++ ".json") =
      env.fileRead (dir ++ "/ept-hierarchy/" ++ n.toString ++ ".json") ∧
    other.tileDownloadGet (dir ++ "/ept-hierarchy/" ++ n.toString ++ ".json") =
      env.tileDownloadGet (dir ++ "/ept-hierarchy/" ++ n.toString ++ ".json")

/-- The environments `env` and `other` agree on all that `load( urlString )` consults apart
from the companion manifest and the source metadata: the classification of the locator, the
primary metadata document, and the hierarchy files under the directory `dir`. -/
def SameApartFromSources (env other : Env) (urlString dir : String) : Prop :=
  other.urlIsHttp urlString = env.urlIsHttp urlString ∧
  other.blockingGet urlString = env.blockingGet urlString ∧
  other.fileRead urlString = env.fileRead urlString ∧
  SameHierarchyFiles env other dir

/-- A remote dataset at `http://a/ept.json`: the primary metadata document with the sample
schema, the hierarchy file of the root listing the root with 10 points, and whatever
`sources` answers for every other URL of a blocking request (the companion manifest and the
source metadata among them). -/
def remoteEnv (sources : String → Except String QByteArray) : Env :=
  { sampleEnv none with
    urlIsHttp := fun _ => true
    blockingGet := fun u =>
      if u = "http://a/ept.json" then Except.ok (jsonBytes (sampleMetadata sampleSchema))
      else sources u
    tileDownloadGet := fun u =>
      if u = "http://a/ept-hierarchy/0-0-0-0.json" then
        some (jsonBytes [("0-0-0-0", QJsonValue.double 10)])
      else none }

/-- No companion manifest and no source metadata can be fetched. -/
def noSources : String → Except String QByteArray := fun _ => Except.error "Not found"

/-- A companion manifest naming `src.json`, and the source metadata under that name. -/
def someSources : String → Except String QByteArray := fun u =>
  if u = "http://a/ept-sources/manifest.json" then
    Except.ok ⟨false, some (QJsonDocument.ofArray
      [QJsonValue.object [("metadataPath", QJsonValue.string "src.json")]])⟩
  else if u = "http://a/ept-sources/src.json" then
    Except.ok (jsonBytes [("metadata", QJsonValue.object
      [("readers.las", QJsonValue.object [("software_id", QJsonValue.string "PDAL")])])])
  else Except.error "Not found"

/-- The index state `s` with the validity flag `mIsValid` set to `b` and all else as in `s`. -/
def withValidity (b : Bool) (s : QgsEptPointCloudIndex) : QgsEptPointCloudIndex :=
  { s with mIsValid := b }

/-! ## Statistics lookup -/

/-- The values of `Qgis::Statistic` named in the switch of `metadataStatistic`. -/
inductive Statistic where
  | Count
  | CountMissing
  | Sum
  | Mean
  | Median
  | StDev
  | StDevSample
  | Min
  | Max
  | Range
  | Minority
  | Majority
  | Variety
  | FirstQuartile
  | ThirdQuartile
  | InterQuartileRange
  | First
  | Last
  | All
deriving DecidableEq, Repr

/-- A `QVariant` as `metadataStatistic` returns it: invalid, an `int` or a `double`. -/
inductive QVariant where
  | invalid
  | int (i : Int)
  | double (q : ℚ)
deriving DecidableEq

/-- The `QVariant` held by the `minimum` or `maximum` member of the statistics. -/
def QVariant.ofMember : Option ℚ → QVariant
  | none => QVariant.invalid
  | some q => QVariant.double q

namespace QgsEptPointCloudIndex

/-- `metadataStatistic( attribute, statistic )`. -/
def metadataStatistic (s : QgsEptPointCloudIndex) (attributeName : String) (statistic : Statistic) :
    QVariant :=
  if !QMap.contains s.mMetadataStats attributeName then QVariant.invalid
  else
    let stats : AttributeStatistics := QMap.value s.mMetadataStats attributeName {}
    match statistic with
    | Statistic.Count => if stats.count ≥ 0 then QVariant.int stats.count else QVariant.invalid
    | Statistic.Mean =>
      match stats.mean with
      | none => QVariant.invalid
      | some mean => QVariant.double mean
    | Statistic.StDev =>
      match stats.stDev with
      | none => QVariant.invalid
      | some stDev => QVariant.double stDev
    | Statistic.Min => QVariant.ofMember stats.minimum
    | Statistic.Max => QVariant.ofMember stats.maximum
    | Statistic.Range =>
      match stats.minimum, stats.maximum with
      | some minimum, some maximum => QVariant.double (maximum - minimum)
      | _, _ => QVariant.invalid
    | Statistic.CountMissing => QVariant.invalid
    | Statistic.Sum => QVariant.invalid
    | Statistic.Median => QVariant.invalid
    | Statistic.StDevSample => QVariant.invalid
    | Statistic.Minority => QVariant.invalid
    | Statistic.Majority => QVariant.invalid
    | Statistic.Variety => QVariant.invalid
    | Statistic.FirstQuartile => QVariant.invalid
    | Statistic.ThirdQuartile => QVariant.invalid
    | Statistic.InterQuartileRange => QVariant.invalid
    | Statistic.First => QVariant.invalid
    | Statistic.Last => QVariant.invalid
    | Statistic.All => QVariant.invalid

/-! ### clone -/

/-- The part of `copyCommonProperties` written in this file: after the call of the base
class (`baseCopy source destination`), the assignments of the fields specific to
`QgsEptPointCloudIndex`. -/
def copyCommonProperties
    (baseCopy : QgsEptPointCloudIndex → QgsEptPointCloudIndex → QgsEptPointCloudIndex)
    (source destination : QgsEptPointCloudIndex) : QgsEptPointCloudIndex :=
  let destination := baseCopy source destination
  let destination := { destination with mIsValid := source.mIsValid }
  let destination := { destination with mDataType := source.mDataType }
  let destination := { destination with mUrlDirectoryPart := source.mUrlDirectoryPart }
  let destination := { destination with mWkt := source.mWkt }
  let destination := { destination with mHierarchyNodes := source.mHierarchyNodes }
  let destination := { destination with mPointCount := source.mPointCount }
  let destination := { destination with mMetadataStats := source.mMetadataStats }
  let destination := { destination with mAttributeClasses := source.mAttributeClasses }
  { destination with mOriginalMetadata := source.mOriginalMetadata }

/-- `clone()`: the new index, constructed from the member initialisers `base` and filled by
`copyCommonProperties`, paired with the original, which the `const` member function cannot
change. -/
def clone
    (baseCopy : QgsEptPointCloudIndex → QgsEptPointCloudIndex → QgsEptPointCloudIndex)
    (base s : QgsEptPointCloudIndex) : QgsEptPointCloudIndex × QgsEptPointCloudIndex :=
  let clone := construct base
  (copyCommonProperties baseCopy s clone, s)

end QgsEptPointCloudIndex

/-- Modelled from the spec: `QgsPointCloudIndex::copyCommonProperties` of the base class is
declared outside this file.  The spec has a clone deep-copy the count map and the bootstrap
metadata; the base class part copies the members that this file does not list as specific to
`QgsEptPointCloudIndex`: the locator, the extent and Z range, the count map, scale, offset,
root bounds, attributes, span and filter expression.  `mAccessType` is a member of
`QgsEptPointCloudIndex` itself (its getter `accessType()` is implemented in this file, like
`isValid()`), so the base class cannot copy it. -/
def QgsPointCloudIndex.copyCommonProperties (source destination : QgsEptPointCloudIndex) :
    QgsEptPointCloudIndex :=
  { destination with
    mUri := source.mUri
    mExtent := source.mExtent
    mZMin := source.mZMin
    mZMax := source.mZMax
    mHierarchy := source.mHierarchy
    mScale := source.mScale
    mOffset := source.mOffset
    mRootBounds := source.mRootBounds
    mAttributes := source.mAttributes
    mSpan := source.mSpan
    mFilterExpression := source.mFilterExpression }

/-! ## More sample data -/

/-- A local dataset at `data/ept.json` of which only the primary metadata document, with the
sample schema, can be read: there is no hierarchy file and no manifest. -/
def metadataOnlyEnv : Env :=
  { sampleEnv none with
    fileRead := fun p =>
      if p = "data/ept.json" then some (jsonBytes (sampleMetadata sampleSchema)) else none }

/-- A local index of a zstandard dataset with the attributes `X` and `Classification`, whose
filter expression refers to `Classification`. -/
def zstandardIndex : QgsEptPointCloudIndex :=
  { sampleIndex with
    mDataType := "zstandard"
    mUrlDirectoryPart := "data"
    mAttributes := [⟨"X", DataType.Int32⟩, ⟨"Classification", DataType.UChar⟩]
    mFilterExpression := ⟨"Classification = 2", ["Classification"]⟩ }

/-- The same index for a binary dataset. -/
def binaryIndex : QgsEptPointCloudIndex := { zstandardIndex with mDataType := "binary" }

/-- A request for the attribute `X` alone. -/
def sampleRequest : QgsPointCloudRequest := ⟨[⟨"X", DataType.Int32⟩], ⟨0, 0, 1, 1⟩⟩

/-- A schema entry `Z` (signed, 4 bytes) that declares a mean of 5 and no other statistic. -/
def meanOnlyEntry : QJsonValue :=
  QJsonValue.object
    [("name", QJsonValue.string "Z"), ("type", QJsonValue.string "signed"),
     ("size", QJsonValue.double 4), ("mean", QJsonValue.double 5)]

/-- A schema entry `Z` (signed, 4 bytes) that declares a count of 10 and no other statistic. -/
def countOnlyEntry : QJsonValue :=
  QJsonValue.object
    [("name", QJsonValue.string "Z"), ("type", QJsonValue.string "signed"),
     ("size", QJsonValue.double 4), ("count", QJsonValue.double 10)]

/-! ## Auxiliary notions for the theorems on fetches and on scale and offset -/

namespace QgsEptPointCloudIndex

/-- The step of I/O by which `loadSingleNodeHierarchy` fetches the hierarchy file of a node:
a request through the tile download manager for a remote index, a file opened for a local
one. -/
def hierarchyFetchEffect (s : QgsEptPointCloudIndex) (nodeId : IndexedPointCloudNode) : Effect :=
  match s.mAccessType with
  | AccessType.Remote => Effect.tileDownloadGet (hierarchyFilePath s nodeId)
  | AccessType.Local => Effect.fileOpen (hierarchyFilePath s nodeId)

/-- The path nodes that the loop of `loadNodeHierarchy` hands to `loadSingleNodeHierarchy`,
in order, each with the index state at that moment. -/
def loadNodeHierarchyVisits (env : Env) (nodeId : IndexedPointCloudNode) :
    List IndexedPointCloudNode → QgsEptPointCloudIndex →
    List (IndexedPointCloudNode × QgsEptPointCloudIndex)
  | [], _ => []
  | node :: rest, s =>
    if QMap.contains s.mHierarchy nodeId then []
    else
      (node, s) ::
        (match loadSingleNodeHierarchy env node s with
         | (false, _) => []
         | (true, s) => loadNodeHierarchyVisits env nodeId rest s)

end QgsEptPointCloudIndex

/-- The scale that a schema entry declares: the value of its key `scale`, 1 without it. -/
def declaredScale (schemaItem : QJsonValue) : ℚ :=
  if schemaItem.toObject.contains "scale" then (schemaItem.toObject.value "scale").toDouble else 1

/-- The offset that a schema entry declares: the value of its key `offset`, 0 without it. -/
def declaredOffset (schemaItem : QJsonValue) : ℚ :=
  if schemaItem.toObject.contains "offset" then (schemaItem.toObject.value "offset").toDouble
  else 0

/-- The name of a schema entry. -/
def schemaEntryName (schemaItem : QJsonValue) : String :=
  (schemaItem.toObject.value "name").toString

/-- The last entry of a schema with the given name, `none` when no entry has it. -/
def lastNamed (name : String) : QJsonArray → Option QJsonValue
  | [] => none
  | schemaItem :: rest =>
    match lastNamed name rest with
    | some found => some found
    | none => if schemaEntryName schemaItem = name then some schemaItem else none

/-- The value that the loop of `loadSchema` leaves for one axis: what `declared` reads from
the last schema entry with the name of the axis, and the value `before` the loop when no
entry has that name. -/
def axisValue (name : String) (declared : QJsonValue → ℚ) (before : ℚ) (schema : QJsonArray) : ℚ :=
  match lastNamed name schema with
  | some schemaItem => declared schemaItem
  | none => before

/-- A schema entry (signed, 4 bytes) with a name, a scale and an offset. -/
def scaledEntry (name : String) (scale offset : ℚ) : QJsonValue :=
  QJsonValue.object
    [("name", QJsonValue.string name), ("type", QJsonValue.string "signed"),
     ("size", QJsonValue.double 4), ("scale", QJsonValue.double scale),
     ("offset", QJsonValue.double offset)]

/-- The double nearest to 0.01, which is what the text `0.01` of a JSON document is read
as. -/
def nearestToHundredth : ℚ := 5764607523034235 / 576460752303423488

/-- The double nearest to 0.1. -/
def nearestToTenth : ℚ := 3602879701896397 / 36028797018963968

/-- The double nearest to 0.3. -/
def nearestToThreeTenths : ℚ := 5404319552844595 / 18014398509481984

/-- The schema `X`, `Y`, `Z`, each with scale 0.01 and offset 100. -/
def scaledSchema : QJsonArray :=
  [scaledEntry "X" nearestToHundredth 100, scaledEntry "Y" nearestToHundredth 100,
   scaledEntry "Z" nearestToHundredth 100]

/-- The schema `X`, `Y`, `Z`, each with scale 0 and offset 0. -/
def zeroScaleSchema : QJsonArray :=
  [scaledEntry "X" 0 0, scaledEntry "Y" 0 0, scaledEntry "Z" 0 0]

/-- A primary metadata document with the outer bounds 0 and 0.3 on each axis and the schema
`X`, `Y`, `Z`, each with scale 0.1 and offset 0. -/
def tenthsMetadata : QJsonObject :=
  [("dataType", QJsonValue.string "laszip"),
   ("hierarchyType", QJsonValue.string "json"),
   ("span", QJsonValue.double 128),
   ("points", QJsonValue.double 1000),
   ("bounds", QJsonValue.array [QJsonValue.double 0, QJsonValue.double 0, QJsonValue.double 0,
      QJsonValue.double nearestToThreeTenths, QJsonValue.double nearestToThreeTenths,
      QJsonValue.double nearestToThreeTenths]),
   ("boundsConforming", QJsonValue.array [QJsonValue.double 0, QJsonValue.double 0,
      QJsonValue.double 0, QJsonValue.double nearestToThreeTenths,
      QJsonValue.double nearestToThreeTenths, QJsonValue.double nearestToThreeTenths]),
   ("schema", QJsonValue.array [scaledEntry "X" nearestToTenth 0, scaledEntry "Y" nearestToTenth 0,
      scaledEntry "Z" nearestToTenth 0])]

/-! ## The hierarchy mutex

The hierarchy loader once more, this time recording in order what a call does with
`mHierarchyMutex` and with the two containers it guards. -/

/-- One step of a call with regard to `mHierarchyMutex`: the mutex is locked, or unlocked; the
count map or the pending set is read, or written; a hierarchy file is fetched. -/
inductive SyncEvent where
  | lock
  | unlock
  | read
  | write
  | fetch
deriving DecidableEq, Repr

/-- The writes of the loop of `loadSingleNodeHierarchy` over the members of the hierarchy
object: one for each entry with a value that is non-negative or `-1`. -/
def hierarchyEntriesSync : QJsonObject → List SyncEvent
  | [] => []
  | (_, value) :: rest =>
    (if value.toInt ≥ 0 then [SyncEvent.write]
     else if value.toInt = -1 then [SyncEvent.write]
     else []) ++ hierarchyEntriesSync rest

namespace QgsEptPointCloudIndex

/-- The steps of `loadSingleNodeHierarchy( nodeId )`: `lock()`, the two `contains`,
`unlock()`; then, unless it returns early, the fetch; then, unless the fetch or the parse
failed, the `QMutexLocker`, the writes of the loop, and the unlock as the locker goes out of
scope. -/
def loadSingleNodeHierarchySync (env : Env) (nodeId : IndexedPointCloudNode)
    (s : QgsEptPointCloudIndex) : List SyncEvent :=
  [SyncEvent.lock, SyncEvent.read, SyncEvent.read, SyncEvent.unlock] ++
  (if QMap.contains s.mHierarchy nodeId then []
   else if !QSet.contains s.mHierarchyNodes nodeId then []
   else
     SyncEvent.fetch ::
       (match (fetchHierarchyFile env (hierarchyFilePath s nodeId) s).1 with
        | none => []
        | some dataJsonH =>
          match dataJsonH.fromJson with
          | none => []
          | some docH =>
            [SyncEvent.lock] ++ hierarchyEntriesSync docH.object ++ [SyncEvent.unlock]))

/-- The steps of the loop of `loadNodeHierarchy`: in each iteration the `contains` of the
loop condition, then the steps of `loadSingleNodeHierarchy`. -/
def loadNodeHierarchyLoopSync (env : Env) (nodeId : IndexedPointCloudNode) :
    List IndexedPointCloudNode → QgsEptPointCloudIndex → List SyncEvent
  | [], _ => []
  | node :: rest, s =>
    SyncEvent.read ::
      (if QMap.contains s.mHierarchy nodeId then []
       else
         loadSingleNodeHierarchySync env node s ++
           (match loadSingleNodeHierarchy env node s with
            | (false, _) => []
            | (true, s) => loadNodeHierarchyLoopSync env nodeId rest s))

/-- The steps of `loadNodeHierarchy( nodeId )`: `lock()`, `contains`, `unlock()`; the loop;
and, unless the loop returned false, `lock()`, `contains`, `unlock()` again. -/
def loadNodeHierarchySync (env : Env) (nodeId : IndexedPointCloudNode)
    (s : QgsEptPointCloudIndex) : List SyncEvent :=
  [SyncEvent.lock, SyncEvent.read, SyncEvent.unlock] ++
  (if QMap.contains s.mHierarchy nodeId then []
   else
     loadNodeHierarchyLoopSync env nodeId (nodePathToRoot nodeId).reverse s ++
       (match loadNodeHierarchyLoop env nodeId (nodePathToRoot nodeId).reverse s with
        | (false, _) => []
        | (true, _) => [SyncEvent.lock, SyncEvent.read, SyncEvent.unlock]))

/-- The steps of the loop of `nodePointCount`: in each iteration the steps of
`loadSingleNodeHierarchy`, then the `QMutexLocker`, the `value` and the unlock as the locker
goes out of scope. -/
def nodePointCountLoopSync (env : Env) (nodeId : IndexedPointCloudNode) :
    List IndexedPointCloudNode → QgsEptPointCloudIndex → List SyncEvent
  | [], _ => []
  | node :: rest, s =>
    loadSingleNodeHierarchySync env node s ++
      [SyncEvent.lock, SyncEvent.read, SyncEvent.unlock] ++
      (let s := (loadSingleNodeHierarchy env node s).2
       if QMap.value s.mHierarchy nodeId (-1) ≠ -1 then []
       else nodePointCountLoopSync env nodeId rest s)

/-- The steps of `nodePointCount( nodeId )`: the `QMutexLocker`, the `value` and the unlock
of the first block; then, unless the count was there, the loop. -/
def nodePointCountSync (env : Env) (nodeId : IndexedPointCloudNode)
    (s : QgsEptPointCloudIndex) : List SyncEvent :=
  [SyncEvent.lock, SyncEvent.read, SyncEvent.unlock] ++
  (if QMap.value s.mHierarchy nodeId (-1) ≠ -1 then []
   else nodePointCountLoopSync env nodeId (nodePathToRoot nodeId).reverse s)

end QgsEptPointCloudIndex

/-- Whether a sequence of steps keeps the discipline of the mutex, `held` telling whether the
mutex is held at its start: every read and every write happens while the mutex is held, and
no fetch does. -/
def lockDiscipline : Bool → List SyncEvent → Bool
  | _, [] => true
  | _, SyncEvent.lock :: rest => lockDiscipline true rest
  | _, SyncEvent.unlock :: rest => lockDiscipline false rest
  | held, SyncEvent.read :: rest => held && lockDiscipline held rest
  | held, SyncEvent.write :: rest => held && lockDiscipline held rest
  | held, SyncEvent.fetch :: rest => !held && lockDiscipline held rest

/-- Every count stored in the count map of the index state is non-negative. -/
def CountsNonNegative (s : QgsEptPointCloudIndex) : Prop :=
  ∀ (n : IndexedPointCloudNode) (c : Int), QMap.find s.mHierarchy n = some c → 0 ≤ c

/-! ## Lemmas on the containers -/

theorem qmap_find_erase_ne {κ α : Type} [DecidableEq κ] (m : QMap κ α) (k k1 : κ) (h : k1 ≠ k) :
    QMap.find (QMap.erase m k) k1 = QMap.find m k1 := by
  induction m with
  | nil => rfl
  | cons e m ih =>
    obtain ⟨a, v⟩ := e
    by_cases hak : a = k
    · subst hak
      have hne : ¬ a = k1 := fun h1 => h h1.symm
      simp [QMap.erase, QMap.find, hne, ih]
    · by_cases ha1 : a = k1
      · subst ha1
        simp [QMap.erase, QMap.find, hak]
      · simp [QMap.erase, QMap.find, hak, ha1, ih]

theorem qmap_find_insert_self {κ α : Type} [DecidableEq κ] (m : QMap κ α) (k : κ) (v : α) :
    QMap.find (QMap.insert m k v) k = some v := by
  simp [QMap.insert, QMap.find]

theorem qmap_find_insert_ne {κ α : Type} [DecidableEq κ] (m : QMap κ α) (k k1 : κ) (v : α)
    (h : k1 ≠ k) : QMap.find (QMap.insert m k v) k1 = QMap.find m k1 := by
  have hne : ¬ k = k1 := fun h1 => h h1.symm
  simp only [QMap.insert, QMap.find, hne, if_false]
  exact qmap_find_erase_ne m k k1 h

theorem qmap_contains_insert {κ α : Type} [DecidableEq κ] (m : QMap κ α) (k k1 : κ) (v : α)
    (h : QMap.contains m k1 = true) : QMap.contains (QMap.insert m k v) k1 = true := by
  by_cases hk : k1 = k
  · subst hk
    simp [QMap.contains, qmap_find_insert_self]
  · simpa [QMap.contains, qmap_find_insert_ne m k k1 v hk] using h

theorem qset_contains_insert_self {κ : Type} [DecidableEq κ] (s : QSet κ) (k : κ) :
    QSet.contains (QSet.insert s k) k = true := by
  unfold QSet.contains QSet.insert
  by_cases h : k ∈ s <;> simp [h]

theorem qset_contains_insert {κ : Type} [DecidableEq κ] (s : QSet κ) (k k1 : κ)
    (h : QSet.contains s k1 = true) : QSet.contains (QSet.insert s k) k1 = true := by
  unfold QSet.contains QSet.insert at *
  by_cases hk : k ∈ s
  · simpa [hk] using h
  · have h1 : k1 ∈ s := by simpa using h
    simp [hk, h1]

/-! ## Lemmas on the hierarchy loader -/

open QgsEptPointCloudIndex

theorem applyHierarchyEntries_frame (f : String → IndexedPointCloudNode) (o : QJsonObject)
    (s : QgsEptPointCloudIndex) :
    applyHierarchyEntries f o s =
      { s with mHierarchy := (applyHierarchyEntries f o s).mHierarchy,
               mHierarchyNodes := (applyHierarchyEntries f o s).mHierarchyNodes } := by
  induction o generalizing s with
  | nil => rfl
  | cons e o ih =>
    obtain ⟨k, v⟩ := e
    simp only [applyHierarchyEntries]
    split
    · rw [ih]
    · split
      · rw [ih]
      · rw [ih]

theorem applyHierarchyEntries_contains (f : String → IndexedPointCloudNode) (o : QJsonObject)
    (s : QgsEptPointCloudIndex) (n : IndexedPointCloudNode)
    (h : QMap.contains s.mHierarchy n = true) :
    QMap.contains (applyHierarchyEntries f o s).mHierarchy n = true := by
  induction o generalizing s with
  | nil => exact h
  | cons e o ih =>
    obtain ⟨k, v⟩ := e
    simp only [applyHierarchyEntries]
    split
    · exact ih _ (qmap_contains_insert _ _ _ _ h)
    · split
      · exact ih _ h
      · exact ih _ h

theorem applyHierarchyEntries_pending (f : String → IndexedPointCloudNode) (o : QJsonObject)
    (s : QgsEptPointCloudIndex) (n : IndexedPointCloudNode)
    (h : QSet.contains s.mHierarchyNodes n = true) :
    QSet.contains (applyHierarchyEntries f o s).mHierarchyNodes n = true := by
  induction o generalizing s with
  | nil => exact h
  | cons e o ih =>
    obtain ⟨k, v⟩ := e
    simp only [applyHierarchyEntries]
    split
    · exact ih _ h
    · split
      · exact ih _ (qset_contains_insert _ _ _ h)
      · exact ih _ h

theorem applyHierarchyEntries_find_of_not_listed (f : String → IndexedPointCloudNode)
    (o : QJsonObject) (s : QgsEptPointCloudIndex) (n : IndexedPointCloudNode)
    (h : ∀ e ∈ o, f e.1 = n → e.2.toInt < 0) :
    QMap.find (applyHierarchyEntries f o s).mHierarchy n = QMap.find s.mHierarchy n := by
  induction o generalizing s with
  | nil => rfl
  | cons e o ih =>
    obtain ⟨k, v⟩ := e
    have hrest : ∀ e ∈ o, f e.1 = n → e.2.toInt < 0 :=
      fun e he => h e (List.mem_cons_of_mem _ he)
    simp only [applyHierarchyEntries]
    split
    · rename_i hge
      have hne : n ≠ f k := by
        intro hn
        have := h (k, v) (List.mem_cons_self _ _) hn.symm
        simp only at this
        omega
      rw [ih _ hrest]
      exact qmap_find_insert_ne _ _ _ _ hne
    · split
      · exact ih _ hrest
      · exact ih _ hrest

theorem applyHierarchyEntries_pending_of_entry (f : String → IndexedPointCloudNode)
    (o : QJsonObject) (s : QgsEptPointCloudIndex) (k : String) (v : QJsonValue)
    (hmem : (k, v) ∈ o) (hv : v.toInt = -1) :
    QSet.contains (applyHierarchyEntries f o s).mHierarchyNodes (f k) = true := by
  induction o generalizing s with
  | nil => cases hmem
  | cons e o ih =>
    obtain ⟨k1, v1⟩ := e
    simp only [applyHierarchyEntries]
    rcases List.mem_cons.mp hmem with heq | hin
    · obtain ⟨rfl, rfl⟩ := Prod.mk.inj heq
      have h1 : ¬ (v.toInt ≥ 0) := by omega
      simp only [h1, hv, if_true, if_false]
      exact applyHierarchyEntries_pending _ _ _ _ (qset_contains_insert_self _ _)
    · split
      · exact ih _ hin
      · split
        · exact ih _ hin
        · exact ih _ hin

theorem applyHierarchyEntries_count_of_entry (f : String → IndexedPointCloudNode)
    (o : QJsonObject) (s : QgsEptPointCloudIndex) (k : String) (v : QJsonValue)
    (hdistinct : (o.map (fun e => f e.1)).Nodup)
    (hmem : (k, v) ∈ o) (hv : 0 ≤ v.toInt) :
    QMap.find (applyHierarchyEntries f o s).mHierarchy (f k) = some v.toInt := by
  induction o generalizing s with
  | nil => cases hmem
  | cons e o ih =>
    obtain ⟨k1, v1⟩ := e
    simp only [List.map_cons, List.nodup_cons] at hdistinct
    obtain ⟨hnotin, hnodup⟩ := hdistinct
    simp only [applyHierarchyEntries]
    rcases List.mem_cons.mp hmem with heq | hin
    · obtain ⟨rfl, rfl⟩ := Prod.mk.inj heq
      have h1 : v.toInt ≥ 0 := hv
      simp only [h1, if_true]
      rw [applyHierarchyEntries_find_of_not_listed]
      · exact qmap_find_insert_self _ _ _
      · intro e he hfe
        exact absurd (List.mem_map.mpr ⟨e, he, hfe⟩) hnotin
    · split
      · exact ih _ hnodup hin
      · split
        · exact ih _ hnodup hin
        · exact ih _ hnodup hin

theorem fetchHierarchyFile_state (env : Env) (p : String) (s : QgsEptPointCloudIndex) :
    ∃ e, (fetchHierarchyFile env p s).2 = record e s := by
  unfold fetchHierarchyFile
  cases s.mAccessType
  · exact ⟨_, rfl⟩
  · exact ⟨_, rfl⟩

theorem loadSingleNodeHierarchy_known (env : Env) (n : IndexedPointCloudNode)
    (s : QgsEptPointCloudIndex) (h : QMap.contains s.mHierarchy n = true) :
    loadSingleNodeHierarchy env n s = (true, s) := by
  simp [loadSingleNodeHierarchy, h]

theorem loadSingleNodeHierarchy_not_pending (env : Env) (n : IndexedPointCloudNode)
    (s : QgsEptPointCloudIndex) (h : QSet.contains s.mHierarchyNodes n = false) :
    loadSingleNodeHierarchy env n s = (true, s) := by
  simp [loadSingleNodeHierarchy, h]

/-- What `loadSingleNodeHierarchy` does for a node that is in `mHierarchyNodes` and has no
count: it fetches the file, and fails without touching the store or applies the entries. -/
theorem loadSingleNodeHierarchy_fetch (env : Env) (n : IndexedPointCloudNode)
    (s : QgsEptPointCloudIndex) (hc : QMap.contains s.mHierarchy n = false)
    (hp : QSet.contains s.mHierarchyNodes n = true) :
    loadSingleNodeHierarchy env n s =
      match (fetchHierarchyFile env (hierarchyFilePath s n) s).1 with
      | none => (false, (fetchHierarchyFile env (hierarchyFilePath s n) s).2)
      | some dataJsonH =>
        match dataJsonH.fromJson with
        | none => (false, (fetchHierarchyFile env (hierarchyFilePath s n) s).2)
        | some docH =>
          (true, applyHierarchyEntries env.fromString docH.object
            (fetchHierarchyFile env (hierarchyFilePath s n) s).2) := by
  simp only [loadSingleNodeHierarchy, hc, hp]
  rcases hf : fetchHierarchyFile env (hierarchyFilePath s n) s with ⟨r, s1⟩
  cases r with
  | none => simp
  | some d =>
    cases hd : d.fromJson with
    | none => simp [hd]
    | some doc => simp [hd]

theorem fetchHierarchyFile_store (env : Env) (p : String) (s : QgsEptPointCloudIndex) :
    (fetchHierarchyFile env p s).2.mHierarchy = s.mHierarchy ∧
    (fetchHierarchyFile env p s).2.mHierarchyNodes = s.mHierarchyNodes := by
  obtain ⟨e, he⟩ := fetchHierarchyFile_state env p s
  rw [he]
  exact ⟨rfl, rfl⟩

theorem loadSingleNodeHierarchy_false_store (env : Env) (n : IndexedPointCloudNode)
    (s : QgsEptPointCloudIndex) (h : (loadSingleNodeHierarchy env n s).1 = false) :
    (loadSingleNodeHierarchy env n s).2.mHierarchy = s.mHierarchy ∧
    (loadSingleNodeHierarchy env n s).2.mHierarchyNodes = s.mHierarchyNodes := by
  cases hc : QMap.contains s.mHierarchy n with
  | true => rw [loadSingleNodeHierarchy_known env n s hc]; exact ⟨rfl, rfl⟩
  | false =>
    cases hp : QSet.contains s.mHierarchyNodes n with
    | false => rw [loadSingleNodeHierarchy_not_pending env n s hp]; exact ⟨rfl, rfl⟩
    | true =>
      rw [loadSingleNodeHierarchy_fetch env n s hc hp] at h ⊢
      cases hf : (fetchHierarchyFile env (hierarchyFilePath s n) s).1 with
      | none => simp only [hf]; exact fetchHierarchyFile_store env _ s
      | some d =>
        cases hd : d.fromJson with
        | none => simp only [hf, hd]; exact fetchHierarchyFile_store env _ s
        | some doc => simp [hf, hd] at h

theorem loadSingleNodeHierarchy_contains (env : Env) (n m : IndexedPointCloudNode)
    (s : QgsEptPointCloudIndex) (h : QMap.contains s.mHierarchy m = true) :
    QMap.contains (loadSingleNodeHierarchy env n s).2.mHierarchy m = true := by
  cases hc : QMap.contains s.mHierarchy n with
  | true => rw [loadSingleNodeHierarchy_known env n s hc]; exact h
  | false =>
    cases hp : QSet.contains s.mHierarchyNodes n with
    | false => rw [loadSingleNodeHierarchy_not_pending env n s hp]; exact h
    | true =>
      rw [loadSingleNodeHierarchy_fetch env n s hc hp]
      have hs := (fetchHierarchyFile_store env (hierarchyFilePath s n) s).1
      cases hf : (fetchHierarchyFile env (hierarchyFilePath s n) s).1 with
      | none => simp only [hf, hs]; exact h
      | some d =>
        cases hd : d.fromJson with
        | none => simp only [hf, hd, hs]; exact h
        | some doc =>
          simp only [hf, hd]
          exact applyHierarchyEntries_contains _ _ _ _ (by rw [hs]; exact h)

theorem loadSingleNodeHierarchy_pending (env : Env) (n m : IndexedPointCloudNode)
    (s : QgsEptPointCloudIndex) (h : QSet.contains s.mHierarchyNodes m = true) :
    QSet.contains (loadSingleNodeHierarchy env n s).2.mHierarchyNodes m = true := by
  cases hc : QMap.contains s.mHierarchy n with
  | true => rw [loadSingleNodeHierarchy_known env n s hc]; exact h
  | false =>
    cases hp : QSet.contains s.mHierarchyNodes n with
    | false => rw [loadSingleNodeHierarchy_not_pending env n s hp]; exact h
    | true =>
      rw [loadSingleNodeHierarchy_fetch env n s hc hp]
      have hs := (fetchHierarchyFile_store env (hierarchyFilePath s n) s).2
      cases hf : (fetchHierarchyFile env (hierarchyFilePath s n) s).1 with
      | none => simp only [hf, hs]; exact h
      | some d =>
        cases hd : d.fromJson with
        | none => simp only [hf, hd, hs]; exact h
        | some doc =>
          simp only [hf, hd]
          exact applyHierarchyEntries_pending _ _ _ _ (by rw [hs]; exact h)

theorem loadNodeHierarchyLoop_false (env : Env) (n : IndexedPointCloudNode)
    (path : List IndexedPointCloudNode) (s : QgsEptPointCloudIndex)
    (h : (loadNodeHierarchyLoop env n path s).1 = false) :
    QMap.contains (loadNodeHierarchyLoop env n path s).2.mHierarchy n = false := by
  induction path generalizing s with
  | nil => simp [loadNodeHierarchyLoop] at h
  | cons node rest ih =>
    cases hc : QMap.contains s.mHierarchy n with
    | true => simp [loadNodeHierarchyLoop, hc] at h
    | false =>
      rcases hl : loadSingleNodeHierarchy env node s with ⟨b, s1⟩
      cases b with
      | false =>
        have hst := (loadSingleNodeHierarchy_false_store env node s (by rw [hl])).1
        rw [hl] at hst
        simp only [loadNodeHierarchyLoop, hc, hl]
        simp only [Bool.false_eq_true, if_false]
        rw [hst]; exact hc
      | true =>
        simp only [loadNodeHierarchyLoop, hc, hl, Bool.false_eq_true, if_false] at h ⊢
        exact ih s1 h

/-! ## C1: the flag of loadNodeHierarchy -/

/-- C1: for every environment, index state and node `n`, `loadNodeHierarchy( n )` returns true
if and only if `mHierarchy` contains `n` in the state the call leaves; `hasNode( n )` is the
same call. -/
theorem loadNodeHierarchy_true_iff_count_known (env : Env) (n : IndexedPointCloudNode)
    (s : QgsEptPointCloudIndex) :
    ((loadNodeHierarchy env n s).1 = true ↔
      QMap.contains (loadNodeHierarchy env n s).2.mHierarchy n = true) ∧
    hasNode env n s = loadNodeHierarchy env n s := by
  refine ⟨?_, rfl⟩
  cases hc : QMap.contains s.mHierarchy n with
  | true => simp [loadNodeHierarchy, hc]
  | false =>
    rcases hl : loadNodeHierarchyLoop env n (nodePathToRoot n).reverse s with ⟨b, s1⟩
    cases b with
    | false =>
      have hf := loadNodeHierarchyLoop_false env n (nodePathToRoot n).reverse s (by rw [hl])
      rw [hl] at hf
      simp only [loadNodeHierarchy, hc, hl]
      simp only [Bool.false_eq_true, if_false]
      simp only at hf
      simp [hf]
    | true =>
      simp only [loadNodeHierarchy, hc, hl]
      simp

/-! ## C2: the entries of a hierarchy file -/

theorem toInt_of_int (v : Int) (hlo : -2147483648 ≤ v) (hhi : v ≤ 2147483647) :
    (QJsonValue.double (v : ℚ)).toInt = v := by
  simp only [QJsonValue.toInt, Rat.den_intCast, Rat.num_intCast]
  rw [if_pos ⟨trivial, hlo, hhi⟩]

theorem toInt_of_not_int (value : QJsonValue)
    (h : ∀ v : Int, -2147483648 ≤ v → v ≤ 2147483647 → value ≠ QJsonValue.double (v : ℚ)) :
    value.toInt = 0 := by
  cases value with
  | double q =>
    simp only [QJsonValue.toInt]
    split
    · rename_i hq
      exact absurd (congrArg QJsonValue.double (Rat.coe_int_num_of_den_eq_one hq.1).symm)
        (h q.num hq.2.1 hq.2.2)
    · rfl
  | _ => rfl

/-- C2 as stated fails: the hierarchy file `{"0-0-0-1": 2147483648}` is fetched and parsed for
the root of a fresh index, which is in `mHierarchyNodes` and has no count, and
`loadSingleNodeHierarchy` returns true; the value of the entry is not negative, and the count
recorded for node `0-0-0-1` is 0, not 2147483648. -/
theorem count_beyond_int_recorded_as_zero :
    QSet.contains sampleIndex.mHierarchyNodes rootNode = true ∧
    QMap.contains sampleIndex.mHierarchy rootNode = false ∧
    (loadSingleNodeHierarchy (sampleEnv (some (jsonBytes largeCountHierarchy))) rootNode
        sampleIndex).1 = true ∧
    QMap.find (loadSingleNodeHierarchy (sampleEnv (some (jsonBytes largeCountHierarchy))) rootNode
        sampleIndex).2.mHierarchy ⟨0, 0, 0, 1⟩ = some 0 := by
  decide

/-- C2 as amended: for a node that is in `mHierarchyNodes` and has no count, when the fetch of
its hierarchy file succeeds and the bytes parse to an object whose keys denote distinct nodes,
`loadSingleNodeHierarchy` returns true and afterwards, for every entry `(k, value)` of the
object: when `value` is an integer `v` in the range of a 32-bit `int`, the count of node `k` is
`v` if `v >= 0`, and node `k` is in `mHierarchyNodes` if `v = -1`; when `value` is anything
else (not a number, not integral, or outside that range) the count of node `k` is 0. -/
theorem loadSingleNodeHierarchy_records_entries (env : Env) (nodeId : IndexedPointCloudNode)
    (s : QgsEptPointCloudIndex) (dataJsonH : QByteArray) (docH : QJsonDocument)
    (hpending : QSet.contains s.mHierarchyNodes nodeId = true)
    (hnocount : QMap.contains s.mHierarchy nodeId = false)
    (hfetch : (fetchHierarchyFile env (hierarchyFilePath s nodeId) s).1 = some dataJsonH)
    (hparse : dataJsonH.fromJson = some docH)
    (hdistinct : (docH.object.map (fun e => env.fromString e.1)).Nodup) :
    (loadSingleNodeHierarchy env nodeId s).1 = true ∧
    ∀ (k : String) (value : QJsonValue), (k, value) ∈ docH.object →
      (∀ v : Int, value = QJsonValue.double (v : ℚ) → -2147483648 ≤ v → v ≤ 2147483647 →
        (0 ≤ v → QMap.find (loadSingleNodeHierarchy env nodeId s).2.mHierarchy (env.fromString k)
            = some v) ∧
        (v = -1 → QSet.contains (loadSingleNodeHierarchy env nodeId s).2.mHierarchyNodes
            (env.fromString k) = true)) ∧
      ((∀ v : Int, -2147483648 ≤ v → v ≤ 2147483647 → value ≠ QJsonValue.double (v : ℚ)) →
        QMap.find (loadSingleNodeHierarchy env nodeId s).2.mHierarchy (env.fromString k)
          = some 0) := by
  rw [loadSingleNodeHierarchy_fetch env nodeId s hnocount hpending]
  simp only [hfetch, hparse]
  refine ⟨trivial, ?_⟩
  intro k value hmem
  constructor
  · intro v hv hlo hhi
    have ht : value.toInt = v := by rw [hv]; exact toInt_of_int v hlo hhi
    constructor
    · intro h0
      rw [← ht]
      exact applyHierarchyEntries_count_of_entry _ _ _ k value hdistinct hmem (by rw [ht]; exact h0)
    · intro h1
      exact applyHierarchyEntries_pending_of_entry _ _ _ k value hmem (by rw [ht]; exact h1)
  · intro hnot
    have ht : value.toInt = 0 := toInt_of_not_int value hnot
    have h := applyHierarchyEntries_count_of_entry env.fromString docH.object
      (fetchHierarchyFile env (hierarchyFilePath s nodeId) s).2 k value hdistinct hmem
      (by rw [ht])
    rw [ht] at h
    exact h

/-- The hierarchy file `{"0-0-0-1": 42, "0-0-0-2": -1}` loaded for the root of a fresh index:
node `0-0-0-1` gets the count 42 and node `0-0-0-2` is put into `mHierarchyNodes`. -/
theorem loadSingleNodeHierarchy_records_entries_witness :
    QMap.find (loadSingleNodeHierarchy (sampleEnv (some (jsonBytes sampleHierarchy))) rootNode
        sampleIndex).2.mHierarchy ⟨0, 0, 0, 1⟩ = some 42 ∧
    QSet.contains (loadSingleNodeHierarchy (sampleEnv (some (jsonBytes sampleHierarchy))) rootNode
        sampleIndex).2.mHierarchyNodes ⟨0, 0, 0, 2⟩ = true :=
  have h := (loadSingleNodeHierarchy_records_entries (sampleEnv (some (jsonBytes sampleHierarchy)))
    rootNode sampleIndex (jsonBytes sampleHierarchy) (QJsonDocument.ofObject sampleHierarchy)
    (by decide) (by decide) rfl rfl (by decide)).2
  ⟨((h "0-0-0-1" (QJsonValue.double 42) (List.Mem.head _)).1 42 (by norm_num) (by decide)
      (by decide)).1 (by decide),
   ((h "0-0-0-2" (QJsonValue.double (-1)) (List.Mem.tail _ (List.Mem.head _))).1 (-1)
      (by norm_num) (by decide) (by decide)).2 rfl⟩

/-! ## C5: a failed fetch or parse -/

/-- C5: for a node that is in `mHierarchyNodes` and has no count, if the fetch of its hierarchy
file fails or the fetched bytes are not valid JSON, `loadSingleNodeHierarchy` returns false
and leaves `mHierarchy` and `mHierarchyNodes` as they were. -/
theorem loadSingleNodeHierarchy_failure_keeps_store (env : Env) (nodeId : IndexedPointCloudNode)
    (s : QgsEptPointCloudIndex)
    (hpending : QSet.contains s.mHierarchyNodes nodeId = true)
    (hnocount : QMap.contains s.mHierarchy nodeId = false)
    (hfail : (fetchHierarchyFile env (hierarchyFilePath s nodeId) s).1 = none ∨
      ∃ dataJsonH, (fetchHierarchyFile env (hierarchyFilePath s nodeId) s).1 = some dataJsonH ∧
        dataJsonH.fromJson = none) :
    (loadSingleNodeHierarchy env nodeId s).1 = false ∧
    (loadSingleNodeHierarchy env nodeId s).2.mHierarchy = s.mHierarchy ∧
    (loadSingleNodeHierarchy env nodeId s).2.mHierarchyNodes = s.mHierarchyNodes := by
  have hflag : (loadSingleNodeHierarchy env nodeId s).1 = false := by
    rw [loadSingleNodeHierarchy_fetch env nodeId s hnocount hpending]
    rcases hfail with h | ⟨d, h, hd⟩
    · simp only [h]
    · simp only [h, hd]
  exact ⟨hflag, loadSingleNodeHierarchy_false_store env nodeId s hflag⟩

/-- A fetch that fails for the root of a fresh index. -/
theorem loadSingleNodeHierarchy_failure_keeps_store_witness :
    (loadSingleNodeHierarchy (sampleEnv none) rootNode sampleIndex).1 = false ∧
    (loadSingleNodeHierarchy (sampleEnv none) rootNode sampleIndex).2.mHierarchy
      = sampleIndex.mHierarchy ∧
    (loadSingleNodeHierarchy (sampleEnv none) rootNode sampleIndex).2.mHierarchyNodes
      = sampleIndex.mHierarchyNodes :=
  loadSingleNodeHierarchy_failure_keeps_store (sampleEnv none) rootNode sampleIndex
    (by decide) (by decide) (Or.inl rfl)

/-! ## C6: nothing to load -/

/-- C6: if the node already has a count, or it has no count and is not in `mHierarchyNodes`,
`loadSingleNodeHierarchy` returns true and leaves the whole index state, the I/O trace
included, as it was: no fetch is issued and both containers are unchanged. -/
theorem loadSingleNodeHierarchy_nothing_to_load (env : Env) (nodeId : IndexedPointCloudNode)
    (s : QgsEptPointCloudIndex)
    (h : QMap.contains s.mHierarchy nodeId = true ∨
      (QMap.contains s.mHierarchy nodeId = false ∧ QSet.contains s.mHierarchyNodes nodeId = false)) :
    (loadSingleNodeHierarchy env nodeId s).1 = true ∧
    (loadSingleNodeHierarchy env nodeId s).2.trace = s.trace ∧
    (loadSingleNodeHierarchy env nodeId s).2.mHierarchy = s.mHierarchy ∧
    (loadSingleNodeHierarchy env nodeId s).2.mHierarchyNodes = s.mHierarchyNodes ∧
    (loadSingleNodeHierarchy env nodeId s).2 = s := by
  rcases h with h | ⟨_, h⟩
  · rw [loadSingleNodeHierarchy_known env nodeId s h]
    exact ⟨rfl, rfl, rfl, rfl, rfl⟩
  · rw [loadSingleNodeHierarchy_not_pending env nodeId s h]
    exact ⟨rfl, rfl, rfl, rfl, rfl⟩

/-- A node of a fresh index that has no count and is not in `mHierarchyNodes`, in an
environment where every fetch would succeed. -/
theorem loadSingleNodeHierarchy_nothing_to_load_witness :
    (loadSingleNodeHierarchy (sampleEnv (some (jsonBytes sampleHierarchy))) ⟨1, 0, 0, 0⟩
      sampleIndex).1 = true ∧
    (loadSingleNodeHierarchy (sampleEnv (some (jsonBytes sampleHierarchy))) ⟨1, 0, 0, 0⟩
      sampleIndex).2.trace = sampleIndex.trace :=
  have h := loadSingleNodeHierarchy_nothing_to_load (sampleEnv (some (jsonBytes sampleHierarchy)))
    ⟨1, 0, 0, 0⟩ sampleIndex (Or.inr ⟨by decide, by decide⟩)
  ⟨h.1, h.2.1⟩

/-! ## Lemmas on the loops over the path -/

theorem fetchHierarchyFile_reply (env : Env) (p : String) (s : QgsEptPointCloudIndex)
    (d : QByteArray) (h : (fetchHierarchyFile env p s).1 = some d) :
    env.fileRead p = some d ∨ env.tileDownloadGet p = some d := by
  unfold fetchHierarchyFile at h
  cases ha : s.mAccessType with
  | Local => rw [ha] at h; exact Or.inl h
  | Remote => rw [ha] at h; exact Or.inr h

theorem loadNodeHierarchyLoop_contains (env : Env) (n m : IndexedPointCloudNode)
    (path : List IndexedPointCloudNode) (s : QgsEptPointCloudIndex)
    (h : QMap.contains s.mHierarchy m = true) :
    QMap.contains (loadNodeHierarchyLoop env n path s).2.mHierarchy m = true := by
  induction path generalizing s with
  | nil => exact h
  | cons node rest ih =>
    cases hc : QMap.contains s.mHierarchy n with
    | true => simp only [loadNodeHierarchyLoop, hc, if_true]; exact h
    | false =>
      have h1 := loadSingleNodeHierarchy_contains env node m s h
      rcases hl : loadSingleNodeHierarchy env node s with ⟨b, s1⟩
      rw [hl] at h1
      cases b with
      | false => simp only [loadNodeHierarchyLoop, hc, hl, Bool.false_eq_true, if_false]; exact h1
      | true =>
        simp only [loadNodeHierarchyLoop, hc, hl, Bool.false_eq_true, if_false]
        exact ih s1 h1

theorem loadNodeHierarchyLoop_pending (env : Env) (n m : IndexedPointCloudNode)
    (path : List IndexedPointCloudNode) (s : QgsEptPointCloudIndex)
    (h : QSet.contains s.mHierarchyNodes m = true) :
    QSet.contains (loadNodeHierarchyLoop env n path s).2.mHierarchyNodes m = true := by
  induction path generalizing s with
  | nil => exact h
  | cons node rest ih =>
    cases hc : QMap.contains s.mHierarchy n with
    | true => simp only [loadNodeHierarchyLoop, hc, if_true]; exact h
    | false =>
      have h1 := loadSingleNodeHierarchy_pending env node m s h
      rcases hl : loadSingleNodeHierarchy env node s with ⟨b, s1⟩
      rw [hl] at h1
      cases b with
      | false => simp only [loadNodeHierarchyLoop, hc, hl, Bool.false_eq_true, if_false]; exact h1
      | true =>
        simp only [loadNodeHierarchyLoop, hc, hl, Bool.false_eq_true, if_false]
        exact ih s1 h1

/-- The state that `loadNodeHierarchy` leaves is the state its loop leaves, or the state it
was called in. -/
theorem loadNodeHierarchy_state (env : Env) (n : IndexedPointCloudNode)
    (s : QgsEptPointCloudIndex) :
    (loadNodeHierarchy env n s).2 = s ∨
    (loadNodeHierarchy env n s).2 = (loadNodeHierarchyLoop env n (nodePathToRoot n).reverse s).2 := by
  cases hc : QMap.contains s.mHierarchy n with
  | true => left; simp [loadNodeHierarchy, hc]
  | false =>
    right
    rcases hl : loadNodeHierarchyLoop env n (nodePathToRoot n).reverse s with ⟨b, s1⟩
    cases b <;> simp [loadNodeHierarchy, hc, hl]

theorem loadNodeHierarchy_contains (env : Env) (n m : IndexedPointCloudNode)
    (s : QgsEptPointCloudIndex) (h : QMap.contains s.mHierarchy m = true) :
    QMap.contains (loadNodeHierarchy env n s).2.mHierarchy m = true := by
  rcases loadNodeHierarchy_state env n s with h1 | h1
  · rw [h1]; exact h
  · rw [h1]; exact loadNodeHierarchyLoop_contains env n m _ s h

theorem loadNodeHierarchy_pending (env : Env) (n m : IndexedPointCloudNode)
    (s : QgsEptPointCloudIndex) (h : QSet.contains s.mHierarchyNodes m = true) :
    QSet.contains (loadNodeHierarchy env n s).2.mHierarchyNodes m = true := by
  rcases loadNodeHierarchy_state env n s with h1 | h1
  · rw [h1]; exact h
  · rw [h1]; exact loadNodeHierarchyLoop_pending env n m _ s h

theorem nodePointCountLoop_contains (env : Env) (n m : IndexedPointCloudNode)
    (path : List IndexedPointCloudNode) (s : QgsEptPointCloudIndex)
    (h : QMap.contains s.mHierarchy m = true) :
    QMap.contains (nodePointCountLoop env n path s).2.mHierarchy m = true := by
  induction path generalizing s with
  | nil => exact h
  | cons node rest ih =>
    have h1 := loadSingleNodeHierarchy_contains env node m s h
    simp only [nodePointCountLoop]
    split
    · exact h1
    · exact ih _ h1

theorem nodePointCountLoop_pending (env : Env) (n m : IndexedPointCloudNode)
    (path : List IndexedPointCloudNode) (s : QgsEptPointCloudIndex)
    (h : QSet.contains s.mHierarchyNodes m = true) :
    QSet.contains (nodePointCountLoop env n path s).2.mHierarchyNodes m = true := by
  induction path generalizing s with
  | nil => exact h
  | cons node rest ih =>
    have h1 := loadSingleNodeHierarchy_pending env node m s h
    simp only [nodePointCountLoop]
    split
    · exact h1
    · exact ih _ h1

theorem nodePointCount_state (env : Env) (n : IndexedPointCloudNode)
    (s : QgsEptPointCloudIndex) :
    (nodePointCount env n s).2 = s ∨
    (nodePointCount env n s).2 = (nodePointCountLoop env n (nodePathToRoot n).reverse s).2 := by
  unfold nodePointCount
  by_cases h : QMap.value s.mHierarchy n (-1) ≠ -1
  · left; rw [if_pos h]
  · right; rw [if_neg h]

theorem nodePointCount_contains (env : Env) (n m : IndexedPointCloudNode)
    (s : QgsEptPointCloudIndex) (h : QMap.contains s.mHierarchy m = true) :
    QMap.contains (nodePointCount env n s).2.mHierarchy m = true := by
  rcases nodePointCount_state env n s with h1 | h1
  · rw [h1]; exact h
  · rw [h1]; exact nodePointCountLoop_contains env n m _ s h

theorem nodePointCount_pending (env : Env) (n m : IndexedPointCloudNode)
    (s : QgsEptPointCloudIndex) (h : QSet.contains s.mHierarchyNodes m = true) :
    QSet.contains (nodePointCount env n s).2.mHierarchyNodes m = true := by
  rcases nodePointCount_state env n s with h1 | h1
  · rw [h1]; exact h
  · rw [h1]; exact nodePointCountLoop_pending env n m _ s h

/-! ## C3: count entries -/

theorem applyHierarchyEntries_find_listed (f : String → IndexedPointCloudNode)
    (o : QJsonObject) (s : QgsEptPointCloudIndex) (n : IndexedPointCloudNode) (c : Int)
    (h : QMap.find s.mHierarchy n = some c) :
    ∃ c1, QMap.find (applyHierarchyEntries f o s).mHierarchy n = some c1 ∧
      (c1 = c ∨ ∃ e ∈ o, f e.1 = n ∧ 0 ≤ e.2.toInt ∧ e.2.toInt = c1) := by
  induction o generalizing s c with
  | nil => exact ⟨c, h, Or.inl rfl⟩
  | cons e o ih =>
    obtain ⟨k, v⟩ := e
    simp only [applyHierarchyEntries]
    split
    · rename_i hge
      by_cases hn : n = f k
      · obtain ⟨c1, h1, h2⟩ := ih { s with mHierarchy := QMap.insert s.mHierarchy (f k) v.toInt }
          v.toInt (by rw [hn]; exact qmap_find_insert_self _ _ _)
        refine ⟨c1, h1, ?_⟩
        rcases h2 with h2 | ⟨e, he, h3⟩
        · exact Or.inr ⟨(k, v), List.mem_cons_self _ _, hn.symm, hge, h2.symm⟩
        · exact Or.inr ⟨e, List.mem_cons_of_mem _ he, h3⟩
      · obtain ⟨c1, h1, h2⟩ := ih { s with mHierarchy := QMap.insert s.mHierarchy (f k) v.toInt }
          c (by rw [← h]; exact qmap_find_insert_ne _ _ _ _ hn)
        refine ⟨c1, h1, ?_⟩
        rcases h2 with h2 | ⟨e, he, h3⟩
        · exact Or.inl h2
        · exact Or.inr ⟨e, List.mem_cons_of_mem _ he, h3⟩
    · have hcase : ∀ t : QgsEptPointCloudIndex, QMap.find t.mHierarchy n = some c →
          ∃ c1, QMap.find (applyHierarchyEntries f o t).mHierarchy n = some c1 ∧
            (c1 = c ∨ ∃ e ∈ (k, v) :: o, f e.1 = n ∧ 0 ≤ e.2.toInt ∧ e.2.toInt = c1) := by
        intro t ht
        obtain ⟨c1, h1, h2⟩ := ih t c ht
        refine ⟨c1, h1, ?_⟩
        rcases h2 with h2 | ⟨e, he, h3⟩
        · exact Or.inl h2
        · exact Or.inr ⟨e, List.mem_cons_of_mem _ he, h3⟩
      split
      · exact hcase _ h
      · exact hcase _ h

theorem loadSingleNodeHierarchy_countFrom (env : Env) (node n : IndexedPointCloudNode)
    (c : Int) (s : QgsEptPointCloudIndex) (h : CountFrom env n c s) :
    CountFrom env n c (loadSingleNodeHierarchy env node s).2 := by
  cases hc : QMap.contains s.mHierarchy node with
  | true => rw [loadSingleNodeHierarchy_known env node s hc]; exact h
  | false =>
    cases hp : QSet.contains s.mHierarchyNodes node with
    | false => rw [loadSingleNodeHierarchy_not_pending env node s hp]; exact h
    | true =>
      rw [loadSingleNodeHierarchy_fetch env node s hc hp]
      have hs := (fetchHierarchyFile_store env (hierarchyFilePath s node) s).1
      have hf0 : CountFrom env n c (fetchHierarchyFile env (hierarchyFilePath s node) s).2 := by
        obtain ⟨c1, h1, h2⟩ := h
        exact ⟨c1, by rw [hs]; exact h1, h2⟩
      cases hf : (fetchHierarchyFile env (hierarchyFilePath s node) s).1 with
      | none => exact hf0
      | some d =>
        simp only
        cases hd : d.fromJson with
        | none => exact hf0
        | some doc =>
          simp only
          obtain ⟨c1, h1, h2⟩ := hf0
          obtain ⟨c2, h3, h4⟩ := applyHierarchyEntries_find_listed env.fromString doc.object
            (fetchHierarchyFile env (hierarchyFilePath s node) s).2 n c1 h1
          refine ⟨c2, h3, ?_⟩
          rcases h4 with h4 | ⟨e, he, h5⟩
          · rw [h4]; exact h2
          · exact Or.inr ⟨_, d, doc, fetchHierarchyFile_reply env _ s d hf, hd, e, he, h5⟩

theorem loadNodeHierarchyLoop_countFrom (env : Env) (nodeId n : IndexedPointCloudNode)
    (c : Int) (path : List IndexedPointCloudNode) (s : QgsEptPointCloudIndex)
    (h : CountFrom env n c s) :
    CountFrom env n c (loadNodeHierarchyLoop env nodeId path s).2 := by
  induction path generalizing s with
  | nil => exact h
  | cons node rest ih =>
    cases hc : QMap.contains s.mHierarchy nodeId with
    | true => simp only [loadNodeHierarchyLoop, hc, if_true]; exact h
    | false =>
      have h1 := loadSingleNodeHierarchy_countFrom env node n c s h
      rcases hl : loadSingleNodeHierarchy env node s with ⟨b, s1⟩
      rw [hl] at h1
      cases b with
      | false => simp only [loadNodeHierarchyLoop, hc, hl, Bool.false_eq_true, if_false]; exact h1
      | true =>
        simp only [loadNodeHierarchyLoop, hc, hl, Bool.false_eq_true, if_false]
        exact ih s1 h1

theorem loadNodeHierarchy_countFrom (env : Env) (nodeId n : IndexedPointCloudNode)
    (c : Int) (s : QgsEptPointCloudIndex) (h : CountFrom env n c s) :
    CountFrom env n c (loadNodeHierarchy env nodeId s).2 := by
  rcases loadNodeHierarchy_state env nodeId s with h1 | h1
  · rw [h1]; exact h
  · rw [h1]; exact loadNodeHierarchyLoop_countFrom env nodeId n c _ s h

theorem nodePointCountLoop_countFrom (env : Env) (nodeId n : IndexedPointCloudNode)
    (c : Int) (path : List IndexedPointCloudNode) (s : QgsEptPointCloudIndex)
    (h : CountFrom env n c s) :
    CountFrom env n c (nodePointCountLoop env nodeId path s).2 := by
  induction path generalizing s with
  | nil => exact h
  | cons node rest ih =>
    have h1 := loadSingleNodeHierarchy_countFrom env node n c s h
    simp only [nodePointCountLoop]
    split
    · exact h1
    · exact ih _ h1

theorem nodePointCount_countFrom (env : Env) (nodeId n : IndexedPointCloudNode)
    (c : Int) (s : QgsEptPointCloudIndex) (h : CountFrom env n c s) :
    CountFrom env n c (nodePointCount env nodeId s).2 := by
  rcases nodePointCount_state env nodeId s with h1 | h1
  · rw [h1]; exact h
  · rw [h1]; exact nodePointCountLoop_countFrom env nodeId n c _ s h

theorem countFrom_of_only (env : Env) (n : IndexedPointCloudNode) (c : Int)
    (s : QgsEptPointCloudIndex) (honly : ∀ c1, ListedWithCount env n c1 → c1 = c)
    (h : CountFrom env n c s) : QMap.find s.mHierarchy n = some c := by
  obtain ⟨c1, h1, h2⟩ := h
  rcases h2 with h2 | h2
  · rw [h1, h2]
  · rw [h1, honly c1 h2]

/-- C3 as stated fails: in the state reached from a fresh index by loading the hierarchy file
of the root, the root has the count 10; loading the hierarchy file of node `1-0-0-0`, which
lists the root again, overwrites that count with 11. -/
theorem count_entry_overwritten :
    Reachable (loadSingleNodeHierarchy relistingEnv rootNode sampleIndex).2 ∧
    QMap.find (loadSingleNodeHierarchy relistingEnv rootNode sampleIndex).2.mHierarchy rootNode
      = some 10 ∧
    QMap.find (loadSingleNodeHierarchy relistingEnv ⟨1, 0, 0, 0⟩
      (loadSingleNodeHierarchy relistingEnv rootNode sampleIndex).2).2.mHierarchy rootNode
      = some 11 :=
  ⟨Reachable.loadSingleNodeHierarchy relistingEnv rootNode sampleIndex
    (Reachable.construct sampleBase), by decide, by decide⟩

/-- C3 as amended: count entries are never removed, and the count of a node changes only to
a value with which a hierarchy file lists the node.  For every index state, every node `n`
with count `c` and every hierarchy operation (`loadSingleNodeHierarchy`, `loadNodeHierarchy`,
`hasNode`, `nodePointCount`) on any node `nodeId` in any environment, `n` has a count after
the operation, and that count is `c` or a non-negative value with which a hierarchy file of
the environment lists `n`; so the count is still `c` when every hierarchy file of the
environment that lists `n` with a non-negative value lists it with `c`. -/
theorem count_entry_kept (env : Env) (s : QgsEptPointCloudIndex)
    (n nodeId : IndexedPointCloudNode) (c : Int) (h : QMap.find s.mHierarchy n = some c) :
    ((∃ c1, QMap.find (loadSingleNodeHierarchy env nodeId s).2.mHierarchy n = some c1 ∧
        (c1 = c ∨ ListedWithCount env n c1)) ∧
     (∃ c1, QMap.find (loadNodeHierarchy env nodeId s).2.mHierarchy n = some c1 ∧
        (c1 = c ∨ ListedWithCount env n c1)) ∧
     (∃ c1, QMap.find (hasNode env nodeId s).2.mHierarchy n = some c1 ∧
        (c1 = c ∨ ListedWithCount env n c1)) ∧
     (∃ c1, QMap.find (nodePointCount env nodeId s).2.mHierarchy n = some c1 ∧
        (c1 = c ∨ ListedWithCount env n c1))) ∧
    ((∀ c1, ListedWithCount env n c1 → c1 = c) →
     QMap.find (loadSingleNodeHierarchy env nodeId s).2.mHierarchy n = some c ∧
     QMap.find (loadNodeHierarchy env nodeId s).2.mHierarchy n = some c ∧
     QMap.find (hasNode env nodeId s).2.mHierarchy n = some c ∧
     QMap.find (nodePointCount env nodeId s).2.mHierarchy n = some c) := by
  have h0 : CountFrom env n c s := ⟨c, h, Or.inl rfl⟩
  have h1 := loadSingleNodeHierarchy_countFrom env nodeId n c s h0
  have h2 := loadNodeHierarchy_countFrom env nodeId n c s h0
  have h3 := nodePointCount_countFrom env nodeId n c s h0
  exact ⟨⟨h1, h2, h2, h3⟩, fun honly =>
    ⟨countFrom_of_only env n c _ honly h1, countFrom_of_only env n c _ honly h2,
     countFrom_of_only env n c _ honly h2, countFrom_of_only env n c _ honly h3⟩⟩

/-- One dataset throughout: after `hasNode( root )` the root has the count 10, which is the
only count the hierarchy files list for it; `nodePointCount( 1-0-0-0 )` then fetches the file
of node `1-0-0-0`, records the count 5 for that node and leaves the count of the root at
10. -/
theorem count_entry_kept_witness :
    QMap.find (hasNode datasetEnv rootNode sampleIndex).2.mHierarchy rootNode = some 10 ∧
    QMap.find (nodePointCount datasetEnv ⟨1, 0, 0, 0⟩
      (hasNode datasetEnv rootNode sampleIndex).2).2.mHierarchy ⟨1, 0, 0, 0⟩ = some 5 ∧
    QMap.find (nodePointCount datasetEnv ⟨1, 0, 0, 0⟩
      (hasNode datasetEnv rootNode sampleIndex).2).2.mHierarchy rootNode = some 10 :=
  ⟨by decide, by decide,
   ((count_entry_kept datasetEnv (hasNode datasetEnv rootNode sampleIndex).2
      rootNode ⟨1, 0, 0, 0⟩ 10 (by decide)).2 (by
        rintro c1 ⟨p, bytes, doc, hreply, hparse, e, he, hroot, -, rfl⟩
        have hfile : (if p = "/ept-hierarchy/0-0-0-0.json" then
              some (jsonBytes [("0-0-0-0", QJsonValue.double 10),
                ("1-0-0-0", QJsonValue.double (-1))])
            else if p = "/ept-hierarchy/1-0-0-0.json" then
              some (jsonBytes [("1-0-0-0", QJsonValue.double 5),
                ("2-0-0-0", QJsonValue.double 3)])
            else none) = some bytes := by
          rcases hreply with h1 | h1
          · exact h1
          · cases h1
        split_ifs at hfile
        · have hb := (Option.some.inj hfile).symm
          subst hb
          have hd := (Option.some.inj hparse).symm
          subst hd
          simp only [QJsonDocument.object, QJsonDocument.ofObject, jsonBytes, List.mem_cons,
            List.mem_nil_iff, or_false] at he
          rcases he with rfl | rfl
          · rfl
          · exact absurd hroot (by decide)
        · have hb := (Option.some.inj hfile).symm
          subst hb
          have hd := (Option.some.inj hparse).symm
          subst hd
          simp only [QJsonDocument.object, QJsonDocument.ofObject, jsonBytes, List.mem_cons,
            List.mem_nil_iff, or_false] at he
          rcases he with rfl | rfl
          · exact absurd hroot (by decide)
          · exact absurd hroot (by decide))).2.2.2⟩

/-! ## Frame lemmas for the bootstrap -/

theorem loadSchemaItem_view (item : QJsonValue) (attributes : QgsPointCloudAttributeCollection)
    (s : QgsEptPointCloudIndex) :
    SameHierarchyView s (loadSchemaItem item attributes s).2 ∧
    (loadSchemaItem item attributes s).2.trace = s.trace := by
  unfold loadSchemaItem
  simp only
  split
  · exact ⟨⟨rfl, rfl, rfl, rfl⟩, rfl⟩
  · split_ifs <;> exact ⟨⟨rfl, rfl, rfl, rfl⟩, rfl⟩

theorem loadSchemaLoop_view (items : QJsonArray) (attributes : QgsPointCloudAttributeCollection)
    (s : QgsEptPointCloudIndex) :
    SameHierarchyView s (loadSchemaLoop items attributes s).2 ∧
    (loadSchemaLoop items attributes s).2.trace = s.trace := by
  induction items generalizing attributes s with
  | nil => exact ⟨⟨rfl, rfl, rfl, rfl⟩, rfl⟩
  | cons item rest ih =>
    have h1 := loadSchemaItem_view item attributes s
    rcases hl : loadSchemaItem item attributes s with ⟨r, s1⟩
    rw [hl] at h1
    cases r with
    | none => simp only [loadSchemaLoop, hl]; exact h1
    | some attrs =>
      simp only [loadSchemaLoop, hl]
      have h2 := ih attrs s1
      obtain ⟨⟨a1, a2, a3, a4⟩, a5⟩ := h1
      obtain ⟨⟨b1, b2, b3, b4⟩, b5⟩ := h2
      exact ⟨⟨b1.trans a1, b2.trans a2, b3.trans a3, b4.trans a4⟩, b5.trans a5⟩

theorem loadSchemaHeader_view (result : QJsonObject) (s : QgsEptPointCloudIndex) :
    SameHierarchyView s (loadSchemaHeader result s).2 ∧
    (loadSchemaHeader result s).2.trace = s.trace := by
  unfold loadSchemaHeader
  simp only
  split_ifs <;> exact ⟨⟨rfl, rfl, rfl, rfl⟩, rfl⟩

theorem loadSchema_parse_error (dataJson : QByteArray) (s : QgsEptPointCloudIndex)
    (h : dataJson.fromJson = none) : loadSchema dataJson s = (false, s) := by
  simp only [loadSchema, h]

theorem loadSchema_header_false (dataJson : QByteArray) (s s1 : QgsEptPointCloudIndex)
    (doc : QJsonDocument) (h : dataJson.fromJson = some doc)
    (hh : loadSchemaHeader doc.object s = (false, s1)) : loadSchema dataJson s = (false, s1) := by
  simp only [loadSchema, h, hh]

theorem loadSchema_loop_none (dataJson : QByteArray) (s s1 s2 : QgsEptPointCloudIndex)
    (doc : QJsonDocument) (h : dataJson.fromJson = some doc)
    (hh : loadSchemaHeader doc.object s = (true, s1))
    (hl : loadSchemaLoop (doc.object.value "schema").toArray [] s1 = (none, s2)) :
    loadSchema dataJson s = (false, s2) := by
  simp only [loadSchema, h, hh, hl]

theorem loadSchema_loop_some (dataJson : QByteArray) (s s1 s2 : QgsEptPointCloudIndex)
    (doc : QJsonDocument) (attributes : QgsPointCloudAttributeCollection)
    (h : dataJson.fromJson = some doc)
    (hh : loadSchemaHeader doc.object s = (true, s1))
    (hl : loadSchemaLoop (doc.object.value "schema").toArray [] s1 = (some attributes, s2)) :
    loadSchema dataJson s =
      (true, loadSchemaFinish (doc.object.value "bounds").toArray attributes s2) := by
  simp only [loadSchema, h, hh, hl]

theorem loadSchema_view (dataJson : QByteArray) (s : QgsEptPointCloudIndex) :
    SameHierarchyView s (loadSchema dataJson s).2 ∧ (loadSchema dataJson s).2.trace = s.trace := by
  cases hp : dataJson.fromJson with
  | none => rw [loadSchema_parse_error dataJson s hp]; exact ⟨⟨rfl, rfl, rfl, rfl⟩, rfl⟩
  | some doc =>
    have h1 := loadSchemaHeader_view doc.object s
    rcases hh : loadSchemaHeader doc.object s with ⟨b, s1⟩
    rw [hh] at h1
    cases b with
    | false => rw [loadSchema_header_false dataJson s s1 doc hp hh]; exact h1
    | true =>
      have h2 := loadSchemaLoop_view (doc.object.value "schema").toArray [] s1
      rcases hl : loadSchemaLoop (doc.object.value "schema").toArray [] s1 with ⟨r, s2⟩
      rw [hl] at h2
      obtain ⟨⟨a1, a2, a3, a4⟩, a5⟩ := h1
      obtain ⟨⟨b1, b2, b3, b4⟩, b5⟩ := h2
      cases r with
      | none =>
        rw [loadSchema_loop_none dataJson s s1 s2 doc hp hh hl]
        exact ⟨⟨b1.trans a1, b2.trans a2, b3.trans a3, b4.trans a4⟩, b5.trans a5⟩
      | some attrs =>
        rw [loadSchema_loop_some dataJson s s1 s2 doc attrs hp hh hl]
        exact ⟨⟨b1.trans a1, b2.trans a2, b3.trans a3, b4.trans a4⟩, b5.trans a5⟩

theorem sameHierarchyView_trans {s t u : QgsEptPointCloudIndex} (h1 : SameHierarchyView s t)
    (h2 : SameHierarchyView t u) : SameHierarchyView s u :=
  ⟨h2.1.trans h1.1, h2.2.1.trans h1.2.1, h2.2.2.1.trans h1.2.2.1, h2.2.2.2.trans h1.2.2.2⟩

theorem loadManifest_view (env : Env) (manifestJson : QByteArray) (s : QgsEptPointCloudIndex) :
    SameHierarchyView s (loadManifest env manifestJson s) := by
  unfold loadManifest
  cases manifestJson.fromJson with
  | none => exact ⟨rfl, rfl, rfl, rfl⟩
  | some manifestDoc =>
    simp only
    split_ifs
    · exact ⟨rfl, rfl, rfl, rfl⟩
    · cases s.mAccessType with
      | Remote =>
        simp only [blockingNetworkGet]
        cases env.blockingGet _ with
        | error e => exact ⟨rfl, rfl, rfl, rfl⟩
        | ok content =>
          simp only
          cases content.fromJson with
          | none => exact ⟨rfl, rfl, rfl, rfl⟩
          | some metadataDoc =>
            simp only
            split <;> exact ⟨rfl, rfl, rfl, rfl⟩
      | Local =>
        simp only [readFile]
        cases env.fileRead _ with
        | none => exact ⟨rfl, rfl, rfl, rfl⟩
        | some content =>
          simp only
          cases content.fromJson with
          | none => exact ⟨rfl, rfl, rfl, rfl⟩
          | some metadataDoc =>
            simp only
            split <;> exact ⟨rfl, rfl, rfl, rfl⟩

theorem importManifest_view (env : Env) (s : QgsEptPointCloudIndex) :
    SameHierarchyView s (importManifest env s) := by
  unfold importManifest
  cases s.mAccessType with
  | Remote =>
    simp only [blockingNetworkGet]
    cases env.blockingGet _ with
    | error e => simp only [emptyByteArray]; exact ⟨rfl, rfl, rfl, rfl⟩
    | ok content =>
      simp only
      split_ifs
      · exact sameHierarchyView_trans ⟨rfl, rfl, rfl, rfl⟩ (loadManifest_view env content _)
      · exact ⟨rfl, rfl, rfl, rfl⟩
  | Local =>
    simp only [readFile]
    cases env.fileRead _ with
    | none => simp only [emptyByteArray]; exact ⟨rfl, rfl, rfl, rfl⟩
    | some content =>
      simp only
      split_ifs
      · exact sameHierarchyView_trans ⟨rfl, rfl, rfl, rfl⟩ (loadManifest_view env content _)
      · exact ⟨rfl, rfl, rfl, rfl⟩

theorem fetchMetadata_view (env : Env) (s : QgsEptPointCloudIndex) :
    SameHierarchyView s (fetchMetadata env s).2 := by
  unfold fetchMetadata
  cases s.mAccessType with
  | Remote =>
    simp only [blockingNetworkGet]
    cases env.blockingGet _ <;> exact ⟨rfl, rfl, rfl, rfl⟩
  | Local =>
    simp only [readFile]
    cases env.fileRead _ <;> exact ⟨rfl, rfl, rfl, rfl⟩

/-- The steps of `load` before the root hierarchy is loaded leave the two hierarchy
containers as they are. -/
theorem load_state (env : Env) (urlString : String) (s : QgsEptPointCloudIndex) :
    ((load env urlString s).mHierarchy = s.mHierarchy ∧
     (load env urlString s).mHierarchyNodes = s.mHierarchyNodes) ∨
    ∃ t, t.mHierarchy = s.mHierarchy ∧ t.mHierarchyNodes = s.mHierarchyNodes ∧
      (load env urlString s).mHierarchy = (loadNodeHierarchy env rootNode t).2.mHierarchy ∧
      (load env urlString s).mHierarchyNodes = (loadNodeHierarchy env rootNode t).2.mHierarchyNodes := by
  have h0 : (loadLocator env urlString s).mHierarchy = s.mHierarchy ∧
      (loadLocator env urlString s).mHierarchyNodes = s.mHierarchyNodes := ⟨rfl, rfl⟩
  have h1 := fetchMetadata_view env (loadLocator env urlString s)
  unfold load
  rcases hf : fetchMetadata env (loadLocator env urlString s) with ⟨r, s1⟩
  rw [hf] at h1
  cases r with
  | none => left; exact ⟨h1.1.trans h0.1, h1.2.1.trans h0.2⟩
  | some content =>
    right
    have h2 := (loadSchema_view content s1).1
    rcases hs : loadSchema content s1 with ⟨success, s2⟩
    rw [hs] at h2
    simp only [hs]
    cases success with
    | false =>
      exact ⟨s2, h2.1.trans (h1.1.trans h0.1), h2.2.1.trans (h1.2.1.trans h0.2), rfl, rfl⟩
    | true =>
      have h3 := importManifest_view env s2
      exact ⟨importManifest env s2, h3.1.trans (h2.1.trans (h1.1.trans h0.1)),
        h3.2.1.trans (h2.2.1.trans (h1.2.1.trans h0.2)), rfl, rfl⟩

theorem load_pending (env : Env) (urlString : String) (m : IndexedPointCloudNode)
    (s : QgsEptPointCloudIndex) (h : QSet.contains s.mHierarchyNodes m = true) :
    QSet.contains (load env urlString s).mHierarchyNodes m = true := by
  rcases load_state env urlString s with ⟨_, h2⟩ | ⟨t, _, h2, _, h4⟩
  · rw [h2]; exact h
  · rw [h4]; exact loadNodeHierarchy_pending env rootNode m t (by rw [h2]; exact h)

theorem reachable_root_pending (s : QgsEptPointCloudIndex) (hs : Reachable s) :
    QSet.contains s.mHierarchyNodes rootNode = true := by
  induction hs with
  | construct base => exact qset_contains_insert_self ([] : QSet IndexedPointCloudNode) rootNode
  | load env urlString s _ ih => exact load_pending env urlString rootNode s ih
  | loadSingleNodeHierarchy env n s _ ih => exact loadSingleNodeHierarchy_pending env n rootNode s ih
  | loadNodeHierarchy env n s _ ih => exact loadNodeHierarchy_pending env n rootNode s ih
  | hasNode env n s _ ih => exact loadNodeHierarchy_pending env n rootNode s ih
  | nodePointCount env n s _ ih => exact nodePointCount_pending env n rootNode s ih

theorem applyHierarchyEntries_trace (f : String → IndexedPointCloudNode) (o : QJsonObject)
    (s : QgsEptPointCloudIndex) : (applyHierarchyEntries f o s).trace = s.trace := by
  rw [applyHierarchyEntries_frame]

theorem loadSingleNodeHierarchy_fetch_trace (env : Env) (n : IndexedPointCloudNode)
    (s : QgsEptPointCloudIndex) (hc : QMap.contains s.mHierarchy n = false)
    (hp : QSet.contains s.mHierarchyNodes n = true) :
    ∃ e, (loadSingleNodeHierarchy env n s).2.trace = s.trace ++ [e] := by
  obtain ⟨e, he⟩ := fetchHierarchyFile_state env (hierarchyFilePath s n) s
  refine ⟨e, ?_⟩
  rw [loadSingleNodeHierarchy_fetch env n s hc hp]
  cases hf : (fetchHierarchyFile env (hierarchyFilePath s n) s).1 with
  | none => simp only [hf, he]; rfl
  | some d =>
    cases hd : d.fromJson with
    | none => simp only [hf, hd, he]; rfl
    | some doc => simp only [hf, hd, applyHierarchyEntries_trace, he]; rfl

/-! ## C4: the count map and the pending set -/

/-- C4 as stated fails: after `hasNode( root )` on a fresh index, against a hierarchy file
that lists the root with its count, the root is in `mHierarchy` and still in
`mHierarchyNodes`. -/
theorem root_counted_and_pending :
    Reachable (hasNode relistingEnv rootNode sampleIndex).2 ∧
    QMap.contains (hasNode relistingEnv rootNode sampleIndex).2.mHierarchy rootNode = true ∧
    QSet.contains (hasNode relistingEnv rootNode sampleIndex).2.mHierarchyNodes rootNode = true :=
  ⟨Reachable.hasNode relistingEnv rootNode sampleIndex (Reachable.construct sampleBase),
   by decide, by decide⟩

/-- C4 as amended: in every state reachable from a freshly constructed index through `load`
and the hierarchy operations, the root is in `mHierarchyNodes` (entries of that set are
never removed, so a node can be in both containers), and the count map takes precedence:
`loadSingleNodeHierarchy` issues a fetch for a node exactly when the node is in
`mHierarchyNodes` and has no count. -/
theorem reachable_pending_kept_and_count_first (s : QgsEptPointCloudIndex) (hs : Reachable s) :
    QSet.contains s.mHierarchyNodes rootNode = true ∧
    ∀ (env : Env) (n : IndexedPointCloudNode),
      ((loadSingleNodeHierarchy env n s).2.trace ≠ s.trace ↔
        (QSet.contains s.mHierarchyNodes n = true ∧ QMap.contains s.mHierarchy n = false)) := by
  refine ⟨reachable_root_pending s hs, ?_⟩
  intro env n
  cases hc : QMap.contains s.mHierarchy n with
  | true => rw [loadSingleNodeHierarchy_known env n s hc]; simp
  | false =>
    cases hp : QSet.contains s.mHierarchyNodes n with
    | false => rw [loadSingleNodeHierarchy_not_pending env n s hp]; simp
    | true =>
      obtain ⟨e, he⟩ := loadSingleNodeHierarchy_fetch_trace env n s hc hp
      rw [he]
      simp

/-- In the state left by `hasNode( root )` the root is in both containers, and
`loadSingleNodeHierarchy( root )` issues no fetch. -/
theorem reachable_pending_kept_and_count_first_witness :
    QSet.contains (hasNode relistingEnv rootNode sampleIndex).2.mHierarchyNodes rootNode = true ∧
    ¬ (loadSingleNodeHierarchy relistingEnv rootNode
        (hasNode relistingEnv rootNode sampleIndex).2).2.trace ≠
      (hasNode relistingEnv rootNode sampleIndex).2.trace :=
  have h := reachable_pending_kept_and_count_first (hasNode relistingEnv rootNode sampleIndex).2
    (Reachable.hasNode relistingEnv rootNode sampleIndex (Reachable.construct sampleBase))
  ⟨h.1, fun hne => absurd ((h.2 relistingEnv rootNode).mp hne).2 (by decide)⟩

/-! ## Lemmas on the schema loop -/

theorem pushSchemaAttribute_append (name type : String) (size : Int)
    (attributes : QgsPointCloudAttributeCollection) :
    pushSchemaAttribute name type size attributes =
      (pushSchemaAttribute name type size []).map (fun pushed => attributes ++ pushed) := by
  unfold pushSchemaAttribute
  split_ifs <;> simp

theorem loadSchemaItem_attributes (item : QJsonValue)
    (attributes : QgsPointCloudAttributeCollection) (s : QgsEptPointCloudIndex) :
    (loadSchemaItem item attributes s).1 =
      pushSchemaAttribute (item.toObject.value "name").toString
        (item.toObject.value "type").toString (item.toObject.value "size").toInt attributes := by
  unfold loadSchemaItem
  simp only
  split
  · rename_i h; rw [h]
  · rename_i h; rw [h]

theorem loadSchemaLoop_attributes (items : QJsonArray)
    (attributes out : QgsPointCloudAttributeCollection) (s : QgsEptPointCloudIndex)
    (h : (loadSchemaLoop items attributes s).1 = some out) :
    out = attributes ++ (items.map schemaEntryAttributes).flatten := by
  induction items generalizing attributes s with
  | nil =>
    simp only [loadSchemaLoop, Option.some.injEq] at h
    simp [h]
  | cons item rest ih =>
    have h1 := loadSchemaItem_attributes item attributes s
    rcases hl : loadSchemaItem item attributes s with ⟨r, s1⟩
    rw [hl] at h1
    simp only [loadSchemaLoop, hl] at h
    cases r with
    | none => simp at h
    | some attrs =>
      simp only at h
      have h2 := ih attrs s1 h
      simp only at h1
      rw [pushSchemaAttribute_append] at h1
      have h3 : attrs = attributes ++ schemaEntryAttributes item := by
        cases hp : pushSchemaAttribute (item.toObject.value "name").toString
            (item.toObject.value "type").toString (item.toObject.value "size").toInt [] with
        | none => rw [hp] at h1; simp at h1
        | some pushed =>
          rw [hp] at h1
          simp only [Option.map_some', Option.some.injEq] at h1
          simp only [schemaEntryAttributes, hp, Option.getD_some]
          exact h1
      rw [h2, h3]
      simp [List.append_assoc]

theorem loadSchemaLoop_unknown_type (items : QJsonArray) (item : QJsonValue)
    (attributes : QgsPointCloudAttributeCollection) (s : QgsEptPointCloudIndex)
    (hmem : item ∈ items)
    (hnone : pushSchemaAttribute (item.toObject.value "name").toString
        (item.toObject.value "type").toString (item.toObject.value "size").toInt [] = none) :
    (loadSchemaLoop items attributes s).1 = none := by
  induction items generalizing attributes s with
  | nil => cases hmem
  | cons first rest ih =>
    have h1 := loadSchemaItem_attributes first attributes s
    rcases hl : loadSchemaItem first attributes s with ⟨r, s1⟩
    rw [hl] at h1
    simp only [loadSchemaLoop, hl]
    cases r with
    | none => rfl
    | some attrs =>
      simp only
      rcases List.mem_cons.mp hmem with heq | hin
      · subst heq
        simp only at h1
        rw [pushSchemaAttribute_append, hnone] at h1
        simp at h1
      · exact ih attrs s1 hin

theorem loadSchema_attributes (dataJson : QByteArray) (s : QgsEptPointCloudIndex)
    (doc : QJsonDocument) (hparse : dataJson.fromJson = some doc)
    (hok : (loadSchema dataJson s).1 = true) :
    (loadSchema dataJson s).2.mAttributes =
      ((doc.object.value "schema").toArray.map schemaEntryAttributes).flatten := by
  rcases hh : loadSchemaHeader doc.object s with ⟨b, s1⟩
  cases b with
  | false => rw [loadSchema_header_false dataJson s s1 doc hparse hh] at hok; simp at hok
  | true =>
    rcases hl : loadSchemaLoop (doc.object.value "schema").toArray [] s1 with ⟨r, s2⟩
    cases r with
    | none => rw [loadSchema_loop_none dataJson s s1 s2 doc hparse hh hl] at hok; simp at hok
    | some attrs =>
      rw [loadSchema_loop_some dataJson s s1 s2 doc attrs hparse hh hl]
      have h := loadSchemaLoop_attributes _ [] attrs s1 (by rw [hl])
      simp only [loadSchemaFinish]
      simpa using h

theorem loadSchema_unknown_type (dataJson : QByteArray) (s : QgsEptPointCloudIndex)
    (doc : QJsonDocument) (item : QJsonValue) (hparse : dataJson.fromJson = some doc)
    (hmem : item ∈ (doc.object.value "schema").toArray)
    (hnone : pushSchemaAttribute (item.toObject.value "name").toString
        (item.toObject.value "type").toString (item.toObject.value "size").toInt [] = none) :
    (loadSchema dataJson s).1 = false := by
  rcases hh : loadSchemaHeader doc.object s with ⟨b, s1⟩
  cases b with
  | false => rw [loadSchema_header_false dataJson s s1 doc hparse hh]
  | true =>
    have h := loadSchemaLoop_unknown_type _ item [] s1 hmem hnone
    rcases hl : loadSchemaLoop (doc.object.value "schema").toArray [] s1 with ⟨r, s2⟩
    rw [hl] at h
    simp only at h
    subst h
    rw [loadSchema_loop_none dataJson s s1 s2 doc hparse hh hl]

/-- The validity flag that `load` leaves once the primary metadata document is fetched. -/
theorem load_isValid_of_fetched (env : Env) (urlString : String) (s s1 : QgsEptPointCloudIndex)
    (content : QByteArray)
    (hf : fetchMetadata env (loadLocator env urlString s) = (some content, s1)) :
    (load env urlString s).mIsValid =
      ((loadSchema content s1).1 &&
        (loadNodeHierarchy env rootNode
          (if (loadSchema content s1).1 = true then importManifest env (loadSchema content s1).2
           else (loadSchema content s1).2)).1) := by
  unfold load
  rw [hf]
  simp only
  cases h1 : (loadSchema content s1).1 <;>
    cases h2 : (loadNodeHierarchy env rootNode
      (if (loadSchema content s1).1 = true then importManifest env (loadSchema content s1).2
       else (loadSchema content s1).2)).1 <;> simp_all

theorem fetchMetadata_none_invalid (env : Env) (s : QgsEptPointCloudIndex)
    (hf : (fetchMetadata env s).1 = none) : (fetchMetadata env s).2.mIsValid = false := by
  unfold fetchMetadata at hf ⊢
  cases ha : s.mAccessType with
  | Remote =>
    rw [ha] at hf
    simp only [blockingNetworkGet] at hf ⊢
    cases hb : env.blockingGet s.mUri with
    | error e => rfl
    | ok c => rw [hb] at hf; simp at hf
  | Local =>
    rw [ha] at hf
    simp only [readFile] at hf ⊢
    cases hb : env.fileRead s.mUri with
    | none => rfl
    | some c => rw [hb] at hf; simp at hf

theorem load_isValid_of_not_fetched (env : Env) (urlString : String)
    (s : QgsEptPointCloudIndex)
    (hf : (fetchMetadata env (loadLocator env urlString s)).1 = none) :
    (load env urlString s).mIsValid = false := by
  have h := fetchMetadata_none_invalid env _ hf
  unfold load
  rcases hfm : fetchMetadata env (loadLocator env urlString s) with ⟨r, s1⟩
  rw [hfm] at hf h
  simp only at hf
  subst hf
  exact h

theorem pushSchemaAttribute_of_maps (name type : String) (size : Int) (t : DataType)
    (hnot : ¬ (name = "ClassFlags" ∧ size = 1)) (h : MapsToPrimitive type size t) :
    pushSchemaAttribute name type size [] = some [⟨name, t⟩] := by
  unfold pushSchemaAttribute
  rw [if_neg hnot]
  rcases h with ⟨h1, h2, h3⟩ | ⟨h1, h2, h3⟩ | ⟨h2, h3⟩ | ⟨h1, h2, h3⟩ | ⟨h1, h2, h3⟩ | ⟨h1, h2, h3⟩
  · subst h1 h2 h3; simp
  · subst h1 h2 h3; simp
  · subst h2 h3; simp
  · subst h1 h2 h3; simp
  · subst h2 h3; simp [h1]
  · subst h2 h3; simp [h1]

theorem pushSchemaAttribute_of_no_row (name type : String) (size : Int)
    (hnot : ¬ (name = "ClassFlags" ∧ size = 1)) (h : ∀ t, ¬ MapsToPrimitive type size t) :
    pushSchemaAttribute name type size [] = none := by
  unfold pushSchemaAttribute
  rw [if_neg hnot]
  split_ifs with h1 h2 h3 h4 h5 h6
  · exact absurd (Or.inl ⟨h1.1, h1.2, rfl⟩) (h DataType.Float)
  · exact absurd (Or.inr (Or.inl ⟨h2.1, h2.2, rfl⟩)) (h DataType.Double)
  · exact absurd (Or.inr (Or.inr (Or.inl ⟨h3, rfl⟩))) (h DataType.Char)
  · exact absurd (Or.inr (Or.inr (Or.inr (Or.inl ⟨h4.1, h4.2, rfl⟩)))) (h DataType.UShort)
  · refine absurd (Or.inr (Or.inr (Or.inr (Or.inr (Or.inl ⟨?_, h5, rfl⟩))))) (h DataType.Short)
    intro hu; exact h4 ⟨hu, h5⟩
  · refine absurd (Or.inr (Or.inr (Or.inr (Or.inr (Or.inr ⟨?_, h6, rfl⟩))))) (h DataType.Int32)
    intro hf; exact h1 ⟨hf, h6⟩
  · rfl

/-! ## C7: the primitive type of a schema entry -/

/-- C7: for every schema entry `item` that is not the `ClassFlags` entry of size 1, with name
`name`, declared type `type` and byte size `size`: when a row of the table gives the primitive
type `t` (float and 4: `Float`; float and 8: `Double`; any size 1: `Char`; unsigned and 2:
`UShort`; any other size 2: `Short`; size 4 and not float: `Int32`), the entry adds the one
attribute `(name, t)`, and an accepting `loadSchema` leaves it in the collection at the
position of the entry; when no row applies, `loadSchema` returns false and `load` leaves the
index invalid. -/
theorem loadSchema_maps_declared_type (dataJson : QByteArray) (doc : QJsonDocument)
    (pre post : QJsonArray) (item : QJsonValue)
    (hparse : dataJson.fromJson = some doc)
    (hschema : (doc.object.value "schema").toArray = pre ++ item :: post)
    (hnot : ¬ ((item.toObject.value "name").toString = "ClassFlags" ∧
      (item.toObject.value "size").toInt = 1)) :
    (∀ t, MapsToPrimitive (item.toObject.value "type").toString
        (item.toObject.value "size").toInt t →
      schemaEntryAttributes item = [⟨(item.toObject.value "name").toString, t⟩] ∧
      ∀ s, (loadSchema dataJson s).1 = true →
        (loadSchema dataJson s).2.mAttributes =
          (pre.map schemaEntryAttributes).flatten ++
            ⟨(item.toObject.value "name").toString, t⟩ ::
              (post.map schemaEntryAttributes).flatten) ∧
    ((∀ t, ¬ MapsToPrimitive (item.toObject.value "type").toString
        (item.toObject.value "size").toInt t) →
      (∀ s, (loadSchema dataJson s).1 = false) ∧
      ∀ (env : Env) (urlString : String) (s : QgsEptPointCloudIndex),
        (fetchMetadata env (loadLocator env urlString s)).1 = some dataJson →
        (load env urlString s).mIsValid = false) := by
  constructor
  · intro t ht
    have he : schemaEntryAttributes item = [⟨(item.toObject.value "name").toString, t⟩] := by
      simp only [schemaEntryAttributes, pushSchemaAttribute_of_maps _ _ _ t hnot ht,
        Option.getD_some]
    refine ⟨he, ?_⟩
    intro s hok
    rw [loadSchema_attributes dataJson s doc hparse hok, hschema]
    simp [he]
  · intro hno
    have hfalse : ∀ s, (loadSchema dataJson s).1 = false := by
      intro s
      refine loadSchema_unknown_type dataJson s doc item hparse ?_
        (pushSchemaAttribute_of_no_row _ _ _ hnot hno)
      rw [hschema]
      simp
    refine ⟨hfalse, ?_⟩
    intro env urlString s hf
    rcases hfm : fetchMetadata env (loadLocator env urlString s) with ⟨r, s1⟩
    rw [hfm] at hf
    simp only at hf
    subst hf
    rw [load_isValid_of_fetched env urlString s s1 dataJson hfm, hfalse s1]
    rfl

/-- In the sample schema the entry `X` (signed, 4 bytes) becomes the `Int32` attribute `X`
at the head of the collection; the entry `Odd` (signed, 3 bytes) makes `loadSchema` return
false and `load` leave the index invalid. -/
theorem loadSchema_maps_declared_type_witness :
    (loadSchema (jsonBytes (sampleMetadata sampleSchema)) sampleIndex).1 = true ∧
    (loadSchema (jsonBytes (sampleMetadata sampleSchema)) sampleIndex).2.mAttributes =
      (([] : QJsonArray).map schemaEntryAttributes).flatten ++ ⟨"X", DataType.Int32⟩ ::
        ([schemaEntry "Intensity" "unsigned" 2, schemaEntry "ClassFlags" "unsigned" 1,
          schemaEntry "GpsTime" "float" 8].map schemaEntryAttributes).flatten ∧
    (loadSchema (jsonBytes (sampleMetadata unsupportedSchema)) sampleIndex).1 = false ∧
    (load (sampleEnv (some (jsonBytes (sampleMetadata unsupportedSchema)))) "data/ept.json"
      sampleIndex).mIsValid = false :=
  ⟨by decide,
   ((loadSchema_maps_declared_type (jsonBytes (sampleMetadata sampleSchema))
      (QJsonDocument.ofObject (sampleMetadata sampleSchema)) []
      [schemaEntry "Intensity" "unsigned" 2, schemaEntry "ClassFlags" "unsigned" 1,
        schemaEntry "GpsTime" "float" 8]
      (schemaEntry "X" "signed" 4) rfl rfl (by decide)).1 DataType.Int32
        (Or.inr (Or.inr (Or.inr (Or.inr (Or.inr ⟨by decide, by decide, rfl⟩)))))).2
      sampleIndex (by decide),
   ((loadSchema_maps_declared_type (jsonBytes (sampleMetadata unsupportedSchema))
      (QJsonDocument.ofObject (sampleMetadata unsupportedSchema)) [schemaEntry "X" "signed" 4] []
      (schemaEntry "Odd" "signed" 3) rfl rfl (by decide)).2 (by
        intro t ht
        have hsize : ((schemaEntry "Odd" "signed" 3).toObject.value "size").toInt = 3 := by decide
        have htype : ((schemaEntry "Odd" "signed" 3).toObject.value "type").toString = "signed" := by
          decide
        rw [hsize, htype] at ht
        rcases ht with ⟨h1, _⟩ | ⟨h1, _⟩ | ⟨h1, _⟩ | ⟨_, h1, _⟩ | ⟨_, h1, _⟩ | ⟨_, h1, _⟩ <;>
          revert h1 <;> decide)).1 sampleIndex,
   ((loadSchema_maps_declared_type (jsonBytes (sampleMetadata unsupportedSchema))
      (QJsonDocument.ofObject (sampleMetadata unsupportedSchema)) [schemaEntry "X" "signed" 4] []
      (schemaEntry "Odd" "signed" 3) rfl rfl (by decide)).2 (by
        intro t ht
        have hsize : ((schemaEntry "Odd" "signed" 3).toObject.value "size").toInt = 3 := by decide
        have htype : ((schemaEntry "Odd" "signed" 3).toObject.value "type").toString = "signed" := by
          decide
        rw [hsize, htype] at ht
        rcases ht with ⟨h1, _⟩ | ⟨h1, _⟩ | ⟨h1, _⟩ | ⟨_, h1, _⟩ | ⟨_, h1, _⟩ | ⟨_, h1, _⟩ <;>
          revert h1 <;> decide)).2 (sampleEnv (some (jsonBytes (sampleMetadata unsupportedSchema))))
        "data/ept.json" sampleIndex rfl⟩

/-! ## C8: the ClassFlags entry -/

/-- C8: whatever its declared type, a schema entry named `ClassFlags` with size 1 adds
exactly the four attributes `Synthetic`, `KeyPoint`, `Withheld`, `Overlap`, in that order,
each of one byte and none named `ClassFlags`; an accepting `loadSchema` leaves them in the
attribute collection at the position of the entry, between the attributes of the entries
before it and those of the entries after it. -/
theorem loadSchema_expands_class_flags (dataJson : QByteArray) (doc : QJsonDocument)
    (pre post : QJsonArray) (item : QJsonValue)
    (hparse : dataJson.fromJson = some doc)
    (hschema : (doc.object.value "schema").toArray = pre ++ item :: post)
    (hname : (item.toObject.value "name").toString = "ClassFlags")
    (hsize : (item.toObject.value "size").toInt = 1) :
    schemaEntryAttributes item =
      [⟨"Synthetic", DataType.UChar⟩, ⟨"KeyPoint", DataType.UChar⟩,
       ⟨"Withheld", DataType.UChar⟩, ⟨"Overlap", DataType.UChar⟩] ∧
    (∀ a ∈ schemaEntryAttributes item, a.size = 1 ∧ a.name ≠ "ClassFlags") ∧
    ∀ s, (loadSchema dataJson s).1 = true →
      (loadSchema dataJson s).2.mAttributes =
        (pre.map schemaEntryAttributes).flatten ++
          ([⟨"Synthetic", DataType.UChar⟩, ⟨"KeyPoint", DataType.UChar⟩,
            ⟨"Withheld", DataType.UChar⟩, ⟨"Overlap", DataType.UChar⟩] ++
           (post.map schemaEntryAttributes).flatten) := by
  have he : schemaEntryAttributes item =
      [⟨"Synthetic", DataType.UChar⟩, ⟨"KeyPoint", DataType.UChar⟩,
       ⟨"Withheld", DataType.UChar⟩, ⟨"Overlap", DataType.UChar⟩] := by
    simp [schemaEntryAttributes, pushSchemaAttribute, hname, hsize]
  refine ⟨he, ?_, ?_⟩
  · rw [he]
    intro a ha
    simp only [List.mem_cons, List.mem_nil_iff, or_false] at ha
    rcases ha with rfl | rfl | rfl | rfl <;> exact ⟨rfl, by decide⟩
  · intro s hok
    rw [loadSchema_attributes dataJson s doc hparse hok, hschema]
    simp [he]

/-- The entry `ClassFlags` (unsigned, 1 byte) of the sample schema: the attribute collection
is `X`, `Intensity`, the four flags, `GpsTime`. -/
theorem loadSchema_expands_class_flags_witness :
    (loadSchema (jsonBytes (sampleMetadata sampleSchema)) sampleIndex).2.mAttributes =
      [⟨"X", DataType.Int32⟩, ⟨"Intensity", DataType.UShort⟩, ⟨"Synthetic", DataType.UChar⟩,
       ⟨"KeyPoint", DataType.UChar⟩, ⟨"Withheld", DataType.UChar⟩, ⟨"Overlap", DataType.UChar⟩,
       ⟨"GpsTime", DataType.Double⟩] :=
  ((loadSchema_expands_class_flags (jsonBytes (sampleMetadata sampleSchema))
    (QJsonDocument.ofObject (sampleMetadata sampleSchema))
    [schemaEntry "X" "signed" 4, schemaEntry "Intensity" "unsigned" 2]
    [schemaEntry "GpsTime" "float" 8] (schemaEntry "ClassFlags" "unsigned" 1)
    rfl rfl (by decide) (by decide)).2.2 sampleIndex (by decide)).trans (by decide)

/-! ## The hierarchy loader reads only its view of the index -/

theorem applyHierarchyEntries_view (f : String → IndexedPointCloudNode) (o : QJsonObject)
    (s t : QgsEptPointCloudIndex) (h : SameHierarchyView s t) :
    SameHierarchyView (applyHierarchyEntries f o s) (applyHierarchyEntries f o t) := by
  induction o generalizing s t with
  | nil => exact h
  | cons e o ih =>
    obtain ⟨k, v⟩ := e
    obtain ⟨h1, h2, h3, h4⟩ := h
    simp only [applyHierarchyEntries]
    split
    · exact ih _ _ ⟨by simp only [h1], h2, h3, h4⟩
    · split
      · exact ih _ _ ⟨h1, by simp only [h2], h3, h4⟩
      · exact ih _ _ ⟨h1, h2, h3, h4⟩

theorem fetchHierarchyFile_view (env : Env) (p : String) (s : QgsEptPointCloudIndex) :
    SameHierarchyView s (fetchHierarchyFile env p s).2 := by
  obtain ⟨e, he⟩ := fetchHierarchyFile_state env p s
  rw [he]
  exact ⟨rfl, rfl, rfl, rfl⟩

theorem sameHierarchyView_symm {s t : QgsEptPointCloudIndex} (h : SameHierarchyView s t) :
    SameHierarchyView t s :=
  ⟨h.1.symm, h.2.1.symm, h.2.2.1.symm, h.2.2.2.symm⟩

theorem fetchHierarchyFile_reply_agree (env other : Env) (n : IndexedPointCloudNode)
    (s t : QgsEptPointCloudIndex) (hv : SameHierarchyView s t)
    (he : SameHierarchyFiles env other s.mUrlDirectoryPart) :
    (fetchHierarchyFile other (hierarchyFilePath t n) t).1 =
      (fetchHierarchyFile env (hierarchyFilePath s n) s).1 := by
  obtain ⟨_, _, h3, h4⟩ := hv
  have hp : hierarchyFilePath t n = hierarchyFilePath s n := by
    simp only [hierarchyFilePath, h4]
  rw [hp]
  unfold fetchHierarchyFile
  rw [h3]
  cases s.mAccessType with
  | Remote => exact (he.2 n).2
  | Local => exact (he.2 n).1

theorem loadSingleNodeHierarchy_agree (env other : Env) (n : IndexedPointCloudNode)
    (s t : QgsEptPointCloudIndex) (hv : SameHierarchyView s t)
    (he : SameHierarchyFiles env other s.mUrlDirectoryPart) :
    (loadSingleNodeHierarchy other n t).1 = (loadSingleNodeHierarchy env n s).1 ∧
    SameHierarchyView (loadSingleNodeHierarchy env n s).2 (loadSingleNodeHierarchy other n t).2 := by
  have hv0 := hv
  obtain ⟨h1, h2, h3, h4⟩ := hv
  cases hc : QMap.contains s.mHierarchy n with
  | true =>
    rw [loadSingleNodeHierarchy_known env n s hc,
      loadSingleNodeHierarchy_known other n t (by rw [h1]; exact hc)]
    exact ⟨rfl, hv0⟩
  | false =>
    cases hp : QSet.contains s.mHierarchyNodes n with
    | false =>
      rw [loadSingleNodeHierarchy_not_pending env n s hp,
        loadSingleNodeHierarchy_not_pending other n t (by rw [h2]; exact hp)]
      exact ⟨rfl, hv0⟩
    | true =>
      rw [loadSingleNodeHierarchy_fetch env n s hc hp,
        loadSingleNodeHierarchy_fetch other n t (by rw [h1]; exact hc) (by rw [h2]; exact hp)]
      have hr := fetchHierarchyFile_reply_agree env other n s t hv0 he
      have hvs := fetchHierarchyFile_view env (hierarchyFilePath s n) s
      have hvt := fetchHierarchyFile_view other (hierarchyFilePath t n) t
      have hvf : SameHierarchyView (fetchHierarchyFile env (hierarchyFilePath s n) s).2
          (fetchHierarchyFile other (hierarchyFilePath t n) t).2 :=
        sameHierarchyView_trans (sameHierarchyView_symm hvs) (sameHierarchyView_trans hv0 hvt)
      rw [hr]
      cases hf : (fetchHierarchyFile env (hierarchyFilePath s n) s).1 with
      | none => exact ⟨rfl, hvf⟩
      | some d =>
        simp only
        cases hd : d.fromJson with
        | none => exact ⟨rfl, hvf⟩
        | some doc =>
          refine ⟨rfl, ?_⟩
          simp only
          rw [he.1]
          exact applyHierarchyEntries_view _ _ _ _ hvf

theorem loadSingleNodeHierarchy_view_dir (env : Env) (n : IndexedPointCloudNode)
    (s : QgsEptPointCloudIndex) :
    (loadSingleNodeHierarchy env n s).2.mUrlDirectoryPart = s.mUrlDirectoryPart := by
  have h := (loadSingleNodeHierarchy_agree env env n s s ⟨rfl, rfl, rfl, rfl⟩
    ⟨rfl, fun _ => ⟨rfl, rfl⟩⟩).2
  cases hc : QMap.contains s.mHierarchy n with
  | true => rw [loadSingleNodeHierarchy_known env n s hc]
  | false =>
    cases hp : QSet.contains s.mHierarchyNodes n with
    | false => rw [loadSingleNodeHierarchy_not_pending env n s hp]
    | true =>
      rw [loadSingleNodeHierarchy_fetch env n s hc hp]
      have hvs := (fetchHierarchyFile_view env (hierarchyFilePath s n) s).2.2.2
      cases hf : (fetchHierarchyFile env (hierarchyFilePath s n) s).1 with
      | none => exact hvs
      | some d =>
        simp only
        cases hd : d.fromJson with
        | none => exact hvs
        | some doc =>
          simp only
          rw [applyHierarchyEntries_frame]
          exact hvs

theorem loadNodeHierarchyLoop_agree (env other : Env) (n : IndexedPointCloudNode)
    (path : List IndexedPointCloudNode) (s t : QgsEptPointCloudIndex)
    (hv : SameHierarchyView s t) (he : SameHierarchyFiles env other s.mUrlDirectoryPart) :
    (loadNodeHierarchyLoop other n path t).1 = (loadNodeHierarchyLoop env n path s).1 ∧
    SameHierarchyView (loadNodeHierarchyLoop env n path s).2
      (loadNodeHierarchyLoop other n path t).2 := by
  induction path generalizing s t with
  | nil => exact ⟨rfl, hv⟩
  | cons node rest ih =>
    have hct : QMap.contains t.mHierarchy n = QMap.contains s.mHierarchy n := by rw [hv.1]
    cases hc : QMap.contains s.mHierarchy n with
    | true =>
      rw [hc] at hct
      simp only [loadNodeHierarchyLoop, hc, hct, if_true]
      exact ⟨trivial, hv⟩
    | false =>
      rw [hc] at hct
      have h1 := loadSingleNodeHierarchy_agree env other node s t hv he
      have hdir := loadSingleNodeHierarchy_view_dir env node s
      rcases hls : loadSingleNodeHierarchy env node s with ⟨b, s1⟩
      rcases hlt : loadSingleNodeHierarchy other node t with ⟨b1, t1⟩
      rw [hls, hlt] at h1
      rw [hls] at hdir
      obtain ⟨hb, hv1⟩ := h1
      simp only at hb hv1 hdir
      subst hb
      simp only [loadNodeHierarchyLoop, hc, hct, hls, hlt, Bool.false_eq_true, if_false]
      cases b1 with
      | false => exact ⟨rfl, hv1⟩
      | true => exact ih s1 t1 hv1 (by rw [hdir]; exact he)

theorem loadNodeHierarchy_agree (env other : Env) (n : IndexedPointCloudNode)
    (s t : QgsEptPointCloudIndex) (hv : SameHierarchyView s t)
    (he : SameHierarchyFiles env other s.mUrlDirectoryPart) :
    (loadNodeHierarchy other n t).1 = (loadNodeHierarchy env n s).1 := by
  have hct : QMap.contains t.mHierarchy n = QMap.contains s.mHierarchy n := by rw [hv.1]
  cases hc : QMap.contains s.mHierarchy n with
  | true =>
    rw [hc] at hct
    simp [loadNodeHierarchy, hc, hct]
  | false =>
    rw [hc] at hct
    have h1 := loadNodeHierarchyLoop_agree env other n (nodePathToRoot n).reverse s t hv he
    rcases hls : loadNodeHierarchyLoop env n (nodePathToRoot n).reverse s with ⟨b, s1⟩
    rcases hlt : loadNodeHierarchyLoop other n (nodePathToRoot n).reverse t with ⟨b1, t1⟩
    rw [hls, hlt] at h1
    obtain ⟨hb, hv1⟩ := h1
    simp only at hb hv1
    subst hb
    simp only [loadNodeHierarchy, hc, hct, hls, hlt, Bool.false_eq_true, if_false]
    cases b1 with
    | false => rfl
    | true => simp only; rw [hv1.1]

/-! ## C9: the validity flag after load -/

theorem fetchMetadata_agree (env other : Env) (s : QgsEptPointCloudIndex)
    (h1 : other.blockingGet s.mUri = env.blockingGet s.mUri)
    (h2 : other.fileRead s.mUri = env.fileRead s.mUri) :
    fetchMetadata other s = fetchMetadata env s := by
  unfold fetchMetadata
  cases s.mAccessType with
  | Remote => simp only [blockingNetworkGet, h1]
  | Local => simp only [readFile, h2]

theorem loadLocator_agree (env other : Env) (urlString : String) (s : QgsEptPointCloudIndex)
    (h : other.urlIsHttp urlString = env.urlIsHttp urlString) :
    loadLocator other urlString s = loadLocator env urlString s := by
  simp only [loadLocator, h]

theorem sameHierarchyFiles_refl (env : Env) (dir : String) : SameHierarchyFiles env env dir :=
  ⟨rfl, fun _ => ⟨rfl, rfl⟩⟩

/-- C9: after `load( urlString )`, `isValid()` is true if and only if the primary metadata
document was fetched, `loadSchema` accepted it and `loadNodeHierarchy( root )` returned true
(on the index state that `loadSchema` left); and `isValid()` is the same in every other
environment that agrees on the locator, the primary metadata document and the hierarchy
files, whatever it answers for the companion manifest and the source metadata. -/
theorem load_valid_iff (env : Env) (urlString : String) (s : QgsEptPointCloudIndex) :
    (isValid (load env urlString s) = true ↔
      ∃ content,
        (fetchMetadata env (loadLocator env urlString s)).1 = some content ∧
        (loadSchema content (fetchMetadata env (loadLocator env urlString s)).2).1 = true ∧
        (loadNodeHierarchy env rootNode
          (loadSchema content (fetchMetadata env (loadLocator env urlString s)).2).2).1 = true) ∧
    ∀ other : Env,
      SameApartFromSources env other urlString (loadLocator env urlString s).mUrlDirectoryPart →
      isValid (load other urlString s) = isValid (load env urlString s) := by
  have hdir : ∀ (e : Env) (content : QByteArray) (s1 : QgsEptPointCloudIndex),
      fetchMetadata env (loadLocator env urlString s) = (some content, s1) →
      SameHierarchyView (loadSchema content s1).2 (importManifest e (loadSchema content s1).2) ∧
      (loadSchema content s1).2.mUrlDirectoryPart
        = (loadLocator env urlString s).mUrlDirectoryPart := by
    intro e content s1 hfm
    have h1 := fetchMetadata_view env (loadLocator env urlString s)
    rw [hfm] at h1
    have h2 := (loadSchema_view content s1).1
    exact ⟨importManifest_view e _, h2.2.2.2.trans h1.2.2.2⟩
  constructor
  · unfold isValid
    rcases hfm : fetchMetadata env (loadLocator env urlString s) with ⟨r, s1⟩
    cases r with
    | none =>
      rw [load_isValid_of_not_fetched env urlString s (by rw [hfm])]
      simp
    | some content =>
      rw [load_isValid_of_fetched env urlString s s1 content hfm]
      cases hok : (loadSchema content s1).1 with
      | false => simp [hok]
      | true =>
        have hv := (hdir env content s1 hfm).1
        have ha := loadNodeHierarchy_agree env env rootNode _ _ hv (sameHierarchyFiles_refl env _)
        simp only [if_true, Bool.true_and, ha]
        constructor
        · intro h; exact ⟨content, rfl, hok, h⟩
        · rintro ⟨c, hc, _, h⟩
          obtain rfl := Option.some.inj hc
          exact h
  · intro other ⟨hurl, hget, hread, hfiles⟩
    unfold isValid
    have hloc := loadLocator_agree env other urlString s hurl
    have hfa : fetchMetadata other (loadLocator other urlString s)
        = fetchMetadata env (loadLocator env urlString s) := by
      rw [hloc]
      exact fetchMetadata_agree env other _ hget hread
    rcases hfm : fetchMetadata env (loadLocator env urlString s) with ⟨r, s1⟩
    rw [hfm] at hfa
    cases r with
    | none =>
      rw [load_isValid_of_not_fetched env urlString s (by rw [hfm]),
        load_isValid_of_not_fetched other urlString s (by rw [hfa])]
    | some content =>
      rw [load_isValid_of_fetched env urlString s s1 content hfm,
        load_isValid_of_fetched other urlString s s1 content hfa]
      cases hok : (loadSchema content s1).1 with
      | false => rfl
      | true =>
        obtain ⟨hv1, hd⟩ := hdir env content s1 hfm
        obtain ⟨hv2, _⟩ := hdir other content s1 hfm
        have hv : SameHierarchyView (importManifest env (loadSchema content s1).2)
            (importManifest other (loadSchema content s1).2) :=
          sameHierarchyView_trans (sameHierarchyView_symm hv1) hv2
        have hfiles2 : SameHierarchyFiles env other
            (importManifest env (loadSchema content s1).2).mUrlDirectoryPart := by
          rw [hv1.2.2.2, hd]; exact hfiles
        have ha := loadNodeHierarchy_agree env other rootNode _ _ hv hfiles2
        simp only [if_true, Bool.true_and, ha]

/-- The remote sample dataset is loaded as valid without a companion manifest, and as valid
with a manifest and source metadata; the source metadata is absorbed only in the second. -/
theorem load_valid_iff_witness :
    isValid (load (remoteEnv noSources) "http://a/ept.json" sampleIndex) = true ∧
    isValid (load (remoteEnv someSources) "http://a/ept.json" sampleIndex)
      = isValid (load (remoteEnv noSources) "http://a/ept.json" sampleIndex) ∧
    (load (remoteEnv noSources) "http://a/ept.json" sampleIndex).mOriginalMetadata.length = 0 ∧
    (load (remoteEnv someSources) "http://a/ept.json" sampleIndex).mOriginalMetadata.length = 1 :=
  ⟨(load_valid_iff (remoteEnv noSources) "http://a/ept.json" sampleIndex).1.mpr
      ⟨jsonBytes (sampleMetadata sampleSchema), rfl, by decide, by decide⟩,
   (load_valid_iff (remoteEnv noSources) "http://a/ept.json" sampleIndex).2
      (remoteEnv someSources) ⟨rfl, rfl, rfl, rfl, fun _ => ⟨rfl, rfl⟩⟩,
   by decide, by decide⟩

/-! ## C10: queries on an invalid index -/

theorem applyHierarchyEntries_withValidity (f : String → IndexedPointCloudNode)
    (o : QJsonObject) (b : Bool) (s : QgsEptPointCloudIndex) :
    applyHierarchyEntries f o (withValidity b s) = withValidity b (applyHierarchyEntries f o s) := by
  induction o generalizing s with
  | nil => rfl
  | cons e o ih =>
    obtain ⟨k, v⟩ := e
    simp only [applyHierarchyEntries]
    split
    · exact ih { s with mHierarchy := QMap.insert s.mHierarchy (f k) v.toInt }
    · split
      · exact ih { s with mHierarchyNodes := QSet.insert s.mHierarchyNodes (f k) }
      · exact ih s

theorem fetchHierarchyFile_withValidity (env : Env) (p : String) (b : Bool)
    (s : QgsEptPointCloudIndex) :
    fetchHierarchyFile env p (withValidity b s) =
      ((fetchHierarchyFile env p s).1, withValidity b (fetchHierarchyFile env p s).2) := by
  unfold fetchHierarchyFile
  show (match s.mAccessType with
    | AccessType.Remote => tileDownloadManagerGet env p (withValidity b s)
    | AccessType.Local => readFile env p (withValidity b s)) = _
  cases s.mAccessType <;> rfl

theorem loadSingleNodeHierarchy_withValidity (env : Env) (n : IndexedPointCloudNode) (b : Bool)
    (s : QgsEptPointCloudIndex) :
    loadSingleNodeHierarchy env n (withValidity b s) =
      ((loadSingleNodeHierarchy env n s).1, withValidity b (loadSingleNodeHierarchy env n s).2) := by
  cases hc : QMap.contains s.mHierarchy n with
  | true =>
    rw [loadSingleNodeHierarchy_known env n s hc,
      loadSingleNodeHierarchy_known env n (withValidity b s) hc]
  | false =>
    cases hp : QSet.contains s.mHierarchyNodes n with
    | false =>
      rw [loadSingleNodeHierarchy_not_pending env n s hp,
        loadSingleNodeHierarchy_not_pending env n (withValidity b s) hp]
    | true =>
      rw [loadSingleNodeHierarchy_fetch env n s hc hp,
        loadSingleNodeHierarchy_fetch env n (withValidity b s) hc hp]
      have hpath : hierarchyFilePath (withValidity b s) n = hierarchyFilePath s n := rfl
      rw [hpath, fetchHierarchyFile_withValidity]
      simp only
      cases (fetchHierarchyFile env (hierarchyFilePath s n) s).1 with
      | none => rfl
      | some d =>
        simp only
        cases d.fromJson with
        | none => rfl
        | some doc => simp only [applyHierarchyEntries_withValidity]

theorem loadNodeHierarchyLoop_withValidity (env : Env) (n : IndexedPointCloudNode)
    (path : List IndexedPointCloudNode) (b : Bool) (s : QgsEptPointCloudIndex) :
    loadNodeHierarchyLoop env n path (withValidity b s) =
      ((loadNodeHierarchyLoop env n path s).1,
        withValidity b (loadNodeHierarchyLoop env n path s).2) := by
  induction path generalizing s with
  | nil => rfl
  | cons node rest ih =>
    have hct : QMap.contains (withValidity b s).mHierarchy n = QMap.contains s.mHierarchy n := rfl
    cases hc : QMap.contains s.mHierarchy n with
    | true =>
      rw [hc] at hct
      simp only [loadNodeHierarchyLoop, hc, hct, if_true]
    | false =>
      rw [hc] at hct
      simp only [loadNodeHierarchyLoop, hc, hct, Bool.false_eq_true, if_false,
        loadSingleNodeHierarchy_withValidity]
      rcases loadSingleNodeHierarchy env node s with ⟨r, s1⟩
      cases r with
      | false => rfl
      | true => exact ih s1

theorem loadNodeHierarchy_withValidity (env : Env) (n : IndexedPointCloudNode) (b : Bool)
    (s : QgsEptPointCloudIndex) :
    loadNodeHierarchy env n (withValidity b s) =
      ((loadNodeHierarchy env n s).1, withValidity b (loadNodeHierarchy env n s).2) := by
  have hct : QMap.contains (withValidity b s).mHierarchy n = QMap.contains s.mHierarchy n := rfl
  cases hc : QMap.contains s.mHierarchy n with
  | true =>
    rw [hc] at hct
    simp only [loadNodeHierarchy, hc, hct, if_true]
  | false =>
    rw [hc] at hct
    simp only [loadNodeHierarchy, hc, hct, Bool.false_eq_true, if_false,
      loadNodeHierarchyLoop_withValidity]
    rcases loadNodeHierarchyLoop env n (nodePathToRoot n).reverse s with ⟨r, s1⟩
    cases r with
    | false => rfl
    | true => rfl

theorem nodePointCountLoop_withValidity (env : Env) (n : IndexedPointCloudNode)
    (path : List IndexedPointCloudNode) (b : Bool) (s : QgsEptPointCloudIndex) :
    nodePointCountLoop env n path (withValidity b s) =
      ((nodePointCountLoop env n path s).1, withValidity b (nodePointCountLoop env n path s).2) := by
  induction path generalizing s with
  | nil => rfl
  | cons node rest ih =>
    simp only [nodePointCountLoop, loadSingleNodeHierarchy_withValidity]
    have hv : (withValidity b (loadSingleNodeHierarchy env node s).2).mHierarchy
        = (loadSingleNodeHierarchy env node s).2.mHierarchy := rfl
    rw [hv]
    split
    · rfl
    · exact ih _

theorem nodePointCount_withValidity (env : Env) (n : IndexedPointCloudNode) (b : Bool)
    (s : QgsEptPointCloudIndex) :
    nodePointCount env n (withValidity b s) =
      ((nodePointCount env n s).1, withValidity b (nodePointCount env n s).2) := by
  have hv : (withValidity b s).mHierarchy = s.mHierarchy := rfl
  simp only [nodePointCount, hv]
  split
  · rfl
  · exact nodePointCountLoop_withValidity env n _ b s

theorem asyncNodeData_withValidity (env : Env) (n : IndexedPointCloudNode)
    (request : QgsPointCloudRequest) (b : Bool) (s : QgsEptPointCloudIndex) :
    asyncNodeData env n request (withValidity b s) =
      ((asyncNodeData env n request s).1, withValidity b (asyncNodeData env n request s).2) := by
  unfold asyncNodeData
  cases env.getNodeDataFromCache n request with
  | some cached => rfl
  | none =>
    simp only
    have ha : (withValidity b s).mAccessType = s.mAccessType := rfl
    rw [ha]
    split
    · rfl
    · rw [loadNodeHierarchy_withValidity]
      rcases loadNodeHierarchy env n s with ⟨r, s1⟩
      cases r with
      | false => rfl
      | true =>
        simp only
        have ht : tileFileUrl (withValidity b s1) n = tileFileUrl s1 n := rfl
        rw [ht]
        cases tileFileUrl s1 n with
        | none => rfl
        | some fileUrl => rfl

theorem decodeLocal_withValidity (env : Env) (n : IndexedPointCloudNode)
    (request : QgsPointCloudRequest) (b : Bool) (s : QgsEptPointCloudIndex) :
    decodeLocal env n request (withValidity b s) =
      ((decodeLocal env n request s).1, withValidity b (decodeLocal env n request s).2) := by
  unfold decodeLocal
  have hd : (withValidity b s).mDataType = s.mDataType := rfl
  simp only [hd]
  split_ifs <;> rfl

theorem nodeData_withValidity (env : Env) (n : IndexedPointCloudNode)
    (request : QgsPointCloudRequest) (b : Bool) (s : QgsEptPointCloudIndex) :
    nodeData env n request (withValidity b s) =
      ((nodeData env n request s).1, withValidity b (nodeData env n request s).2) := by
  unfold nodeData
  cases env.getNodeDataFromCache n request with
  | some cached => rfl
  | none =>
    simp only
    have ha : (withValidity b s).mAccessType = s.mAccessType := rfl
    rw [ha]
    cases s.mAccessType with
    | Remote =>
      simp only [asyncNodeData_withValidity]
      rcases asyncNodeData env n request s with ⟨r, s1⟩
      cases r with
      | none => rfl
      | some blockRequest => rfl
    | Local =>
      simp only [decodeLocal_withValidity]
      rfl

/-- C10 as stated fails: after `load` failed to fetch the primary metadata document the
index is invalid, and `hasNode( root )` still issues the fetch of the hierarchy file of the
root. -/
theorem invalid_index_still_fetches :
    isValid (load (sampleEnv none) "data/ept.json" sampleIndex) = false ∧
    (load (sampleEnv none) "data/ept.json" sampleIndex).trace
      = [Effect.fileOpen "data/ept.json"] ∧
    (hasNode (sampleEnv none) rootNode
        (load (sampleEnv none) "data/ept.json" sampleIndex)).2.trace
      = [Effect.fileOpen "data/ept.json", Effect.fileOpen "data/ept-hierarchy/0-0-0-0.json"] := by
  decide

/-- C10 as amended: the queries do not short-circuit on an invalid index.  None of
`hasNode`, `nodePointCount`, `asyncNodeData` and `nodeData` reads `isValid()`: on every index
state each returns the same result and leaves the same state, the trace of hierarchy and
tile fetches included, whether the validity flag is true or false. -/
theorem queries_ignore_validity (env : Env) (n : IndexedPointCloudNode)
    (request : QgsPointCloudRequest) (b : Bool) (s : QgsEptPointCloudIndex) :
    hasNode env n (withValidity b s) =
      ((hasNode env n s).1, withValidity b (hasNode env n s).2) ∧
    nodePointCount env n (withValidity b s) =
      ((nodePointCount env n s).1, withValidity b (nodePointCount env n s).2) ∧
    asyncNodeData env n request (withValidity b s) =
      ((asyncNodeData env n request s).1, withValidity b (asyncNodeData env n request s).2) ∧
    nodeData env n request (withValidity b s) =
      ((nodeData env n request s).1, withValidity b (nodeData env n request s).2) :=
  ⟨loadNodeHierarchy_withValidity env n b s, nodePointCount_withValidity env n b s,
   asyncNodeData_withValidity env n request b s, nodeData_withValidity env n request b s⟩

/-! ## The bound on the loop of nodePathToRoot -/

/-- The bound `d` on the iterations of the loop of `nodePathToRoot` is never what ends the
loop: every larger bound gives the same path. -/
theorem nodePathToRootLoop_fuel (fuel : Nat) (n : IndexedPointCloudNode)
    (h : n.d.toNat ≤ fuel) :
    nodePathToRootLoop fuel n = nodePathToRootLoop n.d.toNat n := by
  induction fuel generalizing n with
  | zero =>
    have h0 : n.d.toNat = 0 := Nat.le_zero.mp h
    rw [h0]
  | succ fuel ih =>
    have hpd : n.parentNode.d = n.d - 1 := rfl
    by_cases hd : n.d ≤ 0
    · have h0 : n.d.toNat = 0 := by omega
      have hneg : ¬ n.parentNode.d ≥ 0 := by omega
      rw [h0]
      simp only [nodePathToRootLoop, hneg, if_false]
    · have hk : n.d.toNat = n.parentNode.d.toNat + 1 := by omega
      have hpos : n.parentNode.d ≥ 0 := by omega
      rw [hk]
      simp only [nodePathToRootLoop, hpos, if_true]
      rw [ih n.parentNode (by omega)]

/-! ## C11: the error message of a failed load -/

/-- C11 fails on the code: `load` sets `mError` only where the primary metadata document
cannot be fetched (first conjunct: the file cannot be opened, the message is set).  Where
`loadSchema` rejects the fetched document (bytes that are not JSON), and where `loadSchema`
accepts it and the hierarchy file of the root cannot be read, `load` leaves a fresh index
invalid with its error message still empty. -/
theorem load_invalid_error_unset :
    (isValid (load (sampleEnv none) "data/ept.json" sampleIndex) = false ∧
     (load (sampleEnv none) "data/ept.json" sampleIndex).mError
       = "Unable to open data/ept.json for reading") ∧
    sampleIndex.mError = "" ∧
    (isValid (load (sampleEnv (some garbageBytes)) "data/ept.json" sampleIndex) = false ∧
     (load (sampleEnv (some garbageBytes)) "data/ept.json" sampleIndex).mError = "") ∧
    ((loadSchema (jsonBytes (sampleMetadata sampleSchema))
        (fetchMetadata metadataOnlyEnv (loadLocator metadataOnlyEnv "data/ept.json" sampleIndex)).2).1
       = true ∧
     isValid (load metadataOnlyEnv "data/ept.json" sampleIndex) = false ∧
     (load metadataOnlyEnv "data/ept.json" sampleIndex).mError = "") := by
  decide

/-! ## C12: the attributes handed to the decoder -/

/-- C12 fails on the code for zstandard: with a filter that refers to `Classification` and a
request for `X` alone, `nodeData` on a cache miss with local access hands
`decompressZStandard` the requested attributes as they are, `X`, whereas the widened set is
`X`, `Classification`; for a binary dataset the same call hands `decompressBinary` the
widened set. -/
theorem nodeData_zstandard_attributes_not_widened :
    (sampleEnv none).getNodeDataFromCache rootNode sampleRequest = none ∧
    zstandardIndex.mAccessType = AccessType.Local ∧
    sampleRequest.attributes.extend zstandardIndex.mAttributes
        zstandardIndex.mFilterExpression.referencedAttributes
      = [⟨"X", DataType.Int32⟩, ⟨"Classification", DataType.UChar⟩] ∧
    (nodeData (sampleEnv none) rootNode sampleRequest zstandardIndex).2.trace =
      [Effect.decompressZStandard
         ⟨"data/ept-data/0-0-0-0.zst", zstandardIndex.mAttributes, [⟨"X", DataType.Int32⟩],
          zstandardIndex.mScale, zstandardIndex.mOffset, zstandardIndex.mFilterExpression,
          sampleRequest.filterRect⟩,
       Effect.storeNodeDataToCache none rootNode sampleRequest] ∧
    (nodeData (sampleEnv none) rootNode sampleRequest binaryIndex).2.trace =
      [Effect.decompressBinary
         ⟨"data/ept-data/0-0-0-0.bin", binaryIndex.mAttributes,
          [⟨"X", DataType.Int32⟩, ⟨"Classification", DataType.UChar⟩],
          binaryIndex.mScale, binaryIndex.mOffset, binaryIndex.mFilterExpression,
          sampleRequest.filterRect⟩,
       Effect.storeNodeDataToCache none rootNode sampleRequest] := by
  decide

/-! ## C13: clone -/

/-- The fields that `copyCommonProperties` assigns in this file are equal in the clone and in
the original, whatever the base class part copies, and the original is returned as it was. -/
theorem clone_copies_listed_fields
    (baseCopy : QgsEptPointCloudIndex → QgsEptPointCloudIndex → QgsEptPointCloudIndex)
    (base s : QgsEptPointCloudIndex) :
    (clone baseCopy base s).2 = s ∧
    (clone baseCopy base s).1.mIsValid = s.mIsValid ∧
    (clone baseCopy base s).1.mDataType = s.mDataType ∧
    (clone baseCopy base s).1.mUrlDirectoryPart = s.mUrlDirectoryPart ∧
    (clone baseCopy base s).1.mWkt = s.mWkt ∧
    (clone baseCopy base s).1.mHierarchyNodes = s.mHierarchyNodes ∧
    (clone baseCopy base s).1.mPointCount = s.mPointCount ∧
    (clone baseCopy base s).1.mMetadataStats = s.mMetadataStats ∧
    (clone baseCopy base s).1.mAttributeClasses = s.mAttributeClasses ∧
    (clone baseCopy base s).1.mOriginalMetadata = s.mOriginalMetadata :=
  ⟨rfl, rfl, rfl, rfl, rfl, rfl, rfl, rfl, rfl, rfl⟩

/-- The access type of the clone is the one the base class part leaves in the newly
constructed index: `copyCommonProperties` does not assign `mAccessType`. -/
theorem clone_access_type
    (baseCopy : QgsEptPointCloudIndex → QgsEptPointCloudIndex → QgsEptPointCloudIndex)
    (base s : QgsEptPointCloudIndex) :
    (clone baseCopy base s).1.mAccessType = (baseCopy s (construct base)).mAccessType :=
  rfl

/-- C13 fails on the code for the access type: the index loaded from `http://a/ept.json` is
valid and remote, with the directory locator `http://a`; its clone has the same validity flag
and directory locator, and the access type of a newly constructed index, local. -/
theorem clone_of_remote_index_is_local :
    isValid (load (remoteEnv noSources) "http://a/ept.json" sampleIndex) = true ∧
    (load (remoteEnv noSources) "http://a/ept.json" sampleIndex).mAccessType = AccessType.Remote ∧
    (clone QgsPointCloudIndex.copyCommonProperties sampleBase
        (load (remoteEnv noSources) "http://a/ept.json" sampleIndex)).1.mIsValid = true ∧
    (clone QgsPointCloudIndex.copyCommonProperties sampleBase
        (load (remoteEnv noSources) "http://a/ept.json" sampleIndex)).1.mUrlDirectoryPart
      = "http://a" ∧
    (clone QgsPointCloudIndex.copyCommonProperties sampleBase
        (load (remoteEnv noSources) "http://a/ept.json" sampleIndex)).1.mAccessType
      = AccessType.Local := by
  decide

/-! ## C14: the statistics of a schema entry -/

/-- C14 fails on the code for the mean: `loadSchema` reads `mean` under the test for the key
`count`.  An entry that declares a mean of 5 and no count stores no statistics, and
`metadataStatistic` has no mean for it; an entry that declares a count of 10 and no mean
stores the mean 0, and `metadataStatistic` reports it. -/
theorem loadSchema_mean_follows_count_key :
    (meanOnlyEntry.toObject.contains "mean" = true ∧
     schemaStats meanOnlyEntry.toObject = ({}, false) ∧
     (loadSchema (jsonBytes (sampleMetadata [meanOnlyEntry])) sampleIndex).1 = true ∧
     QMap.find (loadSchema (jsonBytes (sampleMetadata [meanOnlyEntry])) sampleIndex).2.mMetadataStats
       "Z" = none ∧
     metadataStatistic (loadSchema (jsonBytes (sampleMetadata [meanOnlyEntry])) sampleIndex).2
       "Z" Statistic.Mean = QVariant.invalid) ∧
    (countOnlyEntry.toObject.contains "mean" = false ∧
     schemaStats countOnlyEntry.toObject = ({ count := 10, mean := some 0 }, true) ∧
     (loadSchema (jsonBytes (sampleMetadata [countOnlyEntry])) sampleIndex).1 = true ∧
     metadataStatistic (loadSchema (jsonBytes (sampleMetadata [countOnlyEntry])) sampleIndex).2
       "Z" Statistic.Mean = QVariant.double 0) := by
  decide

/-! ## C16: metadata documents that loadSchema rejects -/

theorem qjsonobject_value_of_missing (o : QJsonObject) (key : String)
    (h : o.contains key = false) : (o.value key).toString = "" := by
  unfold QJsonObject.contains at h
  unfold QJsonObject.value
  cases hf : QMap.find o key with
  | none => rfl
  | some v => rw [hf] at h; simp at h

theorem loadSchemaHeader_rejects (result : QJsonObject) (s : QgsEptPointCloudIndex)
    (h : ((result.value "dataType").toString ≠ "binary" ∧
          (result.value "dataType").toString ≠ "laszip" ∧
          (result.value "dataType").toString ≠ "zstandard") ∨
        (result.value "hierarchyType").toString ≠ "json" ∨
        (result.value "bounds").toArray.length ≠ 6) :
    (loadSchemaHeader result s).1 = false := by
  unfold loadSchemaHeader
  simp only
  split_ifs with h1 h2 h3 h4
  · rfl
  · rfl
  · rfl
  · rfl
  · exfalso
    rcases h with ⟨hb, hl, hz⟩ | hh | hb
    · exact h1 ⟨hl, hb, hz⟩
    · exact h2 hh
    · exact h3 hb

/-- C16: `loadSchema` returns false, and `load` then leaves the index invalid, for every
metadata document that is not valid JSON, whose `dataType` is missing or not one of `binary`,
`laszip`, `zstandard`, whose `hierarchyType` is not `json`, or whose `bounds` array does not
have exactly 6 elements. -/
theorem loadSchema_rejects_malformed (dataJson : QByteArray)
    (h : dataJson.fromJson = none ∨
      ∃ doc, dataJson.fromJson = some doc ∧
        (doc.object.contains "dataType" = false ∨
         ((doc.object.value "dataType").toString ≠ "binary" ∧
          (doc.object.value "dataType").toString ≠ "laszip" ∧
          (doc.object.value "dataType").toString ≠ "zstandard") ∨
         (doc.object.value "hierarchyType").toString ≠ "json" ∨
         (doc.object.value "bounds").toArray.length ≠ 6)) :
    (∀ s, (loadSchema dataJson s).1 = false) ∧
    ∀ (env : Env) (urlString : String) (s : QgsEptPointCloudIndex),
      (fetchMetadata env (loadLocator env urlString s)).1 = some dataJson →
      isValid (load env urlString s) = false := by
  have hfalse : ∀ s, (loadSchema dataJson s).1 = false := by
    intro s
    rcases h with hp | ⟨doc, hp, hd⟩
    · rw [loadSchema_parse_error dataJson s hp]
    · have hrej : (loadSchemaHeader doc.object s).1 = false := by
        apply loadSchemaHeader_rejects
        rcases hd with hmiss | hd | hd | hd
        · left
          rw [qjsonobject_value_of_missing _ _ hmiss]
          decide
        · exact Or.inl hd
        · exact Or.inr (Or.inl hd)
        · exact Or.inr (Or.inr hd)
      rcases hh : loadSchemaHeader doc.object s with ⟨b, s1⟩
      rw [hh] at hrej
      simp only at hrej
      subst hrej
      rw [loadSchema_header_false dataJson s s1 doc hp hh]
  refine ⟨hfalse, ?_⟩
  intro env urlString s hf
  rcases hfm : fetchMetadata env (loadLocator env urlString s) with ⟨r, s1⟩
  rw [hfm] at hf
  simp only at hf
  subst hf
  unfold isValid
  rw [load_isValid_of_fetched env urlString s s1 dataJson hfm, hfalse s1]
  rfl

/-- Bytes that are not JSON, and a document without `dataType`, are rejected, and the index
loaded from either is invalid. -/
theorem loadSchema_rejects_malformed_witness :
    (loadSchema garbageBytes sampleIndex).1 = false ∧
    isValid (load (sampleEnv (some garbageBytes)) "data/ept.json" sampleIndex) = false ∧
    (loadSchema (jsonBytes [("hierarchyType", QJsonValue.string "json")]) sampleIndex).1 = false ∧
    isValid (load (sampleEnv (some (jsonBytes [("hierarchyType", QJsonValue.string "json")])))
      "data/ept.json" sampleIndex) = false :=
  ⟨(loadSchema_rejects_malformed garbageBytes (Or.inl rfl)).1 sampleIndex,
   (loadSchema_rejects_malformed garbageBytes (Or.inl rfl)).2 (sampleEnv (some garbageBytes))
     "data/ept.json" sampleIndex rfl,
   (loadSchema_rejects_malformed (jsonBytes [("hierarchyType", QJsonValue.string "json")])
     (Or.inr ⟨_, rfl, Or.inl (by decide)⟩)).1 sampleIndex,
   (loadSchema_rejects_malformed (jsonBytes [("hierarchyType", QJsonValue.string "json")])
     (Or.inr ⟨_, rfl, Or.inl (by decide)⟩)).2
     (sampleEnv (some (jsonBytes [("hierarchyType", QJsonValue.string "json")])))
     "data/ept.json" sampleIndex rfl⟩

/-! ## The fetches of loadNodeHierarchy -/

theorem fetchHierarchyFile_state_eq (env : Env) (n : IndexedPointCloudNode)
    (s : QgsEptPointCloudIndex) :
    (fetchHierarchyFile env (hierarchyFilePath s n) s).2 = record (hierarchyFetchEffect s n) s := by
  unfold fetchHierarchyFile hierarchyFetchEffect
  cases s.mAccessType <;> rfl

theorem loadSingleNodeHierarchy_trace_eq (env : Env) (n : IndexedPointCloudNode)
    (s : QgsEptPointCloudIndex) :
    (loadSingleNodeHierarchy env n s).2.trace =
      s.trace ++ (if (!QMap.contains s.mHierarchy n && QSet.contains s.mHierarchyNodes n) = true
        then [hierarchyFetchEffect s n] else []) := by
  cases hc : QMap.contains s.mHierarchy n with
  | true => rw [loadSingleNodeHierarchy_known env n s hc]; simp
  | false =>
    cases hp : QSet.contains s.mHierarchyNodes n with
    | false => rw [loadSingleNodeHierarchy_not_pending env n s hp]; simp
    | true =>
      rw [loadSingleNodeHierarchy_fetch env n s hc hp]
      have he := fetchHierarchyFile_state_eq env n s
      cases hf : (fetchHierarchyFile env (hierarchyFilePath s n) s).1 with
      | none => simp only [hf, he]; rfl
      | some d =>
        cases hd : d.fromJson with
        | none => simp only [hf, hd, he]; rfl
        | some doc => simp only [hf, hd, applyHierarchyEntries_trace, he]; rfl

theorem loadNodeHierarchyLoop_trace (env : Env) (n : IndexedPointCloudNode)
    (path : List IndexedPointCloudNode) (s : QgsEptPointCloudIndex) :
    (loadNodeHierarchyLoop env n path s).2.trace =
      s.trace ++ ((loadNodeHierarchyVisits env n path s).filter
        (fun v => !QMap.contains v.2.mHierarchy v.1 && QSet.contains v.2.mHierarchyNodes v.1)).map
        (fun v => hierarchyFetchEffect v.2 v.1) := by
  induction path generalizing s with
  | nil => simp [loadNodeHierarchyLoop, loadNodeHierarchyVisits]
  | cons node rest ih =>
    cases hc : QMap.contains s.mHierarchy n with
    | true => simp [loadNodeHierarchyLoop, loadNodeHierarchyVisits, hc]
    | false =>
      have ht := loadSingleNodeHierarchy_trace_eq env node s
      rcases hl : loadSingleNodeHierarchy env node s with ⟨b, s1⟩
      rw [hl] at ht
      simp only at ht
      cases b with
      | false =>
        simp only [loadNodeHierarchyLoop, loadNodeHierarchyVisits, hc, hl, Bool.false_eq_true,
          if_false, ht]
        by_cases hneed :
            (!QMap.contains s.mHierarchy node && QSet.contains s.mHierarchyNodes node) = true
        · simp [List.filter, hneed]
        · simp [List.filter, hneed]
      | true =>
        simp only [loadNodeHierarchyLoop, loadNodeHierarchyVisits, hc, hl, Bool.false_eq_true,
          if_false]
        rw [ih s1, ht]
        by_cases hneed :
            (!QMap.contains s.mHierarchy node && QSet.contains s.mHierarchyNodes node) = true
        · simp [List.filter, hneed]
        · simp [List.filter, hneed]

theorem loadNodeHierarchyVisits_initial (env : Env) (n : IndexedPointCloudNode)
    (path : List IndexedPointCloudNode) (s : QgsEptPointCloudIndex) :
    ∃ rest, (loadNodeHierarchyVisits env n path s).map Prod.fst ++ rest = path := by
  induction path generalizing s with
  | nil => exact ⟨[], rfl⟩
  | cons node rest ih =>
    cases hc : QMap.contains s.mHierarchy n with
    | true => exact ⟨node :: rest, by simp [loadNodeHierarchyVisits, hc]⟩
    | false =>
      rcases hl : loadSingleNodeHierarchy env node s with ⟨b, s1⟩
      cases b with
      | false => exact ⟨rest, by simp [loadNodeHierarchyVisits, hc, hl]⟩
      | true =>
        obtain ⟨r, hr⟩ := ih s1
        exact ⟨r, by simp [loadNodeHierarchyVisits, hc, hl, hr]⟩

theorem loadNodeHierarchy_trace (env : Env) (n : IndexedPointCloudNode)
    (s : QgsEptPointCloudIndex) :
    (loadNodeHierarchy env n s).2.trace =
      s.trace ++ ((loadNodeHierarchyVisits env n (nodePathToRoot n).reverse s).filter
        (fun v => !QMap.contains v.2.mHierarchy v.1 && QSet.contains v.2.mHierarchyNodes v.1)).map
        (fun v => hierarchyFetchEffect v.2 v.1) := by
  cases hc : QMap.contains s.mHierarchy n with
  | true =>
    have hv : loadNodeHierarchyVisits env n (nodePathToRoot n).reverse s = [] := by
      cases hp : (nodePathToRoot n).reverse with
      | nil => rfl
      | cons a l => simp [loadNodeHierarchyVisits, hc]
    simp [loadNodeHierarchy, hc, hv]
  | false =>
    rw [← loadNodeHierarchyLoop_trace]
    rcases hl : loadNodeHierarchyLoop env n (nodePathToRoot n).reverse s with ⟨b, s1⟩
    cases b <;> simp [loadNodeHierarchy, hc, hl]

theorem nodePathToRootLoop_depth (fuel : Nat) (n m : IndexedPointCloudNode)
    (h : m ∈ nodePathToRootLoop fuel n) : m.d ≤ n.d := by
  induction fuel generalizing n with
  | zero =>
    simp only [nodePathToRootLoop, List.mem_singleton] at h
    rw [h]
  | succ fuel ih =>
    simp only [nodePathToRootLoop, List.mem_cons] at h
    rcases h with h | h
    · rw [h]
    · split_ifs at h with hp
      · have h1 := ih n.parentNode h
        have hpd : n.parentNode.d = n.d - 1 := rfl
        omega
      · cases h

theorem nodePathToRootLoop_nodup (fuel : Nat) (n : IndexedPointCloudNode) :
    (nodePathToRootLoop fuel n).Nodup := by
  induction fuel generalizing n with
  | zero => simp [nodePathToRootLoop]
  | succ fuel ih =>
    simp only [nodePathToRootLoop, List.nodup_cons]
    split_ifs with hp
    · refine ⟨?_, ih n.parentNode⟩
      intro hmem
      have h1 := nodePathToRootLoop_depth fuel n.parentNode n hmem
      have hpd : n.parentNode.d = n.d - 1 := rfl
      omega
    · exact ⟨by simp, List.nodup_nil⟩

theorem nodePathToRootLoop_length (fuel : Nat) (n : IndexedPointCloudNode)
    (h : n.d.toNat = fuel) : (nodePathToRootLoop fuel n).length = fuel + 1 := by
  induction fuel generalizing n with
  | zero => rfl
  | succ fuel ih =>
    have hpd : n.parentNode.d = n.d - 1 := rfl
    have hpos : n.parentNode.d ≥ 0 := by omega
    simp only [nodePathToRootLoop, hpos, if_true, List.length_cons]
    rw [ih n.parentNode (by omega)]

theorem loadNodeHierarchyVisits_contains (env : Env) (n m : IndexedPointCloudNode)
    (path : List IndexedPointCloudNode) (s : QgsEptPointCloudIndex)
    (h : QMap.contains s.mHierarchy m = true)
    (v : IndexedPointCloudNode × QgsEptPointCloudIndex)
    (hv : v ∈ loadNodeHierarchyVisits env n path s) :
    QMap.contains v.2.mHierarchy m = true := by
  induction path generalizing s with
  | nil => simp [loadNodeHierarchyVisits] at hv
  | cons node rest ih =>
    cases hc : QMap.contains s.mHierarchy n with
    | true => simp [loadNodeHierarchyVisits, hc] at hv
    | false =>
      have h1 := loadSingleNodeHierarchy_contains env node m s h
      rcases hl : loadSingleNodeHierarchy env node s with ⟨b, s1⟩
      rw [hl] at h1
      simp only [loadNodeHierarchyVisits, hc, hl, Bool.false_eq_true, if_false,
        List.mem_cons] at hv
      rcases hv with hv | hv
      · rw [hv]; exact h
      · cases b with
        | false => simp at hv
        | true => exact ih s1 h1 hv

/-! ## C18: at most one fetch for each node of the path -/

/-- C18 as stated fails: on a fresh index node `1-0-0-0` is on its own path to the root and
is not pending; `loadNodeHierarchy( 1-0-0-0 )` fetches the hierarchy file of the root, which
marks the node pending, and then fetches the hierarchy file of the node. -/
theorem node_not_pending_at_call_is_fetched :
    (⟨1, 0, 0, 0⟩ : IndexedPointCloudNode) ∈ nodePathToRoot ⟨1, 0, 0, 0⟩ ∧
    QSet.contains sampleIndex.mHierarchyNodes ⟨1, 0, 0, 0⟩ = false ∧
    hierarchyFetchEffect sampleIndex ⟨1, 0, 0, 0⟩ = Effect.fileOpen "/ept-hierarchy/1-0-0-0.json" ∧
    (loadNodeHierarchy relistingEnv ⟨1, 0, 0, 0⟩ sampleIndex).2.trace =
      [Effect.fileOpen "/ept-hierarchy/0-0-0-0.json",
       Effect.fileOpen "/ept-hierarchy/1-0-0-0.json"] := by
  decide

/-- C18 as amended: one call of `loadNodeHierarchy( n )` hands the nodes of an initial part
of the root-to-`n` path, root first, to `loadSingleNodeHierarchy`; the path has no node twice
and, for a node of depth `d >= 0`, `d + 1` nodes.  The fetches the call issues are exactly
one hierarchy-file fetch for each node so visited that, at the moment it is reached, has no
count and is pending; none is issued for a visited node that at that moment has a count or is
not pending, and a node that has a count when the call starts still has it when it is
reached.  So the call issues at most `d + 1` fetches, and none at all when `n` already has a
count. -/
theorem loadNodeHierarchy_fetches_once_per_path_node (env : Env) (n : IndexedPointCloudNode)
    (s : QgsEptPointCloudIndex) :
    (∃ rest, (loadNodeHierarchyVisits env n (nodePathToRoot n).reverse s).map Prod.fst ++ rest
        = (nodePathToRoot n).reverse) ∧
    (nodePathToRoot n).Nodup ∧
    (nodePathToRoot n).length = n.d.toNat + 1 ∧
    (loadNodeHierarchy env n s).2.trace =
      s.trace ++ ((loadNodeHierarchyVisits env n (nodePathToRoot n).reverse s).filter
        (fun v => !QMap.contains v.2.mHierarchy v.1 && QSet.contains v.2.mHierarchyNodes v.1)).map
        (fun v => hierarchyFetchEffect v.2 v.1) ∧
    (∀ v ∈ loadNodeHierarchyVisits env n (nodePathToRoot n).reverse s,
      QMap.contains s.mHierarchy v.1 = true → QMap.contains v.2.mHierarchy v.1 = true) ∧
    (loadNodeHierarchy env n s).2.trace.length ≤ s.trace.length + (n.d.toNat + 1) ∧
    (QMap.contains s.mHierarchy n = true → (loadNodeHierarchy env n s).2.trace = s.trace) := by
  have hlen : (nodePathToRoot n).length = n.d.toNat + 1 :=
    nodePathToRootLoop_length n.d.toNat n rfl
  have hinit := loadNodeHierarchyVisits_initial env n (nodePathToRoot n).reverse s
  refine ⟨hinit, nodePathToRootLoop_nodup _ n, hlen, loadNodeHierarchy_trace env n s,
    fun v hv h => loadNodeHierarchyVisits_contains env n v.1 _ s h v hv, ?_, ?_⟩
  · rw [loadNodeHierarchy_trace env n s]
    obtain ⟨rest, hrest⟩ := hinit
    have h1 : (loadNodeHierarchyVisits env n (nodePathToRoot n).reverse s).length
        ≤ n.d.toNat + 1 := by
      have h2 := congrArg List.length hrest
      simp only [List.length_append, List.length_map, List.length_reverse, hlen] at h2
      omega
    have h3 := List.length_filter_le
      (fun v : IndexedPointCloudNode × QgsEptPointCloudIndex =>
        !QMap.contains v.2.mHierarchy v.1 && QSet.contains v.2.mHierarchyNodes v.1)
      (loadNodeHierarchyVisits env n (nodePathToRoot n).reverse s)
    simp only [List.length_append, List.length_map]
    omega
  · intro hc
    simp [loadNodeHierarchy, hc]

/-- For node `1-0-0-0`, of depth 1, on a fresh index the call issues at most two fetches.
Once the root has a count, `loadNodeHierarchy( root )` issues none. -/
theorem loadNodeHierarchy_fetches_once_per_path_node_witness :
    (loadNodeHierarchy relistingEnv ⟨1, 0, 0, 0⟩ sampleIndex).2.trace.length
      ≤ sampleIndex.trace.length + ((⟨1, 0, 0, 0⟩ : IndexedPointCloudNode).d.toNat + 1) ∧
    (loadNodeHierarchy relistingEnv rootNode (hasNode relistingEnv rootNode sampleIndex).2).2.trace
      = (hasNode relistingEnv rootNode sampleIndex).2.trace :=
  ⟨(loadNodeHierarchy_fetches_once_per_path_node relistingEnv ⟨1, 0, 0, 0⟩ sampleIndex).2.2.2.2.2.1,
   (loadNodeHierarchy_fetches_once_per_path_node relistingEnv rootNode
      (hasNode relistingEnv rootNode sampleIndex).2).2.2.2.2.2.2 (by decide)⟩

/-! ## C17: no tile request when the hierarchy load fails -/

theorem hierarchyFetchEffect_not_block_request (s : QgsEptPointCloudIndex)
    (n : IndexedPointCloudNode) (args : EptBlockRequestArgs) :
    hierarchyFetchEffect s n ≠ Effect.eptBlockRequest args := by
  unfold hierarchyFetchEffect
  cases s.mAccessType <;> simp

theorem loadNodeHierarchy_no_block_request (env : Env) (n : IndexedPointCloudNode)
    (s : QgsEptPointCloudIndex) (args : EptBlockRequestArgs)
    (h : Effect.eptBlockRequest args ∈ (loadNodeHierarchy env n s).2.trace) :
    Effect.eptBlockRequest args ∈ s.trace := by
  rw [loadNodeHierarchy_trace env n s, List.mem_append] at h
  rcases h with h | h
  · exact h
  · obtain ⟨v, _, hv⟩ := List.mem_map.mp h
    exact absurd hv (hierarchyFetchEffect_not_block_request v.2 v.1 args)

/-- C17: with remote access and a cache miss, if `loadNodeHierarchy( n )` returns false then
`asyncNodeData` returns a null pointer and `nodeData` returns no block; both leave the index
as `loadNodeHierarchy` left it, so nothing but hierarchy files was fetched and no tile
request was constructed. -/
theorem asyncNodeData_null_when_hierarchy_fails (env : Env) (n : IndexedPointCloudNode)
    (request : QgsPointCloudRequest) (s : QgsEptPointCloudIndex)
    (hmiss : env.getNodeDataFromCache n request = none)
    (hremote : s.mAccessType = AccessType.Remote)
    (hfail : (loadNodeHierarchy env n s).1 = false) :
    asyncNodeData env n request s = (none, (loadNodeHierarchy env n s).2) ∧
    nodeData env n request s = (none, (loadNodeHierarchy env n s).2) ∧
    ∀ args, Effect.eptBlockRequest args ∈ (asyncNodeData env n request s).2.trace →
      Effect.eptBlockRequest args ∈ s.trace := by
  have hasync : asyncNodeData env n request s = (none, (loadNodeHierarchy env n s).2) := by
    unfold asyncNodeData
    rw [hmiss]
    simp only [hremote, ne_eq, not_true_eq_false, if_false]
    rcases hl : loadNodeHierarchy env n s with ⟨b, s1⟩
    rw [hl] at hfail
    simp only at hfail
    subst hfail
    rfl
  refine ⟨hasync, ?_, ?_⟩
  · unfold nodeData
    rw [hmiss]
    simp only [hremote, hasync]
  · intro args hmem
    rw [hasync] at hmem
    exact loadNodeHierarchy_no_block_request env n s args hmem

/-- A remote index whose hierarchy file of the root cannot be fetched: both queries give
nothing, and the only I/O is the request for that hierarchy file. -/
theorem asyncNodeData_null_when_hierarchy_fails_witness :
    (asyncNodeData (sampleEnv none) rootNode sampleRequest
      { sampleIndex with mAccessType := AccessType.Remote }).1 = none ∧
    (nodeData (sampleEnv none) rootNode sampleRequest
      { sampleIndex with mAccessType := AccessType.Remote }).1 = none ∧
    (nodeData (sampleEnv none) rootNode sampleRequest
      { sampleIndex with mAccessType := AccessType.Remote }).2.trace
      = [Effect.tileDownloadGet "/ept-hierarchy/0-0-0-0.json"] :=
  have h := asyncNodeData_null_when_hierarchy_fails (sampleEnv none) rootNode sampleRequest
    { sampleIndex with mAccessType := AccessType.Remote } rfl rfl (by decide)
  ⟨by rw [h.1], by rw [h.2.1], by rw [h.2.1]; decide⟩

/-! ## Lemmas on scale and offset -/

theorem loadSchemaItem_scale_offset (item : QJsonValue)
    (attributes : QgsPointCloudAttributeCollection) (s : QgsEptPointCloudIndex)
    (h : (loadSchemaItem item attributes s).1 ≠ none) :
    (loadSchemaItem item attributes s).2.mScale =
      (if schemaEntryName item = "X" then ⟨declaredScale item, s.mScale.y, s.mScale.z⟩
       else if schemaEntryName item = "Y" then ⟨s.mScale.x, declaredScale item, s.mScale.z⟩
       else if schemaEntryName item = "Z" then ⟨s.mScale.x, s.mScale.y, declaredScale item⟩
       else s.mScale) ∧
    (loadSchemaItem item attributes s).2.mOffset =
      (if schemaEntryName item = "X" then ⟨declaredOffset item, s.mOffset.y, s.mOffset.z⟩
       else if schemaEntryName item = "Y" then ⟨s.mOffset.x, declaredOffset item, s.mOffset.z⟩
       else if schemaEntryName item = "Z" then ⟨s.mOffset.x, s.mOffset.y, declaredOffset item⟩
       else s.mOffset) := by
  unfold loadSchemaItem at h ⊢
  unfold schemaEntryName declaredScale declaredOffset
  simp only at h ⊢
  split
  · rename_i hp
    rw [hp] at h
    exact absurd rfl h
  · split_ifs <;> exact ⟨rfl, rfl⟩

theorem axisValue_cons (name : String) (declared : QJsonValue → ℚ) (before : ℚ)
    (item : QJsonValue) (rest : QJsonArray) :
    axisValue name declared before (item :: rest) =
      axisValue name declared (if schemaEntryName item = name then declared item else before)
        rest := by
  unfold axisValue
  simp only [lastNamed]
  cases lastNamed name rest with
  | some found => rfl
  | none => split_ifs <;> rfl

theorem loadSchemaItem_axes (item : QJsonValue)
    (attributes : QgsPointCloudAttributeCollection) (s : QgsEptPointCloudIndex)
    (h : (loadSchemaItem item attributes s).1 ≠ none) :
    ((loadSchemaItem item attributes s).2.mScale.x =
        (if schemaEntryName item = "X" then declaredScale item else s.mScale.x) ∧
     (loadSchemaItem item attributes s).2.mScale.y =
        (if schemaEntryName item = "Y" then declaredScale item else s.mScale.y) ∧
     (loadSchemaItem item attributes s).2.mScale.z =
        (if schemaEntryName item = "Z" then declaredScale item else s.mScale.z)) ∧
    ((loadSchemaItem item attributes s).2.mOffset.x =
        (if schemaEntryName item = "X" then declaredOffset item else s.mOffset.x) ∧
     (loadSchemaItem item attributes s).2.mOffset.y =
        (if schemaEntryName item = "Y" then declaredOffset item else s.mOffset.y) ∧
     (loadSchemaItem item attributes s).2.mOffset.z =
        (if schemaEntryName item = "Z" then declaredOffset item else s.mOffset.z)) := by
  obtain ⟨h1, h2⟩ := loadSchemaItem_scale_offset item attributes s h
  rw [h1, h2]
  by_cases hx : schemaEntryName item = "X"
  · have hy : ¬ schemaEntryName item = "Y" := by rw [hx]; decide
    have hz : ¬ schemaEntryName item = "Z" := by rw [hx]; decide
    simp [hx]
  · by_cases hy : schemaEntryName item = "Y"
    · have hz : ¬ schemaEntryName item = "Z" := by rw [hy]; decide
      simp [hy]
    · by_cases hz : schemaEntryName item = "Z"
      · simp [hz]
      · simp [hx, hy, hz]

theorem loadSchemaLoop_axes (items : QJsonArray)
    (attributes out : QgsPointCloudAttributeCollection) (s : QgsEptPointCloudIndex)
    (h : (loadSchemaLoop items attributes s).1 = some out) :
    ((loadSchemaLoop items attributes s).2.mScale.x = axisValue "X" declaredScale s.mScale.x items ∧
     (loadSchemaLoop items attributes s).2.mScale.y = axisValue "Y" declaredScale s.mScale.y items ∧
     (loadSchemaLoop items attributes s).2.mScale.z = axisValue "Z" declaredScale s.mScale.z items) ∧
    ((loadSchemaLoop items attributes s).2.mOffset.x
        = axisValue "X" declaredOffset s.mOffset.x items ∧
     (loadSchemaLoop items attributes s).2.mOffset.y
        = axisValue "Y" declaredOffset s.mOffset.y items ∧
     (loadSchemaLoop items attributes s).2.mOffset.z
        = axisValue "Z" declaredOffset s.mOffset.z items) := by
  induction items generalizing attributes s with
  | nil => exact ⟨⟨rfl, rfl, rfl⟩, ⟨rfl, rfl, rfl⟩⟩
  | cons item rest ih =>
    rcases hl : loadSchemaItem item attributes s with ⟨r, s1⟩
    cases r with
    | none => simp [loadSchemaLoop, hl] at h
    | some attrs =>
      have hitem := loadSchemaItem_axes item attributes s (by rw [hl]; simp)
      rw [hl] at hitem
      simp only [loadSchemaLoop, hl] at h ⊢
      obtain ⟨⟨a1, a2, a3⟩, ⟨b1, b2, b3⟩⟩ := ih attrs s1 h
      obtain ⟨⟨c1, c2, c3⟩, ⟨d1, d2, d3⟩⟩ := hitem
      simp only at c1 c2 c3 d1 d2 d3
      simp only [axisValue_cons]
      rw [a1, a2, a3, b1, b2, b3, c1, c2, c3, d1, d2, d3]
      exact ⟨⟨rfl, rfl, rfl⟩, ⟨rfl, rfl, rfl⟩⟩

/-- What an accepting `loadSchema` leaves: scale and offset as the loop over the schema sets
them, starting from those of the index, and the root bounds computed from them. -/
theorem loadSchema_accepted (dataJson : QByteArray) (s : QgsEptPointCloudIndex)
    (doc : QJsonDocument) (hparse : dataJson.fromJson = some doc)
    (hok : (loadSchema dataJson s).1 = true) :
    (((loadSchema dataJson s).2.mScale.x
        = axisValue "X" declaredScale s.mScale.x (doc.object.value "schema").toArray ∧
      (loadSchema dataJson s).2.mScale.y
        = axisValue "Y" declaredScale s.mScale.y (doc.object.value "schema").toArray ∧
      (loadSchema dataJson s).2.mScale.z
        = axisValue "Z" declaredScale s.mScale.z (doc.object.value "schema").toArray) ∧
     ((loadSchema dataJson s).2.mOffset.x
        = axisValue "X" declaredOffset s.mOffset.x (doc.object.value "schema").toArray ∧
      (loadSchema dataJson s).2.mOffset.y
        = axisValue "Y" declaredOffset s.mOffset.y (doc.object.value "schema").toArray ∧
      (loadSchema dataJson s).2.mOffset.z
        = axisValue "Z" declaredOffset s.mOffset.z (doc.object.value "schema").toArray)) ∧
    (loadSchema dataJson s).2.mRootBounds =
      ⟨Double.div (Double.sub (Double.finite (arrayDouble (doc.object.value "bounds").toArray 0))
          (Double.finite (loadSchema dataJson s).2.mOffset.x))
          (Double.finite (loadSchema dataJson s).2.mScale.x),
       Double.div (Double.sub (Double.finite (arrayDouble (doc.object.value "bounds").toArray 1))
          (Double.finite (loadSchema dataJson s).2.mOffset.y))
          (Double.finite (loadSchema dataJson s).2.mScale.y),
       Double.div (Double.sub (Double.finite (arrayDouble (doc.object.value "bounds").toArray 2))
          (Double.finite (loadSchema dataJson s).2.mOffset.z))
          (Double.finite (loadSchema dataJson s).2.mScale.z),
       Double.div (Double.sub (Double.finite (arrayDouble (doc.object.value "bounds").toArray 3))
          (Double.finite (loadSchema dataJson s).2.mOffset.x))
          (Double.finite (loadSchema dataJson s).2.mScale.x),
       Double.div (Double.sub (Double.finite (arrayDouble (doc.object.value "bounds").toArray 4))
          (Double.finite (loadSchema dataJson s).2.mOffset.y))
          (Double.finite (loadSchema dataJson s).2.mScale.y),
       Double.div (Double.sub (Double.finite (arrayDouble (doc.object.value "bounds").toArray 5))
          (Double.finite (loadSchema dataJson s).2.mOffset.z))
          (Double.finite (loadSchema dataJson s).2.mScale.z)⟩ := by
  rcases hh : loadSchemaHeader doc.object s with ⟨b, s1⟩
  cases b with
  | false => rw [loadSchema_header_false dataJson s s1 doc hparse hh] at hok; simp at hok
  | true =>
    have hs1 : s1.mScale = s.mScale ∧ s1.mOffset = s.mOffset := by
      have : s1 = (loadSchemaHeader doc.object s).2 := by rw [hh]
      rw [this]
      unfold loadSchemaHeader
      simp only
      split_ifs <;> exact ⟨rfl, rfl⟩
    rcases hl : loadSchemaLoop (doc.object.value "schema").toArray [] s1 with ⟨r, s2⟩
    cases r with
    | none => rw [loadSchema_loop_none dataJson s s1 s2 doc hparse hh hl] at hok; simp at hok
    | some attrs =>
      rw [loadSchema_loop_some dataJson s s1 s2 doc attrs hparse hh hl]
      have h := loadSchemaLoop_axes _ [] attrs s1 (by rw [hl])
      rw [hl, hs1.1, hs1.2] at h
      exact ⟨h, rfl⟩

theorem axisValue_of_last (name : String) (declared : QJsonValue → ℚ) (before : ℚ)
    (schema : QJsonArray) (e : QJsonValue) (h : lastNamed name schema = some e) :
    axisValue name declared before schema = declared e := by
  unfold axisValue
  rw [h]

theorem axisValue_of_none (name : String) (declared : QJsonValue → ℚ) (before : ℚ)
    (schema : QJsonArray) (h : lastNamed name schema = none) :
    axisValue name declared before schema = before := by
  unfold axisValue
  rw [h]

/-! ## C19: scale and offset of the axes -/

/-- C19: for every schema accepted by `loadSchema`, the index-wide scale and offset of each
axis are those declared by the schema entry named `X`, `Y` or `Z` for that axis (the last
one, should several entries share the name), and are left as they were when no entry has the
name; an entry without the key `scale` declares the scale 1 and one without the key `offset`
the offset 0; processing an entry named `X`, `Y` or `Z` leaves scale and offset of the other
two axes unchanged, and an entry with any other name leaves all three unchanged. -/
theorem loadSchema_axis_scale_offset (dataJson : QByteArray) (s : QgsEptPointCloudIndex)
    (doc : QJsonDocument) (hparse : dataJson.fromJson = some doc)
    (hok : (loadSchema dataJson s).1 = true) :
    ((∀ e, lastNamed "X" (doc.object.value "schema").toArray = some e →
        (loadSchema dataJson s).2.mScale.x = declaredScale e ∧
        (loadSchema dataJson s).2.mOffset.x = declaredOffset e) ∧
     (∀ e, lastNamed "Y" (doc.object.value "schema").toArray = some e →
        (loadSchema dataJson s).2.mScale.y = declaredScale e ∧
        (loadSchema dataJson s).2.mOffset.y = declaredOffset e) ∧
     (∀ e, lastNamed "Z" (doc.object.value "schema").toArray = some e →
        (loadSchema dataJson s).2.mScale.z = declaredScale e ∧
        (loadSchema dataJson s).2.mOffset.z = declaredOffset e)) ∧
    ((lastNamed "X" (doc.object.value "schema").toArray = none →
        (loadSchema dataJson s).2.mScale.x = s.mScale.x ∧
        (loadSchema dataJson s).2.mOffset.x = s.mOffset.x) ∧
     (lastNamed "Y" (doc.object.value "schema").toArray = none →
        (loadSchema dataJson s).2.mScale.y = s.mScale.y ∧
        (loadSchema dataJson s).2.mOffset.y = s.mOffset.y) ∧
     (lastNamed "Z" (doc.object.value "schema").toArray = none →
        (loadSchema dataJson s).2.mScale.z = s.mScale.z ∧
        (loadSchema dataJson s).2.mOffset.z = s.mOffset.z)) ∧
    (∀ item : QJsonValue,
      (item.toObject.contains "scale" = false → declaredScale item = 1) ∧
      (item.toObject.contains "scale" = true →
        declaredScale item = (item.toObject.value "scale").toDouble) ∧
      (item.toObject.contains "offset" = false → declaredOffset item = 0) ∧
      (item.toObject.contains "offset" = true →
        declaredOffset item = (item.toObject.value "offset").toDouble)) ∧
    (∀ (item : QJsonValue) (attributes : QgsPointCloudAttributeCollection)
        (u : QgsEptPointCloudIndex),
      (loadSchemaItem item attributes u).1 ≠ none →
      (schemaEntryName item = "X" →
        (loadSchemaItem item attributes u).2.mScale = ⟨declaredScale item, u.mScale.y, u.mScale.z⟩ ∧
        (loadSchemaItem item attributes u).2.mOffset
          = ⟨declaredOffset item, u.mOffset.y, u.mOffset.z⟩) ∧
      (schemaEntryName item = "Y" →
        (loadSchemaItem item attributes u).2.mScale = ⟨u.mScale.x, declaredScale item, u.mScale.z⟩ ∧
        (loadSchemaItem item attributes u).2.mOffset
          = ⟨u.mOffset.x, declaredOffset item, u.mOffset.z⟩) ∧
      (schemaEntryName item = "Z" →
        (loadSchemaItem item attributes u).2.mScale = ⟨u.mScale.x, u.mScale.y, declaredScale item⟩ ∧
        (loadSchemaItem item attributes u).2.mOffset
          = ⟨u.mOffset.x, u.mOffset.y, declaredOffset item⟩) ∧
      (schemaEntryName item ≠ "X" ∧ schemaEntryName item ≠ "Y" ∧ schemaEntryName item ≠ "Z" →
        (loadSchemaItem item attributes u).2.mScale = u.mScale ∧
        (loadSchemaItem item attributes u).2.mOffset = u.mOffset)) := by
  obtain ⟨⟨⟨sx, sy, sz⟩, ⟨ox, oy, oz⟩⟩, _⟩ := loadSchema_accepted dataJson s doc hparse hok
  refine ⟨⟨?_, ?_, ?_⟩, ⟨?_, ?_, ?_⟩, ?_, ?_⟩
  · intro e he
    exact ⟨sx.trans (axisValue_of_last _ _ _ _ e he), ox.trans (axisValue_of_last _ _ _ _ e he)⟩
  · intro e he
    exact ⟨sy.trans (axisValue_of_last _ _ _ _ e he), oy.trans (axisValue_of_last _ _ _ _ e he)⟩
  · intro e he
    exact ⟨sz.trans (axisValue_of_last _ _ _ _ e he), oz.trans (axisValue_of_last _ _ _ _ e he)⟩
  · intro he
    exact ⟨sx.trans (axisValue_of_none _ _ _ _ he), ox.trans (axisValue_of_none _ _ _ _ he)⟩
  · intro he
    exact ⟨sy.trans (axisValue_of_none _ _ _ _ he), oy.trans (axisValue_of_none _ _ _ _ he)⟩
  · intro he
    exact ⟨sz.trans (axisValue_of_none _ _ _ _ he), oz.trans (axisValue_of_none _ _ _ _ he)⟩
  · intro item
    unfold declaredScale declaredOffset
    refine ⟨?_, ?_, ?_, ?_⟩ <;> intro h <;> simp [h]
  · intro item attributes u hsome
    obtain ⟨h1, h2⟩ := loadSchemaItem_scale_offset item attributes u hsome
    rw [h1, h2]
    refine ⟨?_, ?_, ?_, ?_⟩
    · intro hx
      simp [hx]
    · intro hy
      have hx : ¬ schemaEntryName item = "X" := by rw [hy]; decide
      simp [hx, hy]
    · intro hz
      have hx : ¬ schemaEntryName item = "X" := by rw [hz]; decide
      have hy : ¬ schemaEntryName item = "Y" := by rw [hz]; decide
      simp [hx, hy, hz]
    · rintro ⟨hx, hy, hz⟩
      simp [hx, hy, hz]

/-- The sample schema has an entry `X` without the keys `scale` and `offset` and no entry
`Y`: after `loadSchema` the scale of `X` is 1 and its offset 0, and the scale of `Y` is the
one the index had before. -/
theorem loadSchema_axis_scale_offset_witness :
    (loadSchema (jsonBytes (sampleMetadata sampleSchema)) sampleIndex).2.mScale.x = 1 ∧
    (loadSchema (jsonBytes (sampleMetadata sampleSchema)) sampleIndex).2.mOffset.x = 0 ∧
    (loadSchema (jsonBytes (sampleMetadata sampleSchema)) sampleIndex).2.mScale.y
      = sampleIndex.mScale.y :=
  have h := loadSchema_axis_scale_offset (jsonBytes (sampleMetadata sampleSchema)) sampleIndex
    (QJsonDocument.ofObject (sampleMetadata sampleSchema)) rfl (by decide)
  ⟨(h.1.1 (schemaEntry "X" "signed" 4) rfl).1.trans
      ((h.2.2.1 (schemaEntry "X" "signed" 4)).1 (by decide)),
   (h.1.1 (schemaEntry "X" "signed" 4) rfl).2.trans
      ((h.2.2.1 (schemaEntry "X" "signed" 4)).2.2.1 (by decide)),
   (h.2.1.2.1 rfl).1⟩

/-! ## Lemmas on double arithmetic -/

namespace Double

theorem log_eq_of_bounds (a : ℚ) (e : ℤ) (ha : 0 < a) (hlo : (2 : ℚ) ^ e ≤ a)
    (hhi : a < (2 : ℚ) ^ (e + 1)) : Int.log 2 a = e := by
  have h1 : e ≤ Int.log 2 a := by
    apply (Int.zpow_le_iff_le_log (by norm_num) ha).mp
    exact_mod_cast hlo
  have h2 : Int.log 2 a < e + 1 := by
    apply (Int.lt_zpow_iff_log_lt (by norm_num) ha).mp
    exact_mod_cast hhi
  omega

/-- The rounding of a positive `q` of binary exponent `e >= -1022`, given the significand
`m` that `q` rounds to. -/
theorem round_pos_eq (q : ℚ) (e m : ℤ) (hq : 0 < q) (hlo : (2 : ℚ) ^ e ≤ q)
    (hhi : q < (2 : ℚ) ^ (e + 1)) (he : -1022 ≤ e)
    (hm : roundHalfEven (q / 2 ^ (e - 52)) = m) (hm0 : m ≠ 0)
    (hfin : (m : ℚ) * 2 ^ (e - 52) < 2 ^ 1024) :
    round q = finite (m * 2 ^ (e - 52)) := by
  have hu : ulpExponent |q| = e - 52 := by
    unfold ulpExponent
    rw [abs_of_pos hq, log_eq_of_bounds q e hq hlo hhi, max_eq_left he]
  unfold round
  rw [hu, abs_of_pos hq, hm]
  rw [if_neg (ne_of_gt hq), if_neg (not_le.mpr hfin), if_neg hm0, if_neg (not_lt.mpr hq.le)]

theorem roundHalfEven_intCast (n : ℤ) : roundHalfEven (n : ℚ) = n := by
  unfold roundHalfEven
  rw [Int.floor_intCast, sub_self, if_pos (by norm_num)]

/-- A result that is a double is delivered as it is. -/
theorem round_of_representable (q : ℚ) (h : Representable q) : round q = finite q := by
  obtain ⟨m, e, hm, he1, he2, rfl⟩ := h
  by_cases hm0 : m = 0
  · subst hm0
    simp [round]
  have hq0 : (m : ℚ) * 2 ^ e ≠ 0 := by
    apply mul_ne_zero
    · exact_mod_cast hm0
    · exact zpow_ne_zero _ (by norm_num)
  have h2pos : ∀ k : ℤ, (0 : ℚ) < 2 ^ k := fun k => zpow_pos (by norm_num) k
  have habs : |(m : ℚ) * 2 ^ e| = (|m| : ℤ) * 2 ^ e := by
    rw [abs_mul, abs_of_pos (h2pos e), Int.cast_abs]
  have hapos : (0 : ℚ) < (|m| : ℤ) * 2 ^ e := by
    rw [← habs]; exact abs_pos.mpr hq0
  have hm1 : (1 : ℤ) ≤ |m| := Int.one_le_abs hm0
  have hlog : Int.log 2 ((|m| : ℤ) * (2 : ℚ) ^ e) < e + 53 := by
    apply (Int.lt_zpow_iff_log_lt (by norm_num) hapos).mp
    have h3 : ((|m| : ℤ) : ℚ) * 2 ^ e < 2 ^ (53 : ℕ) * 2 ^ e :=
      mul_lt_mul_of_pos_right (by exact_mod_cast hm) (h2pos e)
    have h4 : (2 : ℚ) ^ (e + 53) = 2 ^ (53 : ℕ) * 2 ^ e := by
      rw [zpow_add₀ (by norm_num), mul_comm]
      norm_cast
    rw [Nat.cast_ofNat, h4]
    exact h3
  have hu : ulpExponent ((|m| : ℤ) * (2 : ℚ) ^ e) ≤ e := by
    unfold ulpExponent
    have : max (Int.log 2 ((|m| : ℤ) * (2 : ℚ) ^ e)) (-1022) ≤ e + 52 := by
      apply max_le <;> omega
    omega
  obtain ⟨k, hk⟩ := Int.eq_ofNat_of_zero_le (sub_nonneg.mpr hu)
  have hdiv : ((|m| : ℤ) : ℚ) * 2 ^ e / 2 ^ ulpExponent ((|m| : ℤ) * (2 : ℚ) ^ e)
      = ((|m| * 2 ^ k : ℤ) : ℚ) := by
    rw [mul_div_assoc, ← zpow_sub₀ (by norm_num), hk, zpow_natCast]
    norm_cast
  have hback : ((|m| * 2 ^ k : ℤ) : ℚ) * 2 ^ ulpExponent ((|m| : ℤ) * (2 : ℚ) ^ e)
      = ((|m| : ℤ) : ℚ) * 2 ^ e := by
    rw [← hdiv]
    exact div_mul_cancel₀ _ (ne_of_gt (h2pos _))
  have hfin : ((|m| : ℤ) : ℚ) * 2 ^ e < 2 ^ 1024 := by
    have h3 : ((|m| : ℤ) : ℚ) * 2 ^ e < 2 ^ (53 : ℕ) * 2 ^ e :=
      mul_lt_mul_of_pos_right (by exact_mod_cast hm) (h2pos e)
    have h4 : (2 : ℚ) ^ (53 : ℕ) * 2 ^ e ≤ 2 ^ (53 : ℕ) * 2 ^ (971 : ℤ) :=
      mul_le_mul_of_nonneg_left (zpow_le_zpow_right₀ (by norm_num) he2) (by positivity)
    have h5 : (2 : ℚ) ^ (53 : ℕ) * 2 ^ (971 : ℤ) = 2 ^ 1024 := by norm_num
    linarith
  have hne : (|m| * 2 ^ k : ℤ) ≠ 0 := by
    apply mul_ne_zero
    · omega
    · positivity
  unfold round
  rw [habs, hdiv, roundHalfEven_intCast, hback, ← habs]
  rw [if_neg hq0, if_neg (not_le.mpr (by rw [habs]; exact hfin)), if_neg hne]
  split
  · rename_i hneg
    rw [abs_of_neg hneg, neg_neg]
  · rename_i hneg
    rw [abs_of_nonneg (not_lt.mp hneg)]

theorem sub_exact (a b : ℚ) (h : Representable (a - b)) :
    sub (finite a) (finite b) = finite (a - b) := by
  simp only [sub]
  exact round_of_representable _ h

theorem div_exact (a b : ℚ) (hb : b ≠ 0) (h : Representable (a / b)) :
    (div (finite a) (finite b)).value = some (a / b) := by
  simp only [div, if_neg hb]
  by_cases ha : a = 0
  · subst ha
    rw [if_pos rfl, zero_div]
    split <;> rfl
  · rw [if_neg ha, round_of_representable _ h]
    rfl

theorem div_sub_exact (b o sc : ℚ) (hsc : sc ≠ 0) (h1 : Representable (b - o))
    (h2 : Representable ((b - o) / sc)) :
    (div (sub (finite b) (finite o)) (finite sc)).value = some ((b - o) / sc) := by
  rw [sub_exact b o h1]
  exact div_exact _ _ hsc h2

/-- The doubles nearest to 0.01, 0.1 and 0.3. -/
theorem round_decimals :
    round (1 / 100) = finite nearestToHundredth ∧ round (1 / 10) = finite nearestToTenth ∧
    round (3 / 10) = finite nearestToThreeTenths := by
  refine ⟨?_, ?_, ?_⟩
  · rw [round_pos_eq _ (-7) 5764607523034235 (by norm_num) (by norm_num) (by norm_num)
      (by norm_num) (by unfold roundHalfEven; norm_num) (by norm_num) (by norm_num)]
    unfold nearestToHundredth
    norm_num
  · rw [round_pos_eq _ (-4) 7205759403792794 (by norm_num) (by norm_num) (by norm_num)
      (by norm_num) (by unfold roundHalfEven; norm_num) (by norm_num) (by norm_num)]
    unfold nearestToTenth
    norm_num
  · rw [round_pos_eq _ (-2) 5404319552844595 (by norm_num) (by norm_num) (by norm_num)
      (by norm_num) (by unfold roundHalfEven; norm_num) (by norm_num) (by norm_num)]
    unfold nearestToThreeTenths
    norm_num

/-- In double arithmetic `( 0.3 - 0 ) / 0.1` is 2.9999999999999996. -/
theorem div_threeTenths_tenth :
    div (sub (finite nearestToThreeTenths) (finite 0)) (finite nearestToTenth)
      = finite (6755399441055743 / 2251799813685248) := by
  unfold nearestToThreeTenths nearestToTenth
  have h1 : sub (finite (5404319552844595 / 18014398509481984)) (finite 0)
      = finite (5404319552844595 / 18014398509481984) := by
    rw [sub_exact _ _ ⟨5404319552844595, -54, by norm_num, by norm_num, by norm_num, by norm_num⟩]
    norm_num
  rw [h1]
  simp only [div]
  rw [if_neg (by norm_num), if_neg (by norm_num)]
  rw [round_pos_eq _ 1 6755399441055743 (by norm_num) (by norm_num) (by norm_num) (by norm_num)
    (by unfold roundHalfEven; norm_num) (by norm_num) (by norm_num)]
  norm_num

/-- In double arithmetic `( 200 - 100 ) / 0.01` is 10000 and `( 100 - 100 ) / 0.01` is 0. -/
theorem div_hundred_hundredth :
    div (sub (finite 100) (finite 100)) (finite nearestToHundredth) = finite 0 ∧
    div (sub (finite 200) (finite 100)) (finite nearestToHundredth) = finite 10000 := by
  unfold nearestToHundredth
  constructor
  · have h1 : sub (finite 100) (finite 100) = finite 0 := by
      rw [sub_exact _ _ ⟨0, 0, by norm_num, by norm_num, by norm_num, by norm_num⟩]
      norm_num
    rw [h1]
    simp only [div]
    rw [if_neg (by norm_num), if_pos trivial, if_neg (by norm_num)]
  · have h1 : sub (finite 200) (finite 100) = finite 100 := by
      rw [sub_exact _ _ ⟨100, 0, by norm_num, by norm_num, by norm_num, by norm_num⟩]
      norm_num
    rw [h1]
    simp only [div]
    rw [if_neg (by norm_num), if_neg (by norm_num)]
    rw [round_pos_eq _ 13 5497558138880000 (by norm_num) (by norm_num) (by norm_num)
      (by norm_num) (by unfold roundHalfEven; norm_num) (by norm_num) (by norm_num)]
    norm_num

/-- In double arithmetic `( 200 - 0 ) / 0` is the positive infinity. -/
theorem div_by_zero_scale :
    div (sub (finite 200) (finite 0)) (finite 0) = inf false := by
  have h1 : sub (finite 200) (finite 0) = finite 200 := by
    rw [sub_exact _ _ ⟨200, 0, by norm_num, by norm_num, by norm_num, by norm_num⟩]
    norm_num
  rw [h1]
  simp only [div]
  rw [if_pos trivial, if_neg (by norm_num)]
  simp

end Double

/-! ## C15: the root bounds -/

/-- C15 as stated fails, the root bounds being computed in `double` arithmetic.  With the
outer bounds 0 and 0.3 and the scale 0.1 and offset 0 on `X` (each decimal being the double
nearest to it) `loadSchema` accepts the document and the upper root bound on `X` is
2.9999999999999996, which is not the quotient of the same numbers in exact arithmetic; with
the outer bound 200 and the scale 0 and offset 0 on `X` it accepts the document and the
upper root bound on `X` is the positive infinity. -/
theorem root_bound_is_rounded :
    ((loadSchema (jsonBytes tenthsMetadata) sampleIndex).1 = true ∧
     (loadSchema (jsonBytes tenthsMetadata) sampleIndex).2.mRootBounds.xMax
       = Double.finite (6755399441055743 / 2251799813685248) ∧
     (loadSchema (jsonBytes tenthsMetadata) sampleIndex).2.mRootBounds.xMax.value
       ≠ some ((nearestToThreeTenths - 0) / nearestToTenth)) ∧
    ((loadSchema (jsonBytes (sampleMetadata zeroScaleSchema)) sampleIndex).1 = true ∧
     (loadSchema (jsonBytes (sampleMetadata zeroScaleSchema)) sampleIndex).2.mRootBounds.xMax
       = Double.inf false) := by
  have hx : (loadSchema (jsonBytes tenthsMetadata) sampleIndex).2.mRootBounds.xMax
      = Double.finite (6755399441055743 / 2251799813685248) := by
    obtain ⟨⟨⟨sx, _, _⟩, ⟨ox, _, _⟩⟩, hb⟩ := loadSchema_accepted (jsonBytes tenthsMetadata)
      sampleIndex (QJsonDocument.ofObject tenthsMetadata) rfl (by decide)
    rw [hb]
    simp only
    rw [sx, ox]
    exact Double.div_threeTenths_tenth
  have hz : (loadSchema (jsonBytes (sampleMetadata zeroScaleSchema)) sampleIndex).2.mRootBounds.xMax
      = Double.inf false := by
    obtain ⟨⟨⟨sx, _, _⟩, ⟨ox, _, _⟩⟩, hb⟩ := loadSchema_accepted
      (jsonBytes (sampleMetadata zeroScaleSchema)) sampleIndex
      (QJsonDocument.ofObject (sampleMetadata zeroScaleSchema)) rfl (by decide)
    rw [hb]
    simp only
    rw [sx, ox]
    exact Double.div_by_zero_scale
  refine ⟨⟨by decide, hx, ?_⟩, by decide, hz⟩
  rw [hx]
  unfold nearestToThreeTenths nearestToTenth
  simp only [Double.value, ne_eq, Option.some.injEq]
  norm_num

/-- C15 as amended: for every metadata document accepted by `loadSchema`, each of the six root
bounds is `( outer bound - offset ) / scale` for its axis as `double` arithmetic computes it
(the difference rounded to the nearest double, then the quotient rounded to the nearest
double, an infinity or a NaN where the scale is 0), with the scale and offset that
`loadSchema` leaves for the axis, which are those declared by the schema entry named `X`, `Y`
or `Z` where the schema has one; the result is the exact rational value whenever the scale
is not 0 and the exact difference and the exact quotient are doubles. -/
theorem loadSchema_root_bounds (dataJson : QByteArray) (s : QgsEptPointCloudIndex)
    (doc : QJsonDocument) (hparse : dataJson.fromJson = some doc)
    (hok : (loadSchema dataJson s).1 = true) :
    (loadSchema dataJson s).2.mRootBounds =
      ⟨Double.div (Double.sub (Double.finite (arrayDouble (doc.object.value "bounds").toArray 0))
          (Double.finite (loadSchema dataJson s).2.mOffset.x))
          (Double.finite (loadSchema dataJson s).2.mScale.x),
       Double.div (Double.sub (Double.finite (arrayDouble (doc.object.value "bounds").toArray 1))
          (Double.finite (loadSchema dataJson s).2.mOffset.y))
          (Double.finite (loadSchema dataJson s).2.mScale.y),
       Double.div (Double.sub (Double.finite (arrayDouble (doc.object.value "bounds").toArray 2))
          (Double.finite (loadSchema dataJson s).2.mOffset.z))
          (Double.finite (loadSchema dataJson s).2.mScale.z),
       Double.div (Double.sub (Double.finite (arrayDouble (doc.object.value "bounds").toArray 3))
          (Double.finite (loadSchema dataJson s).2.mOffset.x))
          (Double.finite (loadSchema dataJson s).2.mScale.x),
       Double.div (Double.sub (Double.finite (arrayDouble (doc.object.value "bounds").toArray 4))
          (Double.finite (loadSchema dataJson s).2.mOffset.y))
          (Double.finite (loadSchema dataJson s).2.mScale.y),
       Double.div (Double.sub (Double.finite (arrayDouble (doc.object.value "bounds").toArray 5))
          (Double.finite (loadSchema dataJson s).2.mOffset.z))
          (Double.finite (loadSchema dataJson s).2.mScale.z)⟩ ∧
    (∀ e, lastNamed "X" (doc.object.value "schema").toArray = some e →
      (loadSchema dataJson s).2.mRootBounds.xMin =
        Double.div (Double.sub (Double.finite (arrayDouble (doc.object.value "bounds").toArray 0))
          (Double.finite (declaredOffset e))) (Double.finite (declaredScale e)) ∧
      (loadSchema dataJson s).2.mRootBounds.xMax =
        Double.div (Double.sub (Double.finite (arrayDouble (doc.object.value "bounds").toArray 3))
          (Double.finite (declaredOffset e))) (Double.finite (declaredScale e))) ∧
    (∀ e, lastNamed "Y" (doc.object.value "schema").toArray = some e →
      (loadSchema dataJson s).2.mRootBounds.yMin =
        Double.div (Double.sub (Double.finite (arrayDouble (doc.object.value "bounds").toArray 1))
          (Double.finite (declaredOffset e))) (Double.finite (declaredScale e)) ∧
      (loadSchema dataJson s).2.mRootBounds.yMax =
        Double.div (Double.sub (Double.finite (arrayDouble (doc.object.value "bounds").toArray 4))
          (Double.finite (declaredOffset e))) (Double.finite (declaredScale e))) ∧
    (∀ e, lastNamed "Z" (doc.object.value "schema").toArray = some e →
      (loadSchema dataJson s).2.mRootBounds.zMin =
        Double.div (Double.sub (Double.finite (arrayDouble (doc.object.value "bounds").toArray 2))
          (Double.finite (declaredOffset e))) (Double.finite (declaredScale e)) ∧
      (loadSchema dataJson s).2.mRootBounds.zMax =
        Double.div (Double.sub (Double.finite (arrayDouble (doc.object.value "bounds").toArray 5))
          (Double.finite (declaredOffset e))) (Double.finite (declaredScale e))) ∧
    (∀ b o sc : ℚ, sc ≠ 0 → Double.Representable (b - o) → Double.Representable ((b - o) / sc) →
      (Double.div (Double.sub (Double.finite b) (Double.finite o)) (Double.finite sc)).value
        = some ((b - o) / sc)) := by
  obtain ⟨⟨⟨sx, sy, sz⟩, ⟨ox, oy, oz⟩⟩, hb⟩ := loadSchema_accepted dataJson s doc hparse hok
  refine ⟨hb, ?_, ?_, ?_, Double.div_sub_exact⟩
  · intro e he
    rw [hb]
    simp only
    rw [sx, ox, axisValue_of_last _ _ _ _ e he, axisValue_of_last _ _ _ _ e he]
    exact ⟨rfl, rfl⟩
  · intro e he
    rw [hb]
    simp only
    rw [sy, oy, axisValue_of_last _ _ _ _ e he, axisValue_of_last _ _ _ _ e he]
    exact ⟨rfl, rfl⟩
  · intro e he
    rw [hb]
    simp only
    rw [sz, oz, axisValue_of_last _ _ _ _ e he, axisValue_of_last _ _ _ _ e he]
    exact ⟨rfl, rfl⟩

/-- With offset 100, scale 0.01 (the double nearest to it) and the outer bounds 100 and 200
on `X`, the root bound on `X` is from 0 to 10000. -/
theorem loadSchema_root_bounds_witness :
    (loadSchema (jsonBytes (sampleMetadata scaledSchema)) sampleIndex).2.mRootBounds.xMin
      = Double.finite 0 ∧
    (loadSchema (jsonBytes (sampleMetadata scaledSchema)) sampleIndex).2.mRootBounds.xMax
      = Double.finite 10000 := by
  have hs : declaredScale (scaledEntry "X" nearestToHundredth 100) = nearestToHundredth := rfl
  have ho : declaredOffset (scaledEntry "X" nearestToHundredth 100) = 100 := rfl
  have h0 : arrayDouble ((QJsonDocument.ofObject (sampleMetadata scaledSchema)).object.value
      "bounds").toArray 0 = 100 := rfl
  have h3 : arrayDouble ((QJsonDocument.ofObject (sampleMetadata scaledSchema)).object.value
      "bounds").toArray 3 = 200 := rfl
  have h := (loadSchema_root_bounds (jsonBytes (sampleMetadata scaledSchema)) sampleIndex
    (QJsonDocument.ofObject (sampleMetadata scaledSchema)) rfl (by decide)).2.1
    (scaledEntry "X" nearestToHundredth 100) rfl
  rw [hs, ho, h0, h3] at h
  exact ⟨h.1.trans Double.div_hundred_hundredth.1, h.2.trans Double.div_hundred_hundredth.2⟩

/-! ## C20: the hierarchy mutex -/

theorem hierarchyEntriesSync_held (o : QJsonObject) (tail : List SyncEvent) :
    lockDiscipline true (hierarchyEntriesSync o ++ tail) = lockDiscipline true tail := by
  induction o with
  | nil => rfl
  | cons e o ih =>
    obtain ⟨k, v⟩ := e
    simp only [hierarchyEntriesSync]
    split_ifs <;> simp [lockDiscipline, ih]

/-- The steps of `loadSingleNodeHierarchy` keep the discipline of the mutex and end with the
mutex not held: followed by further steps, they keep it if and only if those do. -/
theorem loadSingleNodeHierarchySync_then (env : Env) (n : IndexedPointCloudNode)
    (s : QgsEptPointCloudIndex) (tail : List SyncEvent) :
    lockDiscipline false (loadSingleNodeHierarchySync env n s ++ tail)
      = lockDiscipline false tail := by
  unfold loadSingleNodeHierarchySync
  split_ifs
  · simp [lockDiscipline]
  · simp [lockDiscipline]
  · cases (fetchHierarchyFile env (hierarchyFilePath s n) s).1 with
    | none => simp [lockDiscipline]
    | some d =>
      simp only
      cases hd : d.fromJson with
      | none => simp [lockDiscipline]
      | some doc =>
        simp only [List.append_assoc, List.cons_append, List.nil_append]
        simp only [lockDiscipline, Bool.true_and, Bool.not_false]
        rw [hierarchyEntriesSync_held]
        rfl

/-- The accesses of `loadSingleNodeHierarchy` keep the discipline of the mutex: its reads and
writes are under the mutex and its fetch is not. -/
theorem loadSingleNodeHierarchySync_disciplined (env : Env) (n : IndexedPointCloudNode)
    (s : QgsEptPointCloudIndex) :
    lockDiscipline false (loadSingleNodeHierarchySync env n s) = true := by
  have h := loadSingleNodeHierarchySync_then env n s []
  rw [List.append_nil] at h
  rw [h]
  rfl

theorem nodePointCountLoopSync_disciplined (env : Env) (n : IndexedPointCloudNode)
    (path : List IndexedPointCloudNode) (s : QgsEptPointCloudIndex) :
    lockDiscipline false (nodePointCountLoopSync env n path s) = true := by
  induction path generalizing s with
  | nil => rfl
  | cons node rest ih =>
    simp only [nodePointCountLoopSync, List.append_assoc, loadSingleNodeHierarchySync_then]
    split_ifs
    · rfl
    · simp only [List.cons_append, List.nil_append, lockDiscipline, Bool.true_and]
      exact ih _

/-- The accesses of `nodePointCount` keep the discipline of the mutex. -/
theorem nodePointCountSync_disciplined (env : Env) (n : IndexedPointCloudNode)
    (s : QgsEptPointCloudIndex) :
    lockDiscipline false (nodePointCountSync env n s) = true := by
  unfold nodePointCountSync
  split_ifs
  · rfl
  · simp only [List.cons_append, List.nil_append, lockDiscipline, Bool.true_and]
    exact nodePointCountLoopSync_disciplined env n _ s

/-- C20 fails on the code for `loadNodeHierarchy`: on a fresh index, with no hierarchy file
to be had, `loadNodeHierarchy( root )` locks the mutex, reads the count map and unlocks; then
the condition of its loop reads the count map again while the mutex is not held.  The fetch
is issued while the mutex is not held, as the claim has it. -/
theorem loadNodeHierarchy_reads_count_map_unlocked :
    loadNodeHierarchySync (sampleEnv none) rootNode sampleIndex =
      [SyncEvent.lock, SyncEvent.read, SyncEvent.unlock,
       SyncEvent.read,
       SyncEvent.lock, SyncEvent.read, SyncEvent.read, SyncEvent.unlock,
       SyncEvent.fetch] ∧
    lockDiscipline false (loadNodeHierarchySync (sampleEnv none) rootNode sampleIndex) = false ∧
    lockDiscipline false (loadSingleNodeHierarchySync (sampleEnv none) rootNode sampleIndex)
      = true := by
  decide

/-- The unlocked read is there in every call of `loadNodeHierarchy` for a node without a
count: the path is never empty, and the condition of the loop is evaluated after the
`unlock()`. -/
theorem loadNodeHierarchySync_not_disciplined (env : Env) (n : IndexedPointCloudNode)
    (s : QgsEptPointCloudIndex) (hc : QMap.contains s.mHierarchy n = false) :
    lockDiscipline false (loadNodeHierarchySync env n s) = false := by
  have hlen : (nodePathToRoot n).reverse.length = n.d.toNat + 1 := by
    rw [List.length_reverse]
    exact nodePathToRootLoop_length n.d.toNat n rfl
  cases hp : (nodePathToRoot n).reverse with
  | nil => rw [hp] at hlen; simp at hlen
  | cons node rest =>
    simp only [loadNodeHierarchySync, hc, hp, loadNodeHierarchyLoopSync, Bool.false_eq_true,
      if_false, List.cons_append, List.nil_append, lockDiscipline, Bool.false_and, Bool.and_false,
      Bool.true_and]

/-! ## C21: the path to the root -/

theorem nodePathToRootLoop_head (fuel : Nat) (n : IndexedPointCloudNode) :
    (nodePathToRootLoop fuel n).head? = some n := by
  cases fuel <;> rfl

theorem nodePathToRootLoop_chain (fuel : Nat) (n : IndexedPointCloudNode) :
    List.Chain' (fun a b => b = a.parentNode) (nodePathToRootLoop fuel n) := by
  induction fuel generalizing n with
  | zero => simp [nodePathToRootLoop]
  | succ fuel ih =>
    simp only [nodePathToRootLoop]
    rw [List.chain'_cons']
    split_ifs with hp
    · refine ⟨?_, ih n.parentNode⟩
      intro y hy
      rw [nodePathToRootLoop_head] at hy
      exact (Option.some.inj hy).symm
    · exact ⟨by simp, List.chain'_nil⟩

theorem nodePathToRootLoop_last (fuel : Nat) (n : IndexedPointCloudNode)
    (hd : n.d = fuel)
    (hx : 0 ≤ n.x ∧ n.x < 2 ^ fuel) (hy : 0 ≤ n.y ∧ n.y < 2 ^ fuel)
    (hz : 0 ≤ n.z ∧ n.z < 2 ^ fuel) :
    (nodePathToRootLoop fuel n).getLast? = some rootNode := by
  induction fuel generalizing n with
  | zero =>
    obtain ⟨d, x, y, z⟩ := n
    simp only [pow_zero] at hx hy hz
    simp only at hd
    have h1 : x = 0 := by omega
    have h2 : y = 0 := by omega
    have h3 : z = 0 := by omega
    subst h1 h2 h3
    simp only [Nat.cast_zero] at hd
    subst hd
    rfl
  | succ fuel ih =>
    have hpd : n.parentNode.d = n.d - 1 := rfl
    have hpx : n.parentNode.x = n.x / 2 := Int.tdiv_eq_ediv hx.1 (by decide)
    have hpy : n.parentNode.y = n.y / 2 := Int.tdiv_eq_ediv hy.1 (by decide)
    have hpz : n.parentNode.z = n.z / 2 := Int.tdiv_eq_ediv hz.1 (by decide)
    have hpow : (2 : Int) ^ (fuel + 1) = 2 * 2 ^ fuel := by rw [pow_succ]; ring
    rw [hpow] at hx hy hz
    have hpos : n.parentNode.d ≥ 0 := by rw [hpd, hd]; push_cast; omega
    have hrec := ih n.parentNode (by rw [hpd, hd]; push_cast; omega)
      (by rw [hpx]; omega) (by rw [hpy]; omega) (by rw [hpz]; omega)
    simp only [nodePathToRootLoop, hpos, if_true]
    cases hl : nodePathToRootLoop fuel n.parentNode with
    | nil => rw [hl] at hrec; simp at hrec
    | cons a l => rw [hl] at hrec; rw [List.getLast?_cons_cons]; exact hrec

/-- C21: for every node `n` of depth `d >= 0` with grid coordinates in `[0, 2^d)`, with the
parent of `(d, x, y, z)` being `(d-1, x/2, y/2, z/2)` and a depth below 0 ending the loop,
`nodePathToRoot( n )` terminates (the bound on the iterations of its loop is never reached
with the loop condition still true: every larger bound gives the same path) and returns
exactly `d + 1` nodes: `n` first, each following node the parent of the one before it, and
the root `(0, 0, 0, 0)` last. -/
theorem nodePathToRoot_from_node_to_root (n : IndexedPointCloudNode) (hd : 0 ≤ n.d)
    (hx : 0 ≤ n.x ∧ n.x < 2 ^ n.d.toNat) (hy : 0 ≤ n.y ∧ n.y < 2 ^ n.d.toNat)
    (hz : 0 ≤ n.z ∧ n.z < 2 ^ n.d.toNat) :
    (∀ fuel, n.d.toNat ≤ fuel → nodePathToRootLoop fuel n = nodePathToRoot n) ∧
    ((nodePathToRoot n).length : Int) = n.d + 1 ∧
    (nodePathToRoot n).head? = some n ∧
    List.Chain' (fun a b => b = a.parentNode) (nodePathToRoot n) ∧
    (nodePathToRoot n).getLast? = some rootNode := by
  refine ⟨fun fuel h => nodePathToRootLoop_fuel fuel n h, ?_, nodePathToRootLoop_head _ n,
    nodePathToRootLoop_chain _ n, ?_⟩
  · have h := nodePathToRootLoop_length n.d.toNat n rfl
    unfold nodePathToRoot
    rw [h]
    push_cast
    omega
  · exact nodePathToRootLoop_last n.d.toNat n (by omega) hx hy hz

/-- The path of node `2-3-1-0` is the node, its parent `1-1-0-0` and the root. -/
theorem nodePathToRoot_from_node_to_root_witness :
    nodePathToRoot ⟨2, 3, 1, 0⟩ = [⟨2, 3, 1, 0⟩, ⟨1, 1, 0, 0⟩, ⟨0, 0, 0, 0⟩] ∧
    ((nodePathToRoot ⟨2, 3, 1, 0⟩).length : Int) = (⟨2, 3, 1, 0⟩ : IndexedPointCloudNode).d + 1 ∧
    (nodePathToRoot ⟨2, 3, 1, 0⟩).getLast? = some rootNode :=
  have h := nodePathToRoot_from_node_to_root ⟨2, 3, 1, 0⟩ (by decide) (by decide) (by decide)
    (by decide)
  ⟨by decide, h.2.1, h.2.2.2.2⟩

/-! ## C22: the statistics that metadataStatistic answers -/

/-- C23: for every index state, every hierarchy operation (`loadSingleNodeHierarchy`,
`loadNodeHierarchy`, `hasNode`, `nodePointCount`) on any node in any environment, and every
node `m`: if `m` has a count entry before the operation it has one after it, and if `m` is in
the pending set before the operation it is in the pending set after it. -/
theorem hierarchy_only_grows (env : Env) (s : QgsEptPointCloudIndex)
    (nodeId m : IndexedPointCloudNode) :
    (QMap.contains s.mHierarchy m = true →
      QMap.contains (loadSingleNodeHierarchy env nodeId s).2.mHierarchy m = true ∧
      QMap.contains (loadNodeHierarchy env nodeId s).2.mHierarchy m = true ∧
      QMap.contains (hasNode env nodeId s).2.mHierarchy m = true ∧
      QMap.contains (nodePointCount env nodeId s).2.mHierarchy m = true) ∧
    (QSet.contains s.mHierarchyNodes m = true →
      QSet.contains (loadSingleNodeHierarchy env nodeId s).2.mHierarchyNodes m = true ∧
      QSet.contains (loadNodeHierarchy env nodeId s).2.mHierarchyNodes m = true ∧
      QSet.contains (hasNode env nodeId s).2.mHierarchyNodes m = true ∧
      QSet.contains (nodePointCount env nodeId s).2.mHierarchyNodes m = true) :=
  ⟨fun h => ⟨loadSingleNodeHierarchy_contains env nodeId m s h,
      loadNodeHierarchy_contains env nodeId m s h,
      loadNodeHierarchy_contains env nodeId m s h,
      nodePointCount_contains env nodeId m s h⟩,
   fun h => ⟨loadSingleNodeHierarchy_pending env nodeId m s h,
      loadNodeHierarchy_pending env nodeId m s h,
      loadNodeHierarchy_pending env nodeId m s h,
      nodePointCount_pending env nodeId m s h⟩⟩

/-- After `hasNode( root )` the root has a count and is pending; `nodePointCount( 1-0-0-0 )`,
which fetches two more entries, keeps both. -/
theorem hierarchy_only_grows_witness :
    QMap.contains (nodePointCount relistingEnv ⟨1, 0, 0, 0⟩
      (hasNode relistingEnv rootNode sampleIndex).2).2.mHierarchy rootNode = true ∧
    QSet.contains (nodePointCount relistingEnv ⟨1, 0, 0, 0⟩
      (hasNode relistingEnv rootNode sampleIndex).2).2.mHierarchyNodes rootNode = true :=
  have h := hierarchy_only_grows relistingEnv (hasNode relistingEnv rootNode sampleIndex).2
    ⟨1, 0, 0, 0⟩ rootNode
  ⟨(h.1 (by decide)).2.2.2, (h.2 (by decide)).2.2.2⟩

/-! ## C24: counts are non-negative -/

theorem applyHierarchyEntries_nonneg (f : String → IndexedPointCloudNode) (o : QJsonObject)
    (s : QgsEptPointCloudIndex) (h : CountsNonNegative s) :
    CountsNonNegative (applyHierarchyEntries f o s) := by
  induction o generalizing s with
  | nil => exact h
  | cons e o ih =>
    obtain ⟨k, v⟩ := e
    simp only [applyHierarchyEntries]
    split
    · rename_i hge
      apply ih
      intro n c hfind
      simp only at hfind
      by_cases hn : n = f k
      · subst hn
        rw [qmap_find_insert_self] at hfind
        obtain rfl := Option.some.inj hfind
        exact hge
      · rw [qmap_find_insert_ne _ _ _ _ hn] at hfind
        exact h n c hfind
    · split
      · exact ih _ h
      · exact ih _ h

theorem loadSingleNodeHierarchy_nonneg (env : Env) (n : IndexedPointCloudNode)
    (s : QgsEptPointCloudIndex) (h : CountsNonNegative s) :
    CountsNonNegative (loadSingleNodeHierarchy env n s).2 := by
  cases hc : QMap.contains s.mHierarchy n with
  | true => rw [loadSingleNodeHierarchy_known env n s hc]; exact h
  | false =>
    cases hp : QSet.contains s.mHierarchyNodes n with
    | false => rw [loadSingleNodeHierarchy_not_pending env n s hp]; exact h
    | true =>
      rw [loadSingleNodeHierarchy_fetch env n s hc hp]
      have hs := (fetchHierarchyFile_store env (hierarchyFilePath s n) s).1
      have hf0 : CountsNonNegative (fetchHierarchyFile env (hierarchyFilePath s n) s).2 := by
        intro m c hfind
        rw [hs] at hfind
        exact h m c hfind
      cases hf : (fetchHierarchyFile env (hierarchyFilePath s n) s).1 with
      | none => exact hf0
      | some d =>
        simp only
        cases hd : d.fromJson with
        | none => exact hf0
        | some doc => exact applyHierarchyEntries_nonneg _ _ _ hf0

theorem loadNodeHierarchyLoop_nonneg (env : Env) (n : IndexedPointCloudNode)
    (path : List IndexedPointCloudNode) (s : QgsEptPointCloudIndex) (h : CountsNonNegative s) :
    CountsNonNegative (loadNodeHierarchyLoop env n path s).2 := by
  induction path generalizing s with
  | nil => exact h
  | cons node rest ih =>
    cases hc : QMap.contains s.mHierarchy n with
    | true => simp only [loadNodeHierarchyLoop, hc, if_true]; exact h
    | false =>
      have h1 := loadSingleNodeHierarchy_nonneg env node s h
      rcases hl : loadSingleNodeHierarchy env node s with ⟨b, s1⟩
      rw [hl] at h1
      cases b with
      | false => simp only [loadNodeHierarchyLoop, hc, hl, Bool.false_eq_true, if_false]; exact h1
      | true =>
        simp only [loadNodeHierarchyLoop, hc, hl, Bool.false_eq_true, if_false]
        exact ih s1 h1

theorem loadNodeHierarchy_nonneg (env : Env) (n : IndexedPointCloudNode)
    (s : QgsEptPointCloudIndex) (h : CountsNonNegative s) :
    CountsNonNegative (loadNodeHierarchy env n s).2 := by
  rcases loadNodeHierarchy_state env n s with h1 | h1
  · rw [h1]; exact h
  · rw [h1]; exact loadNodeHierarchyLoop_nonneg env n _ s h

theorem nodePointCountLoop_nonneg (env : Env) (n : IndexedPointCloudNode)
    (path : List IndexedPointCloudNode) (s : QgsEptPointCloudIndex) (h : CountsNonNegative s) :
    CountsNonNegative (nodePointCountLoop env n path s).2 := by
  induction path generalizing s with
  | nil => exact h
  | cons node rest ih =>
    have h1 := loadSingleNodeHierarchy_nonneg env node s h
    simp only [nodePointCountLoop]
    split
    · exact h1
    · exact ih _ h1

theorem nodePointCount_nonneg (env : Env) (n : IndexedPointCloudNode)
    (s : QgsEptPointCloudIndex) (h : CountsNonNegative s) :
    CountsNonNegative (nodePointCount env n s).2 := by
  rcases nodePointCount_state env n s with h1 | h1
  · rw [h1]; exact h
  · rw [h1]; exact nodePointCountLoop_nonneg env n _ s h

theorem load_nonneg (env : Env) (urlString : String) (s : QgsEptPointCloudIndex)
    (h : CountsNonNegative s) : CountsNonNegative (load env urlString s) := by
  rcases load_state env urlString s with ⟨h1, _⟩ | ⟨t, h1, _, h3, _⟩
  · intro m c hfind
    rw [h1] at hfind
    exact h m c hfind
  · have ht : CountsNonNegative t := by
      intro m c hfind
      rw [h1] at hfind
      exact h m c hfind
    have h2 := loadNodeHierarchy_nonneg env rootNode t ht
    intro m c hfind
    rw [h3] at hfind
    exact h2 m c hfind

theorem reachable_nonneg (s : QgsEptPointCloudIndex) (hs : Reachable s) :
    CountsNonNegative s := by
  induction hs with
  | construct base =>
    intro m c hfind
    simp [QgsEptPointCloudIndex.construct, QMap.find] at hfind
  | load env urlString s _ ih => exact load_nonneg env urlString s ih
  | loadSingleNodeHierarchy env n s _ ih => exact loadSingleNodeHierarchy_nonneg env n s ih
  | loadNodeHierarchy env n s _ ih => exact loadNodeHierarchy_nonneg env n s ih
  | hasNode env n s _ ih => exact loadNodeHierarchy_nonneg env n s ih
  | nodePointCount env n s _ ih => exact nodePointCount_nonneg env n s ih

theorem nodePointCountLoop_value (env : Env) (n : IndexedPointCloudNode)
    (path : List IndexedPointCloudNode) (s : QgsEptPointCloudIndex)
    (h : QMap.value s.mHierarchy n (-1) = -1) :
    (nodePointCountLoop env n path s).1 =
      QMap.value (nodePointCountLoop env n path s).2.mHierarchy n (-1) := by
  induction path generalizing s with
  | nil => exact h.symm
  | cons node rest ih =>
    simp only [nodePointCountLoop]
    split
    · rfl
    · rename_i hv
      exact ih _ (by simpa using hv)

/-- What `nodePointCount` returns is what `value( nodeId, -1 )` gives on the count map as
the call leaves it. -/
theorem nodePointCount_value (env : Env) (n : IndexedPointCloudNode)
    (s : QgsEptPointCloudIndex) :
    (nodePointCount env n s).1 = QMap.value (nodePointCount env n s).2.mHierarchy n (-1) := by
  unfold nodePointCount
  by_cases h : QMap.value s.mHierarchy n (-1) ≠ -1
  · rw [if_pos h]
  · rw [if_neg h]
    exact nodePointCountLoop_value env n _ s (by simpa using h)

/-- C24: in every state reachable from a freshly constructed index through `load` and the
hierarchy operations every count stored in the count map is non-negative, so the `-1` of
`nodePointCount` is unambiguous: for every node `n`, `nodePointCount( n )` returns `-1`
exactly when `n` has no count entry in the state the call leaves, and otherwise returns the
count stored for `n` in that state. -/
theorem reachable_counts_nonneg_and_sentinel (s : QgsEptPointCloudIndex) (hs : Reachable s) :
    CountsNonNegative s ∧
    ∀ (env : Env) (n : IndexedPointCloudNode),
      CountsNonNegative (nodePointCount env n s).2 ∧
      ((nodePointCount env n s).1 = -1 ↔
        QMap.find (nodePointCount env n s).2.mHierarchy n = none) ∧
      (∀ c, QMap.find (nodePointCount env n s).2.mHierarchy n = some c →
        (nodePointCount env n s).1 = c) := by
  have h0 := reachable_nonneg s hs
  refine ⟨h0, ?_⟩
  intro env n
  have h1 := nodePointCount_nonneg env n s h0
  have hv := nodePointCount_value env n s
  refine ⟨h1, ?_, ?_⟩
  · rw [hv]
    cases hf : QMap.find (nodePointCount env n s).2.mHierarchy n with
    | none => simp [QMap.value, hf]
    | some c =>
      have hc := h1 n c hf
      simp only [QMap.value, hf, Option.getD_some]
      constructor
      · intro h; omega
      · intro h; cases h
  · intro c hf
    rw [hv]
    simp [QMap.value, hf]

/-- On a fresh index `nodePointCount( 1-0-0-0 )` returns the count 5 that it leaves stored
for the node, and `nodePointCount( 2-0-0-0 )` returns `-1` and leaves no entry for the
node. -/
theorem reachable_counts_nonneg_and_sentinel_witness :
    (nodePointCount relistingEnv ⟨1, 0, 0, 0⟩ sampleIndex).1 = 5 ∧
    (nodePointCount relistingEnv ⟨2, 0, 0, 0⟩ sampleIndex).1 = -1 ∧
    QMap.find (nodePointCount relistingEnv ⟨2, 0, 0, 0⟩ sampleIndex).2.mHierarchy ⟨2, 0, 0, 0⟩
      = none :=
  have h := (reachable_counts_nonneg_and_sentinel sampleIndex (Reachable.construct sampleBase)).2
  ⟨(h relistingEnv ⟨1, 0, 0, 0⟩).2.2 5 (by decide),
   by decide,
   (h relistingEnv ⟨2, 0, 0, 0⟩).2.1.mp (by decide)⟩
